import Mathlib

/-!
Verification development for the tokenfusion multi-format converter
(JSON / TOON / CSV / YAML interchange engine).

The Python sources under `backend/` are shallowly embedded here:

* text is modelled as `List Char` (called `Chars`); the Python `str`
  operations used by the code (`strip`, `split`, `startswith`, `index`,
  `count`, `lower`, `isdigit`, `replace`, slices, membership) are
  reimplemented character by character;
* `dict` values are modelled as ordered association lists with Python's
  insert-or-overwrite assignment semantics;
* the dynamically typed JSON value trees are modelled by the mutual
  inductive `Val` / `ValList` / `ObjList`;
* CPython floats are not given numeric semantics: a decoded float keeps
  the literal it was parsed from (`Val.float`).  No theorem below depends
  on the numeric value of a float;
* external libraries (`json.loads`, `yaml.safe_load`, `tiktoken`,
  `ast.literal_eval`, the full conversion entry point used by the HTTP
  layer) are black boxes in the sources and are therefore parameters
  (oracles) of the embedded functions that call them;
* fallible Python code (statements that can raise) is embedded in
  `Except Chars`.
-/

/-- Text, modelled as a list of characters (Python `str`). -/
abbrev Chars := List Char

/-- The single-quote character, written via its code point. -/
def sQuote : Char := Char.ofNat 39

/-- The double-quote character, written via its code point. -/
def dQuote : Char := Char.ofNat 34

/-- Python `str.isspace` on one character, for the whitespace characters
Python's `strip` removes (space, tab, newline, carriage return, vertical
tab, form feed). -/
def pyIsSpace (c : Char) : Bool :=
  c = ' ' || c = '\t' || c = '\n' || c = '\r' || c = Char.ofNat 11 || c = Char.ofNat 12

/-- Python `str.lstrip()`. -/
def pyStripL (s : Chars) : Chars := s.dropWhile pyIsSpace

/-- Python `str.rstrip()`. -/
def pyStripR (s : Chars) : Chars := (s.reverse.dropWhile pyIsSpace).reverse

/-- Python `str.strip()`. -/
def pyStrip (s : Chars) : Chars := pyStripR (pyStripL s)

/-- Python `sep in s` for a one-character separator / `str.__contains__`. -/
def pyHasChar (c : Char) (s : Chars) : Bool := s.contains c

/-- Python `s.split(c)` for a one-character separator (keeps empty parts;
`"".split(c) == ['']`). -/
def pySplit (c : Char) (s : Chars) : List Chars := s.splitOn c

/-- Python `s.split(c, 1)`: split at the first occurrence of `c`.
Returns `none` when `c` does not occur. -/
def pySplitFirst (c : Char) : Chars → Option (Chars × Chars)
  | [] => none
  | x :: xs =>
      if x = c then some ([], xs)
      else (pySplitFirst c xs).map (fun p => (x :: p.1, p.2))

/-- Python `s.index(c)` restricted to single characters; `none` models the
`ValueError` raised when the character is absent. -/
def pyIndex (c : Char) : Chars → Option Nat
  | [] => none
  | x :: xs => if x = c then some 0 else (pyIndex c xs).map (· + 1)

/-- Python `s.count(c)` for a single character. -/
def pyCount (c : Char) (s : Chars) : Nat := s.count c

/-- Python `s.startswith(p)`. -/
def pyStartsWith (p s : Chars) : Bool := p.isPrefixOf s

/-- Python `s.endswith(p)`. -/
def pyEndsWith (p s : Chars) : Bool := p.isSuffixOf s

/-- Python `needle in haystack` (substring containment). -/
def pyHasSub (needle : Chars) : Chars → Bool
  | [] => needle.isEmpty
  | x :: xs => needle.isPrefixOf (x :: xs) || pyHasSub needle xs

/-- Python `s.lower()` (the sources only compare ASCII literals). -/
def pyLower (s : Chars) : Chars := s.map Char.toLower

/-- Python `s.replace(c, '')` for a single character. -/
def pyRemove (c : Char) (s : Chars) : Chars := s.filter (fun x => x ≠ c)

/-- Python `s.isdigit()` on the ASCII fragment the converter feeds it:
true iff the text is non-empty and all characters are `0`-`9`. -/
def pyIsDigits (s : Chars) : Bool := !s.isEmpty && s.all Char.isDigit

/-- Python slice `s[a:b]` (as used with `0 ≤ a`): characters from index
`a` up to (excluding) index `b`; an empty slice when `b ≤ a`. -/
def pySlice (a b : Nat) (s : Chars) : Chars := (s.drop a).take (b - a)

/-- Python slice `s[a:]`. -/
def pySliceFrom (a : Nat) (s : Chars) : Chars := s.drop a

/-- Numeric value of a digit run (helper for the embedded `int(...)`). -/
def charsToNat (s : Chars) : Nat :=
  s.foldl (fun a c => 10 * a + (c.toNat - 48)) 0

/-- Decimal digits of a natural number; the fuel argument makes the
recursion structural so that concrete values reduce in the kernel. -/
def natCharsAux : Nat → Nat → Chars
  | 0, _ => []
  | fuel + 1, n => if n < 10 then [Char.ofNat (48 + n)]
      else natCharsAux fuel (n / 10) ++ [Char.ofNat (48 + n % 10)]

/-- Python `str(n)` for a non-negative integer. -/
def natChars (n : Nat) : Chars := natCharsAux (n + 1) n

/-- Python `str(n)` for an integer. -/
def intChars : Int → Chars
  | Int.ofNat n => natChars n
  | Int.negSucc n => '-' :: natChars (n + 1)

/-- Python `int(s)` on text made of digits and minus signs (the guarded
call sites of the converter): succeeds exactly on an optional single
leading minus followed by at least one digit. -/
def pyIntOfSigned (s : Chars) : Option Int :=
  match s with
  | [] => if pyIsDigits [] then some ((charsToNat [] : Int)) else none
  | c :: rest =>
      if c = '-' then (if pyIsDigits rest then some (-(charsToNat rest : Int)) else none)
      else if pyIsDigits (c :: rest) then some ((charsToNat (c :: rest) : Int)) else none

/-- Digit run with the underscores CPython's `int`/`float` literals allow
between digits (no leading, trailing or doubled underscore). -/
def digitsUAfter : Chars → Bool
  | [] => true
  | c :: rest =>
      if c = '_' then
        match rest with
        | [] => false
        | d :: rest2 => d.isDigit && digitsUAfter rest2
      else c.isDigit && digitsUAfter rest

/-- A digit run with optional single underscores between digits. -/
def digitsU : Chars → Bool
  | [] => false
  | c :: rest => c.isDigit && digitsUAfter rest

/-- Python `int(s)` for an arbitrary string (base 10): strip whitespace,
optional sign, digit run with optional underscores. -/
def pyIntParse (s : Chars) : Option Int :=
  match pyStrip s with
  | [] => if digitsU [] then some ((charsToNat (pyRemove '_' []) : Int)) else none
  | c :: rest =>
      if c = '-' then (if digitsU rest then some (-(charsToNat (pyRemove '_' rest) : Int)) else none)
      else if c = '+' then
        (if digitsU rest then some ((charsToNat (pyRemove '_' rest) : Int)) else none)
      else if digitsU (c :: rest) then
        some ((charsToNat (pyRemove '_' (c :: rest)) : Int))
      else none

/-- Exponent part of a CPython float literal: `e`/`E`, optional sign,
digit run. -/
def floatExpOk : Chars → Bool
  | [] => true
  | e :: rest =>
      (e = 'e' || e = 'E') &&
      (match rest with
       | '+' :: ds => digitsU ds
       | '-' :: ds => digitsU ds
       | ds => digitsU ds)

/-- Mantissa-and-exponent part of a CPython float literal
(`digits [. [digits]] [exp]` or `. digits [exp]`). -/
def floatBodyOk (s : Chars) : Bool :=
  let intPart := s.takeWhile (fun c => c ≠ '.' && c ≠ 'e' && c ≠ 'E')
  let rest := s.drop intPart.length
  match rest with
  | '.' :: tail =>
      let fracPart := tail.takeWhile (fun c => c ≠ 'e' && c ≠ 'E')
      let expPart := tail.drop fracPart.length
      if intPart.isEmpty then digitsU fracPart && floatExpOk expPart
      else digitsU intPart &&
        (fracPart.isEmpty || digitsU fracPart) && floatExpOk expPart
  | [] => digitsU intPart
  | expPart => digitsU intPart && floatExpOk expPart

/-- Python `float(s)` validity for an arbitrary string: strip whitespace,
optional sign, then a numeric body or the words `inf`/`infinity`/`nan`. -/
def pyFloatOk (s : Chars) : Bool :=
  let t := pyStrip s
  let u := match t with
           | '-' :: rest => rest
           | '+' :: rest => rest
           | _ => t
  let low := pyLower u
  floatBodyOk u || low = "inf".data || low = "infinity".data || low = "nan".data

example : pyStrip "  a b\t\n".data = "a b".data := by decide
example : pySplit ',' "a,,b".data = ["a".data, [], "b".data] := by decide
example : pySplitFirst ':' "a.b:c:d".data = some ("a.b".data, "c:d".data) := by decide
example : pyHasSub "]\x7b".data "[2]\x7ba\x7d:".data = true := by decide
example : natChars 120 = "120".data := by decide
example : intChars (-45) = "-45".data := by decide
example : pyIntParse " -4_2 ".data = some (-42) := by decide
example : pyIntParse "4-2".data = none := by decide
example : pyFloatOk "-1.5e3".data = true := by decide
example : pyFloatOk "1.2.3".data = false := by decide
example : pyFloatOk ".5".data = true := by decide
example : pyFloatOk "5.".data = true := by decide
example : pyFloatOk ".".data = false := by decide

/-!  The JSON-shaped value model (spec §3): a dynamically typed tree of
null, booleans, numbers (integer / float distinguished), strings, ordered
sequences and ordered mappings.  `ValList` and `ObjList` are the spines of
sequences and mappings, kept as separate inductives so that all recursions
below are structural and reduce in the kernel. -/
mutual
inductive Val where
  | null
  | bool (b : Bool)
  | int (n : Int)
  | float (lit : Chars)
  | str (s : Chars)
  | arr (xs : ValList)
  | obj (kvs : ObjList)
deriving DecidableEq, Repr

inductive ValList where
  | nil
  | cons (v : Val) (tl : ValList)
deriving DecidableEq, Repr

inductive ObjList where
  | nil
  | cons (k : Chars) (v : Val) (tl : ObjList)
deriving DecidableEq, Repr
end

/-- View of a sequence spine as an ordinary list. -/
def ValList.toList : ValList → List Val
  | .nil => []
  | .cons v tl => v :: tl.toList

/-- Build a sequence spine from an ordinary list. -/
def ValList.ofList : List Val → ValList
  | [] => .nil
  | v :: tl => .cons v (ValList.ofList tl)

/-- View of a mapping spine as an ordinary association list. -/
def ObjList.toList : ObjList → List (Chars × Val)
  | .nil => []
  | .cons k v tl => (k, v) :: tl.toList

/-- Build a mapping spine from an ordinary association list. -/
def ObjList.ofList : List (Chars × Val) → ObjList
  | [] => .nil
  | (k, v) :: tl => .cons k v (ObjList.ofList tl)

/-- Python `list(d.keys())`: the keys of a mapping in insertion order. -/
def ObjList.keys : ObjList → List Chars
  | .nil => []
  | .cons k _ tl => k :: tl.keys

/-- Python `k in d` / dictionary key membership. -/
def ObjList.hasKey (k : Chars) : ObjList → Bool
  | .nil => false
  | .cons k' _ tl => k' = k || tl.hasKey k

/-- Python `d[k]` (`none` models the `KeyError`). -/
def ObjList.find (k : Chars) : ObjList → Option Val
  | .nil => none
  | .cons k' v tl => if k' = k then some v else tl.find k

/-- Python `d[k] = v`: overwrite in place when the key exists, otherwise
append preserving insertion order. -/
def ObjList.set (k : Chars) (v : Val) : ObjList → ObjList
  | .nil => .cons k v .nil
  | .cons k' v' tl => if k' = k then .cons k' v tl else .cons k' v' (tl.set k v)

/-- Python `len(lst)`. -/
def ValList.length : ValList → Nat
  | .nil => 0
  | .cons _ tl => tl.length + 1

/-- Python `lst.append(v)`. -/
def ValList.push (v : Val) : ValList → ValList
  | .nil => .cons v .nil
  | .cons w tl => .cons w (tl.push v)

/-- Python `lst[i]` (`none` models the `IndexError`). -/
def ValList.get : ValList → Nat → Option Val
  | .nil, _ => none
  | .cons v _, 0 => some v
  | .cons _ tl, n + 1 => tl.get n

/-- Python `lst[i] = v` (the call sites guarantee `i < len`). -/
def ValList.setAt : ValList → Nat → Val → ValList
  | .nil, _, _ => .nil
  | .cons _ tl, 0, v => .cons v tl
  | .cons w tl, n + 1, v => .cons w (tl.setAt n v)

/-- True for the values Python's `isinstance(v, (dict, list))` accepts. -/
def Val.isContainer : Val → Bool
  | .arr _ => true
  | .obj _ => true
  | _ => false

/-- True for mappings (`isinstance(v, dict)`). -/
def Val.isObj : Val → Bool
  | .obj _ => true
  | _ => false

/-!  Python `str()` / `repr()` of a value.  `str` is used by the TOON
encoder for scalars and falls back to `repr`-style rendering for
containers (the literal CPython prints for nested dicts/lists).  A string
`repr` picks single quotes unless the text contains a single quote and no
double quote, exactly as CPython does; only the common escapes are
rendered. -/

/-- Escape one character of a string repr with quote character `q`. -/
def pyReprEscChar (q : Char) (c : Char) : Chars :=
  if c = '\\' then ['\\', '\\']
  else if c = q then ['\\', q]
  else if c = '\n' then ['\\', 'n']
  else if c = '\r' then ['\\', 'r']
  else if c = '\t' then ['\\', 't']
  else [c]

/-- Python `repr` of a string. -/
def pyStrRepr (s : Chars) : Chars :=
  let q := if s.contains sQuote && !s.contains dQuote then dQuote else sQuote
  q :: (s.flatMap (pyReprEscChar q)) ++ [q]

mutual
/-- Python `repr(v)` for a value tree. -/
def pyRepr : Val → Chars
  | .null => "None".data
  | .bool true => "True".data
  | .bool false => "False".data
  | .int n => intChars n
  | .float lit => lit
  | .str s => pyStrRepr s
  | .arr xs => '[' :: pyReprList xs ++ [']']
  | .obj kvs => '\x7b' :: pyReprObj kvs ++ ['\x7d']

/-- comma-joined reprs of sequence elements -/
def pyReprList : ValList → Chars
  | .nil => []
  | .cons v .nil => pyRepr v
  | .cons v tl => pyRepr v ++ ", ".data ++ pyReprList tl

/-- comma-joined `key: value` reprs of mapping entries -/
def pyReprObj : ObjList → Chars
  | .nil => []
  | .cons k v .nil => pyStrRepr k ++ ": ".data ++ pyRepr v
  | .cons k v tl => pyStrRepr k ++ ": ".data ++ pyRepr v ++ ", ".data ++ pyReprObj tl
end

/-- Python `str(v)`: identical to `repr` except on strings, which print
verbatim. -/
def pyStr : Val → Chars
  | .str s => s
  | v => pyRepr v

example : pyStr (.int (-3)) = "-3".data := by decide
example : pyStr (.bool true) = "True".data := by decide
example : pyStr (.obj (.cons "a".data (.int 1) .nil)) = "\x7b'a': 1\x7d".data := by decide
example : (ObjList.cons "a".data (.int 1) .nil).set "a".data (.int 2)
    = .cons "a".data (.int 2) .nil := by decide

/-!  ToonCodec — scalar parsing and encoding (multi_converter.py). -/

/-- The inner `parse_value` of `toon_to_json`: number (float before int,
a raising `float`/`int` falling through to the later checks), then
boolean, then null, then string.  A successfully parsed float keeps its
literal text. -/
def parse_value (raw : Chars) : Val :=
  if raw = [] then .null
  else
    let s := pyStrip raw
    let afterNumber : Val :=
      if pyLower s = "true".data then .bool true
      else if pyLower s = "false".data then .bool false
      else if pyLower s = "none".data || pyLower s = "null".data then .null
      else .str s
    if pyHasChar '.' s && pyIsDigits (pyRemove '-' (pyRemove '.' s)) then
      if pyFloatOk s then .float s else afterNumber
    else if pyIsDigits (pyRemove '-' s) then
      match pyIntOfSigned s with
      | some n => .int n
      | none => afterNumber
    else afterNumber

/-- The inner `format_value` of `json_to_toon`: `null`, `true`/`false`,
otherwise Python `str(...)`. -/
def format_value : Val → Chars
  | .null => "null".data
  | .bool true => "true".data
  | .bool false => "false".data
  | v => pyStr v

/-- Python `set(ks1) == set(ks2)`: equality of key sets, order- and
multiplicity-insensitive. -/
def sameKeySet (ks1 ks2 : List Chars) : Bool :=
  ks1.all (fun k => ks2.contains k) && ks2.all (fun k => ks1.contains k)

/-- Python `all(isinstance(item, dict) for item in obj)`. -/
def ValList.allObj : ValList → Bool
  | .nil => true
  | .cons v tl => v.isObj && tl.allObj

/-- Keys of the first element (call sites guarantee it is a mapping). -/
def ValList.firstObjKeys : ValList → List Chars
  | .cons (.obj kvs) _ => kvs.keys
  | _ => []

/-- Python `all(set(item.keys()) == first_keys for item in obj)`
(evaluated only after `allObj` has succeeded). -/
def ValList.allKeySetEq (ks : List Chars) : ValList → Bool
  | .nil => true
  | .cons (.obj kvs) tl => sameKeySet kvs.keys ks && tl.allKeySetEq ks
  | .cons _ _ => false

/-- `is_array_of_objects`: a non-empty list of dicts that all share the
first element's key set. -/
def is_array_of_objects (v : Val) : Bool :=
  match v with
  | .arr .nil => false
  | .arr xs => xs.allObj && xs.allKeySetEq xs.firstObjKeys
  | _ => false

/-- Python `item[key]` for a mapping value (the tabular encoder's call
sites guarantee the key is present; `.null` stands for the unreachable
`KeyError`). -/
def Val.objGet (item : Val) (k : Chars) : Val :=
  match item with
  | .obj kvs => (kvs.find k).getD .null
  | _ => .null

mutual
/-- The inner `flatten_to_paths` of `json_to_toon`: leaf paths of a tree,
`.key` for mapping traversal and `[index]` for sequence traversal. -/
def flatten_to_paths (v : Val) (pre : Chars) : List (Chars × Val) :=
  match v with
  | .obj kvs => flattenObj kvs pre
  | .arr xs => flattenArr xs 0 pre
  | w => [([], w)]

/-- mapping entries of `flatten_to_paths` -/
def flattenObj (kvs : ObjList) (pre : Chars) : List (Chars × Val) :=
  match kvs with
  | .nil => []
  | .cons k v tl =>
      let current := if pre ≠ [] then pre ++ '.' :: k else k
      (if v.isContainer then flatten_to_paths v current else [(current, v)])
        ++ flattenObj tl pre

/-- sequence entries of `flatten_to_paths` -/
def flattenArr (xs : ValList) (i : Nat) (pre : Chars) : List (Chars × Val) :=
  match xs with
  | .nil => []
  | .cons v tl =>
      let current := if pre ≠ [] then pre ++ '[' :: natChars i ++ [']']
                     else '[' :: natChars i ++ [']']
      (if v.isContainer then flatten_to_paths v current else [(current, v)])
        ++ flattenArr tl (i + 1) pre
end

/-- Data rows of the tabular encoding: per element a two-space-indented
line of comma-joined formatted values in header-key order. -/
def tabularRows (xs : ValList) (keys : List Chars) : List Chars :=
  match xs with
  | .nil => []
  | .cons item tl =>
      ("  ".data ++ List.intercalate ",".data (keys.map (fun k => format_value (item.objGet k))))
        :: tabularRows tl keys

/-- `json_to_toon`: root scalars print bare; a uniform array of objects
uses the tabular dialect; everything else flattens to `path:value`
lines. -/
def json_to_toon (v : Val) : Chars :=
  if !v.isContainer then pyStr v
  else if is_array_of_objects v then
    match v with
    | .arr xs =>
        if xs.length = 0 then "[0]\x7b\x7d:".data
        else
          let keys := xs.firstObjKeys
          let header := '[' :: natChars xs.length ++ "]\x7b".data
              ++ List.intercalate ",".data keys ++ "\x7d:".data
          List.intercalate "\n".data (header :: tabularRows xs keys)
    | _ => []
  else
    List.intercalate "\n".data ((flatten_to_paths v []).map (fun pv =>
      if pv.1 ≠ [] then pv.1 ++ ':' :: format_value pv.2 else format_value pv.2))

example : parse_value "  -42 ".data = .int (-42) := by decide
example : parse_value "3.5".data = .float "3.5".data := by decide
example : parse_value "1..2".data = .str "1..2".data := by decide
example : parse_value "TRUE".data = .bool true := by decide
example : parse_value "Null".data = .null := by decide
example : parse_value "".data = .null := by decide
example : parse_value "5-6".data = .str "5-6".data := by decide
example : json_to_toon (.int 7) = "7".data := by decide
example : json_to_toon (.obj (.cons "a".data (.obj (.cons "b".data (.int 1) .nil)) .nil))
    = "a.b:1".data := by decide
example : json_to_toon (.arr (.cons (.obj (.cons "a".data (.int 1) .nil))
      (.cons (.obj (.cons "a".data (.int 2) .nil)) .nil)))
    = "[2]\x7ba\x7d:\n  1\n  2".data := by decide
example : json_to_toon (.arr (.cons (.int 5) (.cons (.str "x".data) .nil)))
    = "[0]:5\n[1]:x".data := by decide

/-!  ToonCodec — decoder (`toon_to_json` and its helpers).  Statements
that can raise (`int(...)`, `str.index`, item assignment on non-container
values) are embedded in `Except Chars`; the error text is a fixed tag, the
success/failure behaviour is what the embedding tracks.  Python's
in-place mutation of the nested structure is rendered as functional
update (each loop iteration descends exactly one level). -/

/-- A parsed path segment: `('key', k)` or `('array', idx)`. -/
inductive PathPart where
  | key (k : Chars)
  | idx (i : Int)
deriving DecidableEq, Repr

/-- True on index segments (`parts[i][0] == 'array'`). -/
def PathPart.isIdx : PathPart → Bool
  | .idx _ => true
  | .key _ => false

/-- Path parser of `set_nested_value`: bracketed integer indices, dots
skipped, runs of other characters as keys.  The fuel is the remaining
character count plus one; every step consumes at least one character, so
the zero-fuel branch is unreachable. -/
def parsePathAux : Nat → Chars → Except Chars (List PathPart)
  | 0, _ => .ok []
  | _ + 1, [] => .ok []
  | fuel + 1, c :: rest =>
      if c = '[' then
        match pySplitFirst ']' rest with
        | none => .error "ValueError: substring not found".data
        | some (digits, tail) =>
            match pyIntParse digits with
            | none => .error "ValueError: invalid literal for int".data
            | some i => do
                let ps ← parsePathAux fuel tail
                .ok (.idx i :: ps)
      else if c = '.' then parsePathAux fuel rest
      else
        let k := c :: rest.takeWhile (fun x => x ≠ '.' && x ≠ '[')
        do
          let ps ← parsePathAux fuel (rest.drop (k.length - 1))
          .ok (.key k :: ps)

/-- Parse a `path` string into segments. -/
def parsePath (p : Chars) : Except Chars (List PathPart) :=
  parsePathAux (p.length + 1) p

/-- Append a plain list of values to a sequence spine. -/
def ValList.appendList (xs : ValList) : List Val → ValList
  | [] => xs
  | v :: tl => (xs.push v).appendList tl

/-- Python `while len(lst) <= idx: lst.append(filler)` (no-op for a
negative index). -/
def ValList.padTo (xs : ValList) (i : Int) (filler : Val) : ValList :=
  match i with
  | .negSucc _ => xs
  | .ofNat n => xs.appendList (List.replicate (n + 1 - xs.length) filler)

/-- Python `lst[i]` with negative-index semantics (`none` is the
`IndexError`). -/
def ValList.getPy (xs : ValList) (i : Int) : Option Val :=
  match i with
  | .ofNat n => xs.get n
  | .negSucc m => if m + 1 ≤ xs.length then xs.get (xs.length - (m + 1)) else none

/-- Python `lst[i] = v` with negative-index semantics (`none` is the
`IndexError`). -/
def ValList.setPy (xs : ValList) (i : Int) (v : Val) : Option ValList :=
  match i with
  | .ofNat n => if n < xs.length then some (xs.setAt n v) else none
  | .negSucc m => if m + 1 ≤ xs.length then some (xs.setAt (xs.length - (m + 1)) v) else none

/-- Navigation/creation part of `set_nested_value`, one path segment per
step.  Intermediate mappings/sequences are created on demand; sequences
auto-extend with `{}`/`[]` placeholders (chosen by the next segment) and
with `None` at the final segment.  Any attempt to index or mutate a
scalar raises in Python (`TypeError`/`AttributeError`/`KeyError`,
depending on the value); all those raises are embedded as `.error`. -/
def setParts (cur : Val) (parts : List PathPart) (v : Val) : Except Chars Val :=
  match parts with
  | [] => .ok cur
  | [.key k] =>
      match cur with
      | .obj kvs => .ok (.obj (kvs.set k v))
      | _ => .error "TypeError: item assignment".data
  | [.idx i] =>
      match cur with
      | .arr xs =>
          let xs := xs.padTo i .null
          match xs.setPy i v with
          | some xs => .ok (.arr xs)
          | none => .error "IndexError: list assignment index out of range".data
      | _ => .error "TypeError: item assignment".data
  | .key k :: p :: rest =>
      match cur with
      | .obj kvs =>
          let child :=
            match kvs.find k with
            | some c => c
            | none => if p.isIdx then Val.arr .nil else Val.obj .nil
          do
            let child ← setParts child (p :: rest) v
            .ok (.obj (kvs.set k child))
      | _ => .error "TypeError: item assignment".data
  | .idx i :: p :: rest =>
      match cur with
      | .arr xs =>
          let filler := if p.isIdx then Val.arr .nil else Val.obj .nil
          let xs := xs.padTo i filler
          match xs.getPy i with
          | none => .error "IndexError: list index out of range".data
          | some child => do
              let child ← setParts child (p :: rest) v
              match xs.setPy i child with
              | some xs => .ok (.arr xs)
              | none => .error "IndexError: list assignment index out of range".data
      | _ => .error "TypeError: item assignment".data

/-- `set_nested_value(obj, path, value)`: parse the path, then
navigate/create; an empty segment list leaves the structure unchanged. -/
def set_nested_value (cur : Val) (path : Chars) (v : Val) : Except Chars Val := do
  let parts ← parsePath path
  setParts cur parts v

/-- `obj = \x7b\x7d; for i, key in enumerate(keys): obj[key] = parse_value(values[i])` -/
def buildRowObj (acc : ObjList) : List Chars → List Chars → ObjList
  | [], _ => acc
  | _ :: _, [] => acc
  | k :: ks, v :: vs => buildRowObj (acc.set k (parse_value v)) ks vs

/-- Row loop of the tabular decoder: skip blank rows and rows starting
with `[`, split each remaining row on every comma, keep only rows whose
field count equals the header key count, zip with the keys into a
mapping. -/
def tabularParse (lines : List Chars) (keys : List Chars) : ValList :=
  match lines with
  | [] => .nil
  | ln :: rest =>
      let ls := pyStrip ln
      if ls ≠ [] && !pyStartsWith "[".data ls then
        let values := (pySplit ',' ls).map pyStrip
        if values.length = keys.length then
          .cons (.obj (buildRowObj .nil keys values)) (tabularParse rest keys)
        else tabularParse rest keys
      else tabularParse rest keys

/-- True for sequences (`isinstance(v, list)`). -/
def Val.isArr : Val → Bool
  | .arr _ => true
  | _ => false

/-- Line loop of the path-notation decoder.  A line without a colon
returns its parsed scalar immediately; a line whose path starts with `[`
turns the root into a sequence (discarding a prior mapping root) and is
handled inline; other lines go through `set_nested_value`. -/
def pathLoop : List Chars → Val → Bool → Except Chars Val
  | [], result, _ => .ok result
  | ln :: rest, result, isArrayRoot =>
      if !pyHasChar ':' ln then .ok (parse_value ln)
      else
        match pySplitFirst ':' ln with
        | none => .error [] 
        | some (path, value_str) =>
          let value := parse_value value_str
          let isArrayRoot := isArrayRoot || pyStartsWith "[".data path
          let result := if pyStartsWith "[".data path && !result.isArr then Val.arr .nil
                        else result
          if isArrayRoot && pyStartsWith "[".data path then
            match pySplitFirst ']' (path.drop 1) with
            | none => .error "ValueError: substring not found".data
            | some (digits, remaining) =>
              match pyIntParse digits with
              | none => .error "ValueError: invalid literal for int".data
              | some idx =>
                let xs := match result with | .arr xs => xs | _ => ValList.nil
                let filler := if remaining ≠ [] || value.isContainer then Val.obj .nil
                              else Val.null
                let xs := xs.padTo idx filler
                if remaining ≠ [] then
                  match xs.getPy idx with
                  | none => .error "IndexError: list index out of range".data
                  | some child => do
                      let child ← set_nested_value child remaining value
                      match xs.setPy idx child with
                      | some xs => pathLoop rest (.arr xs) isArrayRoot
                      | none => .error "IndexError: list assignment index out of range".data
                else
                  match xs.setPy idx value with
                  | some xs => pathLoop rest (.arr xs) isArrayRoot
                  | none => .error "IndexError: list assignment index out of range".data
          else do
            let result ← set_nested_value result path value
            pathLoop rest result isArrayRoot

/-- `toon_to_json`: strip the text, drop blank lines, right-strip the
rest; decode the tabular dialect when the first line looks like a
`[count]\x7bkeys\x7d:` header, otherwise decode path notation (a single
colon-free line is a bare scalar). -/
def toon_to_json (text : Chars) : Except Chars Val :=
  let lines := (pySplit '\n' (pyStrip text)).filterMap
      (fun ln => if pyStrip ln ≠ [] then some (pyStripR ln) else none)
  match lines with
  | [] => .ok (.obj .nil)
  | first :: rest =>
    let first_line := pyStrip first
    if pyStartsWith "[".data first_line && pyHasSub "]\x7b".data first_line
        && pyEndsWith ":".data first_line then
      match pyIndex ']' first_line with
      | none => .error "ValueError: substring not found".data
      | some count_end =>
        match pyIntParse (pySlice 1 count_end first_line) with
        | none => .error "ValueError: invalid literal for int".data
        | some _count =>
          match pyIndex '\x7b' first_line with
          | none => .error "ValueError: substring not found".data
          | some brace_start =>
            match pyIndex '\x7d' first_line with
            | none => .error "ValueError: substring not found".data
            | some brace_end =>
              let keys := (pySplit ',' (pySlice (brace_start + 1) brace_end first_line)).map pyStrip
              .ok (.arr (tabularParse rest keys))
    else
      if rest = [] && !pyHasChar ':' first then .ok (parse_value first)
      else pathLoop lines (.obj .nil) false

instance {e a : Type} [DecidableEq e] [DecidableEq a] : DecidableEq (Except e a) := fun x y =>
  match x, y with
  | .ok u, .ok v =>
      if h : u = v then isTrue (by rw [h]) else isFalse (fun he => h (Except.ok.inj he))
  | .error u, .error v =>
      if h : u = v then isTrue (by rw [h]) else isFalse (fun he => h (Except.error.inj he))
  | .ok _, .error _ => isFalse (fun he => Except.noConfusion he)
  | .error _, .ok _ => isFalse (fun he => Except.noConfusion he)

example : toon_to_json "".data = .ok (.obj .nil) := by decide
example : toon_to_json "  \n \n".data = .ok (.obj .nil) := by decide
example : toon_to_json "42".data = .ok (.int 42) := by decide
example : toon_to_json "a:1\nb:two".data
    = .ok (.obj (.cons "a".data (.int 1) (.cons "b".data (.str "two".data) .nil))) := by decide
example : toon_to_json "a.b:1".data
    = .ok (.obj (.cons "a".data (.obj (.cons "b".data (.int 1) .nil)) .nil)) := by decide
example : toon_to_json "[0]:5\n[1]:x".data
    = .ok (.arr (.cons (.int 5) (.cons (.str "x".data) .nil))) := by decide
example : toon_to_json "[2]\x7ba,b\x7d:\n  1,2\n  3,4".data
    = .ok (.arr (.cons (.obj (.cons "a".data (.int 1) (.cons "b".data (.int 2) .nil)))
        (.cons (.obj (.cons "a".data (.int 3) (.cons "b".data (.int 4) .nil))) .nil))) := by decide
example : toon_to_json "a[0].x:1".data
    = .ok (.obj (.cons "a".data (.arr (.cons (.obj (.cons "x".data (.int 1) .nil)) .nil)) .nil))
    := by decide

/-!  bedrock_analyzer.py — the top-level-aware comma splitter and the
TOON file loader.  `load_toon` takes the file content (the file read is
I/O); `ast.literal_eval` is an external black box passed as an oracle. -/

/-- Scanner state of `_split_top_level_csv`: single-quote state,
double-quote state, and nesting depths for braces and brackets. -/
structure TlState where
  inSingle : Bool
  inDouble : Bool
  depthCurly : Nat
  depthSquare : Nat
deriving DecidableEq, Repr

/-- The initial (all-closed, depth-zero) scanner state. -/
def tlInit : TlState := ⟨false, false, 0, 0⟩

/-- One character of the `_split_top_level_csv` scan (the `if`/`elif`
chain run before the comma test; `max(0, d - 1)` is natural
subtraction). -/
def tlUpd (st : TlState) (c : Char) : TlState :=
  if c = sQuote && !st.inDouble then { st with inSingle := !st.inSingle }
  else if c = dQuote && !st.inSingle then { st with inDouble := !st.inDouble }
  else if !st.inSingle && !st.inDouble then
    if c = '\x7b' then { st with depthCurly := st.depthCurly + 1 }
    else if c = '\x7d' then { st with depthCurly := st.depthCurly - 1 }
    else if c = '[' then { st with depthSquare := st.depthSquare + 1 }
    else if c = ']' then { st with depthSquare := st.depthSquare - 1 }
    else st
  else st

/-- Both quote states closed and both depth counters zero: a comma here
starts a new field. -/
def tlTop (st : TlState) : Bool :=
  !st.inSingle && !st.inDouble && st.depthCurly = 0 && st.depthSquare = 0

/-- Character loop of `_split_top_level_csv`: fields are stripped as they
are emitted, and a trailing empty buffer is not emitted. -/
def splitTLGo (st : TlState) (buf : Chars) (parts : List Chars) : Chars → List Chars
  | [] => if buf ≠ [] then parts ++ [pyStrip buf] else parts
  | c :: rest =>
      let st := tlUpd st c
      if c = ',' && tlTop st then splitTLGo st [] (parts ++ [pyStrip buf]) rest
      else splitTLGo st (buf ++ [c]) parts rest

/-- `_split_top_level_csv`: split on commas only at top level (not inside
braces, brackets, or open quotes). -/
def split_top_level_csv (line : Chars) : List Chars := splitTLGo tlInit [] [] line

/-- Python `str.splitlines()` for the line boundaries the loader meets
(`\n`, `\r`, `\r\n`; no trailing empty line). -/
def pySplitLinesGo (cur : Chars) : Chars → List Chars
  | [] => if cur ≠ [] then [cur] else []
  | '\r' :: '\n' :: rest => cur :: pySplitLinesGo [] rest
  | '\r' :: rest => cur :: pySplitLinesGo [] rest
  | '\n' :: rest => cur :: pySplitLinesGo [] rest
  | c :: rest => pySplitLinesGo (cur ++ [c]) rest

/-- Python `content.splitlines()`. -/
def pySplitLines (s : Chars) : List Chars := pySplitLinesGo [] s

/-- Text before the last occurrence of `c` (Python `s.rsplit(c, 1)[0]`,
the whole string when `c` is absent). -/
def pyRSplitLast (c : Char) (s : Chars) : Chars :=
  match pySplitFirst c s.reverse with
  | some p => p.2.reverse
  | none => s

/-- `obj = \x7b\x7d; for k, v in zip(fields, cols): obj[k] = v` of the loader. -/
def buildLoadObj (acc : ObjList) : List Chars → List Chars → ObjList
  | [], _ => acc
  | _ :: _, [] => acc
  | k :: ks, c :: cs => buildLoadObj (acc.set k (.str c)) ks cs

/-- Known-structured-field conversions of the loader: `metrics`/`tags`
via `ast.literal_eval` (the `lev` oracle, whose raise propagates), and
best-effort `int`/`float` for `uptime_seconds`/`health_score` (raises
swallowed). -/
def convertSpecial (lev : Chars → Except Chars Val) (obj : ObjList) : Except Chars ObjList :=
  match (match obj.find "metrics".data with
         | some (.str s) => (lev s).map (fun v => obj.set "metrics".data v)
         | _ => .ok obj) with
  | .error e => .error e
  | .ok obj =>
    match (match obj.find "tags".data with
           | some (.str s) => (lev s).map (fun v => obj.set "tags".data v)
           | _ => .ok obj) with
    | .error e => .error e
    | .ok obj =>
      let obj := match obj.find "uptime_seconds".data with
        | some (.str s) =>
            (match pyIntParse s with
             | some n => obj.set "uptime_seconds".data (.int n)
             | none => obj)
        | _ => obj
      let obj := match obj.find "health_score".data with
        | some (.str s) =>
            if pyFloatOk s then obj.set "health_score".data (.float (pyStrip s)) else obj
        | _ => obj
      .ok obj

/-- Row loop of `load_toon_file`: strip, drop one trailing comma,
top-level split, column-count check (a mismatch raises naming the
expected and actual counts), zip into a mapping, convert known fields. -/
def loadRows (lev : Chars → Except Chars Val) (fields : List Chars) :
    List Chars → Except Chars ValList
  | [] => .ok .nil
  | ln0 :: rest =>
      let ln := pyStrip ln0
      if ln = [] then loadRows lev fields rest
      else
        let ln := if pyEndsWith ",".data ln then ln.dropLast else ln
        let cols := split_top_level_csv ln
        if cols.length ≠ fields.length then
          .error ("TOON row has ".data ++ natChars cols.length
            ++ " columns but header has ".data ++ natChars fields.length ++ " fields.".data)
        else do
          let obj ← convertSpecial lev (buildLoadObj .nil fields cols)
          let tl ← loadRows lev fields rest
          .ok (.cons (.obj obj) tl)

/-- `load_toon_file`, applied to the file content: split lines, drop
blank ones, parse the `\x7b...\x7d` header into fields, then the rows. -/
def load_toon (lev : Chars → Except Chars Val) (content : Chars) : Except Chars ValList :=
  let lines := (pySplitLines content).filter (fun ln => pyStrip ln ≠ [])
  match lines with
  | [] => .error "TOON file is empty.".data
  | header0 :: rest =>
    let header := pyStrip header0
    if !pyHasChar '\x7b' header || !pyHasChar '\x7d' header then
      .error "Unrecognized TOON header format.".data
    else
      let afterBrace := match pySplitFirst '\x7b' header with
                        | some p => p.2
                        | none => header
      let fields_blob := pyRSplitLast '\x7d' afterBrace
      let fields := (pySplit ',' fields_blob).filterMap
          (fun f => if pyStrip f ≠ [] then some (pyStrip f) else none)
      if fields = [] then .error "No fields found in TOON header.".data
      else loadRows lev fields rest

/-- `estimate_tokens`: the tokenizer is an oracle (`none` both when
`tiktoken` is missing and when it raises); on failure the fallback is
`len(text) // 3`. -/
def estimate_tokens (tok : Chars → Option Nat) (text : Chars) : Nat :=
  match tok text with
  | some n => n
  | none => text.length / 3

/-- `count_tokens` (token_counter.py): the per-model encoding and the
`cl100k_base` fallback encoding are oracles; a raise of the fallback
itself propagates (there is no length-based fallback here). -/
def count_tokens (encFor encBase : Chars → Option Nat) (text : Chars) : Except Chars Nat :=
  match encFor text with
  | some n => .ok n
  | none =>
      match encBase text with
      | some n => .ok n
      | none => .error "tiktoken: failed to load encoding".data

example : split_top_level_csv "1,\x7bx: 1, y: [1,2]\x7d".data
    = ["1".data, "\x7bx: 1, y: [1,2]\x7d".data] := by decide
example : split_top_level_csv ("a, ".data ++ [sQuote] ++ "b,c".data ++ [sQuote] ++ " ,d".data)
    = ["a".data, [sQuote] ++ "b,c".data ++ [sQuote], "d".data] := by decide

/-!  CsvCodec — `csv_to_json` (multi_converter.py) over a model of the
standard library's default-dialect reader (`csv.DictReader`): comma
delimiter, double-quote quoting with `""` escapes, quoted fields may span
lines, `\r`/`\n`/`\r\n` record ends, a blank line is an empty record.  A
`DictReader` row with more cells than field names puts the extras in a
list under the `None` rest key; `parse_csv_value` applied to that list
raises a `TypeError` that `except ValueError` does not catch. -/

/-- Parser states of the csv reader: record start, field start, unquoted
field, quoted field, just after a quote inside a quoted field. -/
inductive CsvSt where
  | sr | sf | inF | inQ | qq
deriving DecidableEq, Repr

/-- The csv reader's character loop, accumulating the current field and
the current record's fields.  The fuel is the remaining character count
plus one; every step consumes at least one character, so the zero-fuel
branch is unreachable. -/
def csvGo : Nat → CsvSt → Chars → List Chars → Chars → List (List Chars)
  | 0, _, _, _, _ => []
  | _ + 1, st, buf, cur, [] =>
      (match st with
       | .sr => []
       | _ => [cur ++ [buf]])
  | fuel + 1, st, buf, cur, c :: rest =>
      match st with
      | .sr =>
          if c = dQuote then csvGo fuel .inQ [] [] rest
          else if c = ',' then csvGo fuel .sf [] [[]] rest
          else if c = '\r' then
            match rest with
            | '\n' :: rest2 => [] :: csvGo fuel .sr [] [] rest2
            | _ => [] :: csvGo fuel .sr [] [] rest
          else if c = '\n' then [] :: csvGo fuel .sr [] [] rest
          else csvGo fuel .inF [c] [] rest
      | .sf =>
          if c = dQuote then csvGo fuel .inQ [] cur rest
          else if c = ',' then csvGo fuel .sf [] (cur ++ [[]]) rest
          else if c = '\r' then
            match rest with
            | '\n' :: rest2 => (cur ++ [[]]) :: csvGo fuel .sr [] [] rest2
            | _ => (cur ++ [[]]) :: csvGo fuel .sr [] [] rest
          else if c = '\n' then (cur ++ [[]]) :: csvGo fuel .sr [] [] rest
          else csvGo fuel .inF [c] cur rest
      | .inF =>
          if c = ',' then csvGo fuel .sf [] (cur ++ [buf]) rest
          else if c = '\r' then
            match rest with
            | '\n' :: rest2 => (cur ++ [buf]) :: csvGo fuel .sr [] [] rest2
            | _ => (cur ++ [buf]) :: csvGo fuel .sr [] [] rest
          else if c = '\n' then (cur ++ [buf]) :: csvGo fuel .sr [] [] rest
          else csvGo fuel .inF (buf ++ [c]) cur rest
      | .inQ =>
          if c = dQuote then csvGo fuel .qq buf cur rest
          else csvGo fuel .inQ (buf ++ [c]) cur rest
      | .qq =>
          if c = dQuote then csvGo fuel .inQ (buf ++ [dQuote]) cur rest
          else if c = ',' then csvGo fuel .sf [] (cur ++ [buf]) rest
          else if c = '\r' then
            match rest with
            | '\n' :: rest2 => (cur ++ [buf]) :: csvGo fuel .sr [] [] rest2
            | _ => (cur ++ [buf]) :: csvGo fuel .sr [] [] rest
          else if c = '\n' then (cur ++ [buf]) :: csvGo fuel .sr [] [] rest
          else csvGo fuel .inF (buf ++ [c]) cur rest

/-- All records of `csv.reader` over the text. -/
def csvRecords (text : Chars) : List (List Chars) := csvGo (text.length + 1) .sr [] [] text

/-- One cell of a `DictReader` row: a text field, the `None` rest value
for a missing cell, or the list of extra cells under the `None` rest
key. -/
inductive CsvCell where
  | s (v : Chars)
  | missing
  | extra (vs : List Chars)
deriving DecidableEq, Repr

/-- Python dict assignment on a row dictionary whose keys are field names
or the `None` rest key. -/
def cellSet (k : Option Chars) (v : CsvCell) :
    List (Option Chars × CsvCell) → List (Option Chars × CsvCell)
  | [] => [(k, v)]
  | (k', v') :: tl => if k' = k then (k', v) :: tl else (k', v') :: cellSet k v tl

/-- `dict(zip(fieldnames, row))`. -/
def zipCells (acc : List (Option Chars × CsvCell)) :
    List Chars → List Chars → List (Option Chars × CsvCell)
  | [], _ => acc
  | _ :: _, [] => acc
  | k :: ks, v :: vs => zipCells (cellSet (some k) (.s v) acc) ks vs

/-- A `DictReader` row: zip with the field names, fill missing cells with
the `None` rest value, put extra cells under the `None` rest key. -/
def rowDict (fn row : List Chars) : List (Option Chars × CsvCell) :=
  let d := zipCells [] fn row
  let d := if row.length < fn.length then
      (fn.drop row.length).foldl (fun acc k => cellSet (some k) .missing acc) d
    else d
  if row.length > fn.length then cellSet none (.extra (row.drop fn.length)) d else d

/-- `parse_csv_value`: empty/missing → null; `.`-containing → `float`
(a raise falls through to the boolean checks); otherwise `int` (same);
`true`/`false`; else the string itself.  Applied to the extra-cells list,
`int`/`float` raise a `TypeError` that is not caught. -/
def parse_csv_value (cell : CsvCell) : Except Chars Val :=
  match cell with
  | .missing => .ok .null
  | .s v =>
      if v = [] then .ok .null
      else
        let boolOrStr : Val :=
          if pyLower v = "true".data then .bool true
          else if pyLower v = "false".data then .bool false
          else .str v
        if pyHasChar '.' v then
          if pyFloatOk v then .ok (.float (pyStrip v)) else .ok boolOrStr
        else
          match pyIntParse v with
          | some n => .ok (.int n)
          | none => .ok boolOrStr
  | .extra vs =>
      if vs = [] then .ok .null
      else .error "TypeError: int() argument must be a string, not list".data

/-- `result = \x7b\x7d; for key, value in row.items(): result[key] = parse_csv_value(value)`;
the `None` rest key is unreachable in the success case (its list value
raises first). -/
def parseRowObj : List (Option Chars × CsvCell) → Except Chars ObjList
  | [] => .ok .nil
  | (k, cell) :: tl => do
      let v ← parse_csv_value cell
      let rest ← parseRowObj tl
      .ok (.cons (k.getD []) v rest)

/-- Row list of the multi-row branch of `csv_to_json`. -/
def parseRowObjs (fn : List Chars) : List (List Chars) → Except Chars ValList
  | [] => .ok .nil
  | row :: rest => do
      let o ← parseRowObj (rowDict fn row)
      let tl ← parseRowObjs fn rest
      .ok (.cons (.obj o) tl)

/-- `csv_to_json`: blank content → `\x7b\x7d`; no data rows → `\x7b\x7d`; one data
row → a bare mapping; two or more → a sequence of mappings.  Blank
records are skipped (as `DictReader` does). -/
def csv_to_json (content : Chars) : Except Chars Val :=
  if pyStrip content = [] then .ok (.obj .nil)
  else
    match csvRecords content with
    | [] => .ok (.obj .nil)
    | fn :: rest =>
      match rest.filter (fun r => r ≠ []) with
      | [] => .ok (.obj .nil)
      | [row] => do
          let o ← parseRowObj (rowDict fn row)
          .ok (.obj o)
      | rows => do
          let xs ← parseRowObjs fn rows
          .ok (.arr xs)

example : csvRecords "a,b\n1,2\n".data = [["a".data, "b".data], ["1".data, "2".data]] := by decide
example : csvRecords ("a,".data ++ [dQuote] ++ "x,y".data ++ [dQuote] ++ "\n".data)
    = [["a".data, "x,y".data]] := by decide
example : csv_to_json "a,b\n1,true".data
    = .ok (.obj (.cons "a".data (.int 1) (.cons "b".data (.bool true) .nil))) := by decide
example : csv_to_json "a,b\n1,2\n3,4".data
    = .ok (.arr (.cons (.obj (.cons "a".data (.int 1) (.cons "b".data (.int 2) .nil)))
        (.cons (.obj (.cons "a".data (.int 3) (.cons "b".data (.int 4) .nil))) .nil))) := by decide
example : csv_to_json "a,b\n1,2,3".data
    = .error "TypeError: int() argument must be a string, not list".data := by decide
example : csv_to_json "a,b\n1".data
    = .ok (.obj (.cons "a".data (.int 1) (.cons "b".data .null .nil))) := by decide

/-!  format_detector.py.  `json.loads` and `yaml.safe_load` are standard
library black boxes; their success is an oracle `Chars → Bool`. -/

/-- `is_toon`: tabular header signature, or a colon line with path-style
punctuation, or compact `key:value` (no space after the colon) with an
unindented second line. -/
def is_toon (content : Chars) : Bool :=
  match pySplit '\n' (pyStrip content) with
  | [] => false
  | first :: restLines =>
    let first_line := pyStrip first
    if pyStartsWith "[".data first_line && pyHasSub "]\x7b".data first_line
        && pyEndsWith ":".data first_line then true
    else if pyHasChar ':' first_line && !pyStartsWith "-".data first_line then
      if pyHasChar '.' first_line || pyHasChar '[' first_line then true
      else
        match pySplitFirst ':' first_line with
        | none => false
        | some (_, after) =>
          if !pyStartsWith " ".data after then
            match restLines with
            | [] => false
            | second :: _ =>
              let second_line := pyStrip second
              !pyStartsWith "  ".data second_line && !pyStartsWith "-".data second_line
          else false
    else false

/-- `is_csv`: at least two non-blank lines, a comma in the first, and one
of the next two lines with the same comma count. -/
def is_csv (content : Chars) : Bool :=
  let lines := (pySplit '\n' (pyStrip content)).filterMap
      (fun l => if pyStrip l ≠ [] then some (pyStrip l) else none)
  match lines with
  | l0 :: _ :: _ =>
      if !pyHasChar ',' l0 then false
      else
        let cc := pyCount ',' l0
        if cc = 0 then false
        else ((lines.drop 1).take 2).any (fun l => pyCount ',' l = cc)
  | _ => false

/-- `is_yaml`: the text must parse as YAML (oracle), and then show a YAML
surface cue: a leading `---`/`-`, or `key: value` with a space after the
colon and a second line, or an indented second line that is not a TOON
tabular header. -/
def is_yaml (yamlOk : Chars → Bool) (content : Chars) : Bool :=
  yamlOk content &&
  (match pySplit '\n' (pyStrip content) with
   | [] => false
   | first :: restL =>
     let first_line := pyStrip first
     if pyStartsWith "---".data first_line || pyStartsWith "-".data first_line then true
     else if pyHasChar ':' first_line &&
         (match pySplitFirst ':' first_line with
          | some (_, after) => pyStartsWith " ".data after
          | none => false) &&
         restL ≠ [] then true
     else
       match restL with
       | second :: _ =>
           (pyStartsWith "  ".data second || pyStartsWith "\t".data second) &&
           (!pyStartsWith "[".data first_line || !pyHasSub "]\x7b".data first_line)
       | [] => false)

/-- `detect_format`: strict JSON first, then TOON, then CSV, then YAML;
first match wins; blank input is unknown. -/
def detect_format (jsonOk yamlOk : Chars → Bool) (content : Chars) : String :=
  if pyStrip content = [] then "unknown"
  else
    let content := pyStrip content
    if jsonOk content then "json"
    else if is_toon content then "toon"
    else if is_csv content then "csv"
    else if is_yaml yamlOk content then "yaml"
    else "unknown"

/-- `yaml_to_json`: blank input short-circuits to `\x7b\x7d`; otherwise the
standard YAML library (oracle) decides. -/
def yaml_to_json (safeLoad : Chars → Except Chars Val) (s : Chars) : Except Chars Val :=
  if pyStrip s = [] then .ok (.obj .nil) else safeLoad s

/-!  multi_converter.py — `json_to_csv` over the standard csv writer
(default `excel` dialect: comma delimiter, double-quote minimal quoting
with `""` escapes, `\r\n` row terminator, a lone empty field written as
`""`) and the four-way `convert_format` entry point.  Error text is
embedded as Python's `str(e)`; `except*` clauses nowhere inspect these
messages. -/

/-- `type(v).__name__`. -/
def pyTypeName : Val → Chars
  | .null => "NoneType".data
  | .bool _ => "bool".data
  | .int _ => "int".data
  | .float _ => "float".data
  | .str _ => "str".data
  | .arr _ => "list".data
  | .obj _ => "dict".data

/-- Text the csv writer emits for a cell value: `None` becomes the empty
field, everything else its `str(...)`. -/
def csvCellText : Val → Chars
  | .null => []
  | v => pyStr v

/-- `QUOTE_MINIMAL`: quote a field containing a delimiter, a quote
character or a row-terminator character, doubling embedded quotes. -/
def csvQuoteField (f : Chars) : Chars :=
  if f.any (fun c => c = ',' || c = dQuote || c = '\r' || c = '\n') then
    dQuote :: (f.flatMap (fun c => if c = dQuote then [dQuote, dQuote] else [c])) ++ [dQuote]
  else f

/-- One row of csv writer output: comma-joined minimally-quoted fields
plus `\r\n`; a single empty field is written as `""`. -/
def csvWriteRow (cells : List Chars) : Chars :=
  (match cells with
   | [[]] => [dQuote, dQuote]
   | _ => List.intercalate ",".data (cells.map csvQuoteField)) ++ "\r\n".data

/-- `DictWriter._dict_to_list`: a key outside the field names raises
`ValueError`; missing keys fall back to the `restval` empty string. -/
def dictToRow (fieldnames : List Chars) (kvs : ObjList) : Except Chars (List Chars) :=
  match kvs.keys.filter (fun k => !fieldnames.contains k) with
  | [] => .ok (fieldnames.map (fun k =>
      match kvs.find k with
      | some v => csvCellText v
      | none => []))
  | wrong => .error ("dict contains fields not in fieldnames: ".data
      ++ List.intercalate ", ".data (wrong.map pyStrRepr))

/-- The per-element `writer.writerow(row)` loop of the list-of-dicts
branch: a non-dict element raises (`.keys` attribute lookup). -/
def writeDictRows (fieldnames : List Chars) : ValList → Except Chars Chars
  | .nil => .ok []
  | .cons (.obj kvs) tl => do
      let row ← dictToRow fieldnames kvs
      let rest ← writeDictRows fieldnames tl
      .ok (csvWriteRow row ++ rest)
  | .cons w _ =>
      .error ([sQuote] ++ pyTypeName w ++ [sQuote]
        ++ " object has no attribute ".data ++ [sQuote] ++ "keys".data ++ [sQuote])

/-- `json_to_csv`: an empty list gives the empty string; a list headed by
a dict writes the first element's keys as header then one `DictWriter`
row per element; any other list writes a `value` column; a dict root
writes its keys and one row; a primitive writes a `value` column with one
row. -/
def json_to_csv : Val → Except Chars Chars
  | .arr .nil => .ok []
  | .arr (.cons (.obj kvs0) tl) => do
      let fieldnames := kvs0.keys
      let rows ← writeDictRows fieldnames (.cons (.obj kvs0) tl)
      .ok (csvWriteRow fieldnames ++ rows)
  | .arr xs =>
      .ok (csvWriteRow ["value".data]
        ++ (xs.toList.map (fun item => csvWriteRow [csvCellText item])).flatten)
  | .obj kvs =>
      match dictToRow kvs.keys kvs with
      | .ok row => .ok (csvWriteRow kvs.keys ++ csvWriteRow row)
      | .error e => .error e
  | v => .ok (csvWriteRow ["value".data] ++ csvWriteRow [csvCellText v])

/-- The four encoded strings `convert_format(content, fmt, 'all')`
returns. -/
structure ConvResults where
  json : Chars
  toon : Chars
  csv : Chars
  yaml : Chars
deriving DecidableEq, Repr

/-- `convert_format` for `to_format='all'` (the handler's only call):
decode under the source format to the intermediate value, emit all four
formats, and wrap any raise as `ValueError("Conversion error: ...")`.
`json.loads` and `yaml.safe_load` are fallible oracles; `json.dumps` and
`yaml.dump` are total oracles (every value tree is serializable). -/
def convert_format (jsonLoads : Chars → Except Chars Val) (jsonDumps : Val → Chars)
    (yamlDump : Val → Chars) (safeLoad : Chars → Except Chars Val)
    (content : Chars) (from_format : String) : Except Chars ConvResults :=
  let parsed : Except Chars Val :=
    if from_format = "json" then jsonLoads content
    else if from_format = "toon" then toon_to_json content
    else if from_format = "csv" then csv_to_json content
    else if from_format = "yaml" then yaml_to_json safeLoad content
    else .error ("Unknown source format: ".data ++ from_format.data)
  match parsed with
  | .error e => .error ("Conversion error: ".data ++ e)
  | .ok v =>
      match json_to_csv v with
      | .error e => .error ("Conversion error: ".data ++ e)
      | .ok csvText => .ok ⟨jsonDumps v, json_to_toon v, csvText, yamlDump v⟩

example : json_to_csv (.int 7) = .ok "value\r\n7\r\n".data := by decide
example : json_to_csv (.obj (.cons "a".data (.int 1) .nil)) = .ok "a\r\n1\r\n".data := by decide
example : json_to_csv (.arr (.cons (.obj (.cons "a".data (.int 1) .nil))
      (.cons (.obj (.cons "b".data (.int 2) .nil)) .nil)))
    = .error ("dict contains fields not in fieldnames: ".data ++ [sQuote, 'b', sQuote]) := by
  decide

/-!  token_counter.py — recommendation. -/

/-- Python `s.upper()` (ASCII). -/
def pyUpper (s : Chars) : Chars := s.map Char.toUpper

/-- Result of `get_recommended_format`. -/
structure Recommendation where
  recommended : Option Chars
  min_tokens : Int
  all_counts : List (Chars × Int)
  savings : Option (List (Chars × Int))
deriving DecidableEq, Repr

/-- Python `min(d, key=d.get)` over an association list with distinct
keys: first pair attaining the minimal value. -/
def pyMinByVal : List (Chars × Int) → Option (Chars × Int)
  | [] => none
  | kv :: tl => some (tl.foldl (fun best kv2 => if kv2.2 < best.2 then kv2 else best) kv)

/-- `get_recommended_format`: drop non-positive counts; empty → no
recommendation with zero tokens; else the first minimal format, name
uppercased, with the full count table. -/
def get_recommended_format (token_counts : List (Chars × Int)) : Recommendation :=
  let valid := token_counts.filter (fun kv => 0 < kv.2)
  match pyMinByVal valid with
  | none => ⟨none, 0, token_counts, none⟩
  | some kv => ⟨some (pyUpper kv.1), kv.2, token_counts, some []⟩

/-- `count_tokens_for_formats`, one entry: falsy (empty) content counts
as 0 without consulting the tokenizer; otherwise `count_tokens` (whose
raise propagates). -/
def countEntry (encFor encBase : Chars → Option Nat) (content : Chars) : Except Chars Int :=
  if content = [] then .ok 0
  else
    match count_tokens encFor encBase content with
    | .ok n => .ok (n : Int)
    | .error e => .error e

/-- `count_tokens_for_formats` over the four conversion results, in their
insertion order `json, toon, csv, yaml`. -/
def count_tokens_for_formats (encFor encBase : Chars → Option Nat) (r : ConvResults) :
    Except Chars (List (Chars × Int)) := do
  let nj ← countEntry encFor encBase r.json
  let nt ← countEntry encFor encBase r.toon
  let nc ← countEntry encFor encBase r.csv
  let ny ← countEntry encFor encBase r.yaml
  .ok [("json".data, nj), ("toon".data, nt), ("csv".data, nc), ("yaml".data, ny)]

/-!  app.py — the `/api/convert` orchestration (HTTP plumbing aside):
detect first, record a mismatch warning, convert under the detected
format, retry under the declared format, then count tokens and compute
the recommendation before responding.  A conversion failure is the
`ValueError` branch (400); a tokenizer raise after a successful
conversion is the generic-exception branch (500); both carry the
warning when one was recorded. -/

/-- The `format_warning` object. -/
structure FormatWarning where
  detected_format : String
  expected_format : String
  message : Chars
deriving DecidableEq, Repr

/-- Response of the endpoint: success with the conversions, token counts
and recommendation, or an error; both may carry the mismatch warning.
The number is the HTTP status. -/
inductive ApiResult where
  | success (r : ConvResults) (tokens : List (Chars × Int))
      (recommendation : Recommendation) (warning : Option FormatWarning) (status : Nat)
  | failure (error : Chars) (warning : Option FormatWarning) (status : Nat)
deriving DecidableEq, Repr

/-- `format_labels.get(fmt, fmt.upper())`. -/
def formatLabel (fmt : String) : Chars :=
  if fmt = "json" then "JSON".data
  else if fmt = "toon" then "TOON".data
  else if fmt = "csv" then "CSV".data
  else if fmt = "yaml" then "YAML".data
  else pyUpper fmt.data

/-- The mismatch warning message. -/
def warningMessage (detected : String) : Chars :=
  "Detected ".data ++ formatLabel detected
    ++ " format. Did you mean to paste this in the ".data
    ++ formatLabel detected ++ " box?".data

/-- Tail of the handler after a successful conversion: count tokens for
the four results and attach the recommendation; a tokenizer raise lands
in the handler's generic `except` as a 500 (`Conversion error: ...`)
still carrying the warning. -/
def finishConv (encFor encBase : Chars → Option Nat) (r : ConvResults)
    (w : Option FormatWarning) : ApiResult :=
  match count_tokens_for_formats encFor encBase r with
  | .ok counts => .success r counts (get_recommended_format counts) w 200
  | .error e => .failure ("Conversion error: ".data ++ e) w 500

/-- `convert_formats` (the `/api/convert` handler): validate, detect,
warn on mismatch, convert under the detected format first, retry under
the declared one (re-raising the detected-format error as
`Could not convert content. ...` when both fail, a 400 carrying the
warning), then count tokens and recommend. -/
def convert_formats (jsonOk yamlOk : Chars → Bool)
    (jsonLoads : Chars → Except Chars Val) (jsonDumps : Val → Chars)
    (yamlDump : Val → Chars) (safeLoad : Chars → Except Chars Val)
    (encFor encBase : Chars → Option Nat)
    (content0 : Chars) (from_format : String) : ApiResult :=
  let content := pyStrip content0
  if content = [] then .failure "No content provided".data none 400
  else if from_format ≠ "json" && from_format ≠ "toon" && from_format ≠ "csv"
      && from_format ≠ "yaml" then
    .failure "Invalid format".data none 400
  else
    let detected := detect_format jsonOk yamlOk content
    if detected ≠ "unknown" && detected ≠ from_format then
      let w : FormatWarning := ⟨detected, from_format, warningMessage detected⟩
      match convert_format jsonLoads jsonDumps yamlDump safeLoad content detected with
      | .ok r => finishConv encFor encBase r (some w)
      | .error e =>
          match convert_format jsonLoads jsonDumps yamlDump safeLoad content from_format with
          | .ok r => finishConv encFor encBase r (some w)
          | .error _ => .failure ("Could not convert content. ".data ++ e) (some w) 400
    else
      match convert_format jsonLoads jsonDumps yamlDump safeLoad content from_format with
      | .ok r => finishConv encFor encBase r none
      | .error e => .failure e none 400

example : detect_format (fun s => s = "42".data) (fun _ => true) "42".data = "json" := by decide
example : is_toon "a.b:1".data = true := by decide
example : is_csv "a,b\n1,2".data = true := by decide
example : get_recommended_format [("json".data, 130), ("toon".data, 90)]
    = ⟨some "TOON".data, 90, [("json".data, 130), ("toon".data, 90)], some []⟩ := by decide

/-!  Predicates used by the theorem statements below. -/

/-- No comma of the text is a top-level comma when scanning from state
`st` (the splitting scanner would never cut inside it). -/
def noTLCommaFrom (st : TlState) : Chars → Bool
  | [] => true
  | c :: rest =>
      let st := tlUpd st c
      !(c = ',' && tlTop st) && noTLCommaFrom st rest

/-- Final scanner state after a text. -/
def tlFoldState (st : TlState) (f : Chars) : TlState := f.foldl tlUpd st

/-- A field the top-level splitter passes through verbatim: scanning it
from the neutral state returns to the neutral state and no comma inside
it is at top level. -/
def fieldNeutral (f : Chars) : Bool :=
  (tlFoldState tlInit f = tlInit) && noTLCommaFrom tlInit f

/-- Characters allowed in a round-trippable TOON key: no whitespace and
none of the characters the encoders/decoders treat as structure. -/
def safeKeyChar (c : Char) : Bool :=
  !pyIsSpace c &&
  !(c = '.' || c = '[' || c = ']' || c = '\x7b' || c = '\x7d' || c = ':' || c = ',')

/-- A round-trippable TOON key: non-empty and made of safe characters. -/
def safeKey (k : Chars) : Bool := k ≠ [] && k.all safeKeyChar

/-- Scalar leaves whose TOON rendering parses back to the same value
(null, booleans, integers; strings and floats are excluded). -/
def scalarSafe : Val → Bool
  | .null => true
  | .bool _ => true
  | .int _ => true
  | _ => false

/-- All values of a mapping satisfy `p`. -/
def ObjList.allVals (p : Val → Bool) : ObjList → Bool
  | .nil => true
  | .cons _ v tl => p v && tl.allVals p

/-- All elements of a sequence satisfy `p`. -/
def ValList.allP (p : Val → Bool) : ValList → Bool
  | .nil => true
  | .cons v tl => p v && tl.allP p

/-- Pairwise-distinct key list (the Python dict invariant). -/
def keysFresh : List Chars → Bool
  | [] => true
  | k :: ks => !ks.contains k && keysFresh ks

/-- A tabular row that round-trips: a mapping with exactly the header
keys in header order and safe scalar values. -/
def rowOK (ks : List Chars) : Val → Bool
  | .obj kvs => decide (kvs.keys = ks) && kvs.allVals scalarSafe
  | _ => false

/-- Keys of a value when it is a mapping. -/
def Val.objKeys : Val → List Chars
  | .obj kvs => kvs.keys
  | _ => []

/-- The spec's wording of the tabular-form condition (§4.2): the root is
a non-empty sequence whose elements are all mappings sharing an
identical, non-empty key set, comparing key sets order-insensitively. -/
def specTabularCond (xs : ValList) : Prop :=
  xs ≠ .nil ∧ xs.firstObjKeys ≠ [] ∧
  ∀ v ∈ xs.toList, v.isObj = true ∧ ∀ k, k ∈ v.objKeys ↔ k ∈ xs.firstObjKeys

/-- The spec's condition without its non-empty-key-set requirement (what
the code actually tests). -/
def specTabularCondWeak (xs : ValList) : Prop :=
  xs ≠ .nil ∧
  ∀ v ∈ xs.toList, v.isObj = true ∧ ∀ k, k ∈ v.objKeys ↔ k ∈ xs.firstObjKeys

/-- The tabular layout as the spec words it: header line
`[count]\x7bcomma-joined keys in first element order\x7d:`, then per element a
two-space-indented line of comma-joined values in header-key order
(scalar formatting: null / true / false / string form). -/
def specTabularEncode (xs : ValList) : Chars :=
  let keys := xs.firstObjKeys
  List.intercalate "\n".data
    (('[' :: natChars xs.length ++ "]\x7b".data ++ List.intercalate ",".data keys
        ++ "\x7d:".data)
      :: xs.toList.map (fun item =>
        "  ".data ++ List.intercalate ",".data
          (keys.map (fun k => format_value (item.objGet k)))))

/-- The path-notation layout (§4.2): one `path:value` line per leaf,
root scalars print bare. -/
def specPathEncode (v : Val) : Chars :=
  List.intercalate "\n".data ((flatten_to_paths v []).map (fun pv =>
    if pv.1 ≠ [] then pv.1 ++ ':' :: format_value pv.2 else format_value pv.2))

example : fieldNeutral "\x7bx: 1, y: [1,2]\x7d".data = true := by decide
example : fieldNeutral "a,b".data = false := by decide
example : safeKey "name".data = true := by decide
example : rowOK ["a".data] (.obj (.cons "a".data (.int 1) .nil)) = true := by decide

/-!  Basic lemmas about the Python string helpers. -/

theorem pyStrip_nil : pyStrip [] = [] := rfl

theorem pyStrip_eq_nil_of_space {s : Chars} (h : ∀ c ∈ s, pyIsSpace c = true) :
    pyStrip s = [] := by
  have h1 : pyStripL s = [] := List.dropWhile_eq_nil_iff.mpr h
  simp [pyStrip, h1, pyStripR]

/-!  C10. -/

/-- C10: decoding empty or whitespace-only text never raises at the codec
boundary: `toon_to_json`, `csv_to_json` and `yaml_to_json` each return the
empty mapping for input made only of whitespace. -/
theorem blank_decode_empty_mapping (safeLoad : Chars → Except Chars Val) (s : Chars)
    (h : ∀ c ∈ s, pyIsSpace c = true) :
    toon_to_json s = .ok (.obj .nil) ∧ csv_to_json s = .ok (.obj .nil) ∧
      yaml_to_json safeLoad s = .ok (.obj .nil) := by
  have hs : pyStrip s = [] := pyStrip_eq_nil_of_space h
  refine ⟨?_, ?_, ?_⟩
  · unfold toon_to_json
    rw [hs]
    decide
  · unfold csv_to_json
    rw [hs]
    simp
  · unfold yaml_to_json
    rw [hs]
    simp

/-- Witness for C10 at the concrete input `" \n\t\n"`. -/
theorem blank_decode_empty_mapping_witness :
    toon_to_json " \n\t\n".data = .ok (.obj .nil) ∧
      csv_to_json " \n\t\n".data = .ok (.obj .nil) ∧
      yaml_to_json (fun _ => .ok .null) " \n\t\n".data = .ok (.obj .nil) :=
  blank_decode_empty_mapping (fun _ => .ok .null) " \n\t\n".data (by decide)

/-!  C7. -/

/-- C7 counterexample: on tokenizer failure the fallback is `len // 3`
(floor), not `ceil(len / 3)`: on a four-character text the fallback
returns 1 while the claimed ceiling is 2. -/
theorem estimate_tokens_ceil_cex :
    estimate_tokens (fun _ => none) "abcd".data = 1 ∧
      ("abcd".data.length + 2) / 3 = 2 := by decide

/-- C7 (amended): token estimation is a pure function of the text through
the tokenizer oracle; whenever the tokenizer fails, `estimate_tokens`
falls back to `len(text) // 3` (floor) instead of raising, while
`count_tokens` (token_counter.py) has no length fallback at all: it
retries one fixed encoding and propagates a failure of that retry. -/
theorem estimate_tokens_fallback (tok : Chars → Option Nat) (text : Chars)
    (h : tok text = none) :
    estimate_tokens tok text = text.length / 3 ∧
      (∀ n, tok text = some n → estimate_tokens tok text = n) ∧
      (∀ f g : Chars → Option Nat, ∀ t, f t = none → g t = none →
        count_tokens f g t = .error "tiktoken: failed to load encoding".data) := by
  refine ⟨?_, ?_, ?_⟩
  · simp [estimate_tokens, h]
  · intro n hn
    simp [estimate_tokens, hn]
  · intro f g t hf hg
    simp [count_tokens, hf, hg]

/-- Witness for C7 at a failing tokenizer and the text `"abcd"`. -/
theorem estimate_tokens_fallback_witness :
    estimate_tokens (fun _ => none) "abcd".data = "abcd".data.length / 3 :=
  (estimate_tokens_fallback (fun _ => none) "abcd".data rfl).1

/-!  C6. -/

/-- First-minimum specification of `pyMinByVal` on a non-empty list. -/
theorem pyMinByVal_spec (l : List (Chars × Int)) : ∀ kv0 : Chars × Int,
    ∃ m, pyMinByVal (kv0 :: l) = some m ∧ (m = kv0 ∨ m ∈ l) ∧ m.2 ≤ kv0.2 ∧
      ∀ x ∈ l, m.2 ≤ x.2 := by
  induction l with
  | nil =>
      intro kv0
      exact ⟨kv0, rfl, Or.inl rfl, le_refl _, by simp⟩
  | cons kv tl ih =>
      intro kv0
      obtain ⟨m, hm_eq, hm_mem, hm_le0, hm_le⟩ := ih (if kv.2 < kv0.2 then kv else kv0)
      refine ⟨m, ?_, ?_, ?_, ?_⟩
      · simpa [pyMinByVal] using hm_eq
      · rcases hm_mem with h | h
        · by_cases hlt : kv.2 < kv0.2
          · simp [hlt] at h
            exact Or.inr (by simp [h])
          · simp [hlt] at h
            exact Or.inl h
        · exact Or.inr (List.mem_cons_of_mem _ h)
      · by_cases hlt : kv.2 < kv0.2
        · simp [hlt] at hm_le0
          omega
        · simpa [hlt] using hm_le0
      · intro x hx
        rcases List.mem_cons.mp hx with rfl | hx'
        · by_cases hlt : x.2 < kv0.2
          · simpa [hlt] using hm_le0
          · simp [hlt] at hm_le0
            omega
        · exact hm_le x hx'

/-- C6 counterexample: on the spec's count table the function returns the
uppercased name `"TOON"`, not `"toon"`. -/
theorem recommendation_case_cex :
    (get_recommended_format [("json".data, 130), ("toon".data, 90),
        ("csv".data, 110), ("yaml".data, 125)]).recommended ≠ some "toon".data ∧
    (get_recommended_format [("json".data, 130), ("toon".data, 90),
        ("csv".data, 110), ("yaml".data, 125)]).recommended = some "TOON".data := by decide

/-- C6 (amended): on the table `json 130, toon 90, csv 110, yaml 125` the
recommendation is the uppercased minimal format name `"TOON"` with
`min_tokens = 90` and the full count table; in general, whenever some
format has a positive count, the function recommends the uppercased name
of a format with positive count that is minimal among all positive
counts, reports that count as `min_tokens`, and echoes the full table. -/
theorem recommendation_minimal :
    get_recommended_format [("json".data, 130), ("toon".data, 90),
        ("csv".data, 110), ("yaml".data, 125)]
      = ⟨some "TOON".data, 90,
          [("json".data, 130), ("toon".data, 90), ("csv".data, 110), ("yaml".data, 125)],
          some []⟩ ∧
    ∀ counts : List (Chars × Int), (∃ kv ∈ counts, 0 < kv.2) →
      ∃ kv ∈ counts, 0 < kv.2 ∧
        (get_recommended_format counts).recommended = some (pyUpper kv.1) ∧
        (get_recommended_format counts).min_tokens = kv.2 ∧
        (get_recommended_format counts).all_counts = counts ∧
        ∀ kv2 ∈ counts, 0 < kv2.2 → kv.2 ≤ kv2.2 := by
  constructor
  · decide
  · intro counts hpos
    obtain ⟨kv0, hmem, hp⟩ := hpos
    have hv : kv0 ∈ counts.filter (fun kv => 0 < kv.2) := by
      rw [List.mem_filter]
      exact ⟨hmem, by simpa using hp⟩
    cases hval : counts.filter (fun kv => 0 < kv.2) with
    | nil => rw [hval] at hv; simp at hv
    | cons v0 vrest =>
        obtain ⟨m, hm_eq, hm_mem, hm_le0, hm_le⟩ := pyMinByVal_spec vrest v0
        have hmval : m ∈ counts.filter (fun kv => 0 < kv.2) := by
          rw [hval]
          rcases hm_mem with rfl | h
          · exact List.mem_cons_self _ _
          · exact List.mem_cons_of_mem _ h
        have hmc : m ∈ counts := List.mem_of_mem_filter hmval
        have hmp : 0 < m.2 := by
          have := (List.mem_filter.mp hmval).2
          simpa using this
        refine ⟨m, hmc, hmp, ?_, ?_, ?_, ?_⟩
        · simp only [get_recommended_format, hval, hm_eq]
        · simp only [get_recommended_format, hval, hm_eq]
        · simp only [get_recommended_format, hval, hm_eq]
        · intro kv2 hk2 hp2
          have hk2v : kv2 ∈ counts.filter (fun kv => 0 < kv.2) := by
            rw [List.mem_filter]
            exact ⟨hk2, by simpa using hp2⟩
          rw [hval] at hk2v
          rcases List.mem_cons.mp hk2v with rfl | h
          · exact hm_le0
          · exact hm_le kv2 h

/-- Witness for C6's general part at the spec's concrete table. -/
theorem recommendation_minimal_witness :
    ∃ kv ∈ [("json".data, 130), ("toon".data, 90), ("csv".data, 110), ("yaml".data, 125)],
      0 < kv.2 ∧
      (get_recommended_format [("json".data, 130), ("toon".data, 90),
          ("csv".data, 110), ("yaml".data, 125)]).recommended = some (pyUpper kv.1) ∧
      (get_recommended_format [("json".data, 130), ("toon".data, 90),
          ("csv".data, 110), ("yaml".data, 125)]).min_tokens = kv.2 ∧
      (get_recommended_format [("json".data, 130), ("toon".data, 90),
          ("csv".data, 110), ("yaml".data, 125)]).all_counts
        = [("json".data, 130), ("toon".data, 90), ("csv".data, 110), ("yaml".data, 125)] ∧
      ∀ kv2 ∈ [("json".data, 130), ("toon".data, 90), ("csv".data, 110), ("yaml".data, 125)],
        0 < kv2.2 → kv.2 ≤ kv2.2 :=
  recommendation_minimal.2 _ ⟨("json".data, 130), by decide, by decide⟩

/-!  C5. -/

/-- C5: `detect_format` tries strict JSON, then the TOON signature, then
the CSV signature, then YAML, first match winning; on the spec's four
witnesses (for any JSON/YAML library behaving as a JSON/YAML parser does
on them) it returns `json`, `toon`, `csv` and `yaml` respectively. -/
theorem detect_format_priority (jsonOk yamlOk : Chars → Bool)
    (h1 : jsonOk "\x7b\"a\":1\x7d".data = true)
    (h2 : jsonOk "[2]\x7ba,b\x7d:\n  1,2\n  3,4".data = false)
    (h3 : jsonOk "a,b\n1,2\n3,4".data = false)
    (h4 : jsonOk "a: 1\nb: 2".data = false)
    (h5 : yamlOk "a: 1\nb: 2".data = true) :
    detect_format jsonOk yamlOk "\x7b\"a\":1\x7d".data = "json" ∧
    detect_format jsonOk yamlOk "[2]\x7ba,b\x7d:\n  1,2\n  3,4".data = "toon" ∧
    detect_format jsonOk yamlOk "a,b\n1,2\n3,4".data = "csv" ∧
    detect_format jsonOk yamlOk "a: 1\nb: 2".data = "yaml" := by
  refine ⟨?_, ?_, ?_, ?_⟩
  · have e : pyStrip "\x7b\"a\":1\x7d".data = "\x7b\"a\":1\x7d".data := by decide
    simp [detect_format, e, h1]
  · have e : pyStrip "[2]\x7ba,b\x7d:\n  1,2\n  3,4".data
        = "[2]\x7ba,b\x7d:\n  1,2\n  3,4".data := by decide
    have ht : is_toon "[2]\x7ba,b\x7d:\n  1,2\n  3,4".data = true := by decide
    simp [detect_format, e, h2, ht]
  · have e : pyStrip "a,b\n1,2\n3,4".data = "a,b\n1,2\n3,4".data := by decide
    have ht : is_toon "a,b\n1,2\n3,4".data = false := by decide
    have hc : is_csv "a,b\n1,2\n3,4".data = true := by decide
    simp [detect_format, e, h3, ht, hc]
  · have e : pyStrip "a: 1\nb: 2".data = "a: 1\nb: 2".data := by decide
    have ht : is_toon "a: 1\nb: 2".data = false := by decide
    have hc : is_csv "a: 1\nb: 2".data = false := by decide
    have hy : is_yaml yamlOk "a: 1\nb: 2".data = true := by
      simp only [is_yaml, h5]
      decide
    simp [detect_format, e, h4, ht, hc, hy]

/-- Witness for C5 with a concrete pair of parser oracles. -/
theorem detect_format_priority_witness :
    detect_format (fun s => s = "\x7b\"a\":1\x7d".data) (fun _ => true)
        "\x7b\"a\":1\x7d".data = "json" ∧
    detect_format (fun s => s = "\x7b\"a\":1\x7d".data) (fun _ => true)
        "[2]\x7ba,b\x7d:\n  1,2\n  3,4".data = "toon" ∧
    detect_format (fun s => s = "\x7b\"a\":1\x7d".data) (fun _ => true)
        "a,b\n1,2\n3,4".data = "csv" ∧
    detect_format (fun s => s = "\x7b\"a\":1\x7d".data) (fun _ => true)
        "a: 1\nb: 2".data = "yaml" :=
  detect_format_priority (fun s => s = "\x7b\"a\":1\x7d".data) (fun _ => true)
    (by decide) (by decide) (by decide) (by decide) (by decide)

/-!  C9. -/

/-- A comma leaves the scanner state unchanged. -/
theorem tlUpd_comma (st : TlState) : tlUpd st ',' = st := by
  have h1 : (',' = sQuote) = False := by decide
  have h2 : (',' = dQuote) = False := by decide
  have h3 : (',' = '\x7b') = False := by decide
  have h4 : (',' = '\x7d') = False := by decide
  have h5 : (',' = '[') = False := by decide
  have h6 : (',' = ']') = False := by decide
  simp [tlUpd, h1, h2, h3, h4, h5, h6]

/-- Scanning a comma-free-at-top-level text never cuts: the buffer grows
by the text and the state advances by the fold. -/
theorem splitTLGo_field (f : Chars) : ∀ (st : TlState) (buf : Chars) (parts : List Chars)
    (rest : Chars), noTLCommaFrom st f = true →
    splitTLGo st buf parts (f ++ rest) = splitTLGo (tlFoldState st f) (buf ++ f) parts rest := by
  induction f with
  | nil =>
      intro st buf parts rest _
      simp [tlFoldState]
  | cons c ftl ih =>
      intro st buf parts rest h
      simp only [noTLCommaFrom, Bool.and_eq_true, Bool.not_eq_true'] at h
      obtain ⟨hcut, htail⟩ := h
      simp only [List.cons_append, splitTLGo]
      have hcond : (decide (c = ',') && tlTop (tlUpd st c)) ≠ true := by simp [hcut]
      rw [if_neg hcond]
      simp only [List.append_eq]
      rw [ih (tlUpd st c) (buf ++ [c]) parts rest htail]
      simp [tlFoldState]

/-- `intercalate` over a non-empty tail. -/
theorem intercalate_cons_ne (sep g : Chars) (tl : List Chars) (h : tl ≠ []) :
    List.intercalate sep (g :: tl) = g ++ sep ++ List.intercalate sep tl := by
  cases tl with
  | nil => exact absurd rfl h
  | cons x xs => simp [List.intercalate, List.intersperse]

/-- Splitting the comma-join of neutral fields emits exactly the stripped
fields (helper generalized over the already-emitted parts). -/
theorem splitTLGo_fields : ∀ (fs : List Chars) (f : Chars) (parts : List Chars),
    (∀ g ∈ fs, fieldNeutral g = true) → fieldNeutral f = true → f ≠ [] →
    splitTLGo tlInit [] parts (List.intercalate [','] (fs ++ [f]))
      = parts ++ (fs ++ [f]).map pyStrip := by
  intro fs
  induction fs with
  | nil =>
      intro f parts _ hf hne
      obtain ⟨hst, hcomma⟩ := Bool.and_eq_true_iff.mp hf
      have hint : List.intercalate [','] ([] ++ [f]) = f := by
        simp [List.intercalate, List.intersperse]
      rw [hint]
      have h1 := splitTLGo_field f tlInit [] parts [] hcomma
      rw [List.append_nil] at h1
      rw [h1]
      simp only [List.nil_append, splitTLGo]
      rw [if_pos hne]
      simp
  | cons g fs ih =>
      intro f parts hfs hf hne
      have hg : fieldNeutral g = true := hfs g (List.mem_cons_self _ _)
      obtain ⟨hgst, hgcomma⟩ := Bool.and_eq_true_iff.mp hg
      rw [show (g :: fs) ++ [f] = g :: (fs ++ [f]) by simp,
          intercalate_cons_ne [','] g (fs ++ [f]) (by simp)]
      rw [List.append_assoc]
      rw [splitTLGo_field g tlInit [] parts _ hgcomma]
      have hst : tlFoldState tlInit g = tlInit := by
        have := of_decide_eq_true hgst
        exact this
      rw [hst]
      simp only [List.nil_append, List.singleton_append, splitTLGo]
      rw [tlUpd_comma]
      rw [if_pos (by simp [tlInit, tlTop])]
      have hrec := ih f (parts ++ [pyStrip g]) (fun x hx => hfs x (List.mem_cons_of_mem _ hx)) hf hne
      simp only [List.append_eq, List.nil_append]
      rw [hrec]
      simp

/-- C2 counterexample: `toon_to_json` splits tabular rows on every comma
(`line.split(',')`), so the row `1,\x7bx: 1, y: [1,2]\x7d` under a two-key header
is torn into four fields and silently dropped: the decode returns the
empty sequence, and the naive split of the row has four fields, not
two. -/
theorem toon_tabular_split_cex :
    toon_to_json "[2]\x7bid,data\x7d:\n  1,\x7bx: 1, y: [1,2]\x7d".data = .ok (.arr .nil) ∧
    (pySplit ',' "1,\x7bx: 1, y: [1,2]\x7d".data).length = 4 := by decide

/-- C2 (amended): the top-level-only comma split is implemented by
`_split_top_level_csv` (bedrock_analyzer.py, used by `load_toon_file`),
not by `toon_to_json` (which splits rows on every comma — see the
counterexample): for any comma-join of fields that are quote/bracket
neutral and contain no top-level comma (the last one non-empty),
`_split_top_level_csv` returns exactly the stripped fields, so a field
such as `\x7bx: 1, y: [1,2]\x7d` survives intact and the field count equals the
number of joined fields. -/
theorem split_top_level_csv_preserves_fields (fs : List Chars) (f : Chars)
    (hfs : ∀ g ∈ fs, fieldNeutral g = true) (hf : fieldNeutral f = true) (hne : f ≠ []) :
    split_top_level_csv (List.intercalate [','] (fs ++ [f])) = (fs ++ [f]).map pyStrip ∧
    (split_top_level_csv (List.intercalate [','] (fs ++ [f]))).length = (fs ++ [f]).length := by
  have h := splitTLGo_fields fs f [] hfs hf hne
  rw [List.nil_append] at h
  refine ⟨h, ?_⟩
  unfold split_top_level_csv
  rw [h]
  simp

/-- Witness for C2: the row `1,\x7bx: 1, y: [1,2]\x7d` splits into exactly its
two fields, the serialized mapping intact. -/
theorem split_top_level_csv_preserves_fields_witness :
    split_top_level_csv (List.intercalate [','] (["1".data] ++ ["\x7bx: 1, y: [1,2]\x7d".data]))
        = (["1".data] ++ ["\x7bx: 1, y: [1,2]\x7d".data]).map pyStrip ∧
    (split_top_level_csv (List.intercalate [','] (["1".data] ++ ["\x7bx: 1, y: [1,2]\x7d".data]))).length
        = (["1".data] ++ ["\x7bx: 1, y: [1,2]\x7d".data]).length :=
  split_top_level_csv_preserves_fields ["1".data] "\x7bx: 1, y: [1,2]\x7d".data
    (by decide) (by decide) (by decide)

/-!  C3. -/

/-- Reduction lemmas for the `Except` monad's bind. -/
theorem exceptBindOk {e a b : Type} (x : a) (f : a → Except e b) :
    (do let y ← Except.ok x; f y : Except e b) = f x := rfl

/-- An error on the left of a bind short-circuits. -/
theorem exceptBindErr {e a b : Type} (msg : e) (f : a → Except e b) :
    (do let y ← (Except.error msg : Except e a); f y : Except e b) = .error msg := rfl

/-- Assignment under a different key does not change a lookup. -/
theorem ObjList.find_set_ne : ∀ (kvs : ObjList) (k k' : Chars) (v : Val), k' ≠ k →
    (kvs.set k' v).find k = kvs.find k
  | .nil, k, k', v, h => by simp [ObjList.set, ObjList.find, h]
  | .cons k0 v0 tl, k, k', v, h => by
      simp only [ObjList.set]
      by_cases h0 : k0 = k'
      · rw [if_pos h0]
        simp only [ObjList.find]
        rw [if_neg (by rw [h0]; exact h), if_neg (by rw [h0]; exact h)]
      · rw [if_neg h0]
        simp only [ObjList.find]
        by_cases h1 : k0 = k
        · rw [if_pos h1, if_pos h1]
        · rw [if_neg h1, if_neg h1, ObjList.find_set_ne tl k k' v h]

/-- The loader's zip dictionary contains only header fields. -/
theorem find_buildLoadObj_none (k : Chars) :
    ∀ (ks cs : List Chars) (acc : ObjList), k ∉ ks → acc.find k = none →
      (buildLoadObj acc ks cs).find k = none := by
  intro ks
  induction ks with
  | nil => intro cs acc _ hacc; cases cs <;> simpa [buildLoadObj]
  | cons k0 ktl ih =>
      intro cs acc hk hacc
      cases cs with
      | nil => simpa [buildLoadObj]
      | cons c ctl =>
          simp only [buildLoadObj]
          refine ih ctl _ (fun h => hk (List.mem_cons_of_mem _ h)) ?_
          rw [ObjList.find_set_ne _ _ _ _ (fun h => hk (by rw [h]; exact List.mem_cons_self _ _))]
          exact hacc

/-- Without `metrics`/`tags` entries the special-field conversions cannot
raise. -/
theorem convertSpecial_ok (lev : Chars → Except Chars Val) (obj : ObjList)
    (hm : obj.find "metrics".data = none) (ht : obj.find "tags".data = none) :
    ∃ o, convertSpecial lev obj = .ok o := by
  simp only [convertSpecial, hm, ht]
  exact ⟨_, rfl⟩

/-- C3 counterexample: `toon_to_json` silently drops a tabular row whose
field count differs from the header key count and returns the remaining
rows — no decode error, a partial result. -/
theorem toon_row_mismatch_skip_cex :
    toon_to_json "[2]\x7ba,b\x7d:\n  1,2,3\n  4,5".data
      = .ok (.arr (.cons (.obj (.cons "a".data (.int 4)
          (.cons "b".data (.int 5) .nil))) .nil)) := by decide

/-- C3 (amended): the loader `load_toon_file` (bedrock_analyzer.py) is
the decoder that fails on a column-count mismatch: its row loop raises a
`ValueError` naming the actual and expected column counts at the first
mismatched row (earlier rows matching, header fields free of the
`metrics`/`tags` names whose conversion consults `ast.literal_eval`);
`toon_to_json` instead silently skips such rows (see the
counterexample). -/
theorem load_toon_mismatch_error (lev : Chars → Except Chars Val) (fields : List Chars)
    (hm : ¬ "metrics".data ∈ fields) (ht : ¬ "tags".data ∈ fields)
    (good : List Chars) (bad : Chars) (rest : List Chars)
    (hgood : ∀ ln ∈ good, pyStrip ln ≠ [] ∧
      (split_top_level_csv (if pyEndsWith ",".data (pyStrip ln) then (pyStrip ln).dropLast
        else pyStrip ln)).length = fields.length)
    (hbadne : pyStrip bad ≠ [])
    (hbad : (split_top_level_csv (if pyEndsWith ",".data (pyStrip bad) then (pyStrip bad).dropLast
        else pyStrip bad)).length ≠ fields.length) :
    loadRows lev fields (good ++ bad :: rest)
      = .error ("TOON row has ".data
          ++ natChars (split_top_level_csv (if pyEndsWith ",".data (pyStrip bad)
              then (pyStrip bad).dropLast else pyStrip bad)).length
          ++ " columns but header has ".data ++ natChars fields.length ++ " fields.".data) := by
  induction good with
  | nil =>
      simp only [List.nil_append, loadRows]
      rw [if_neg (by simpa using hbadne)]
      rw [if_pos (by simpa using hbad)]
  | cons g gtl ih =>
      have hg := hgood g (List.mem_cons_self _ _)
      simp only [List.cons_append, loadRows]
      rw [if_neg (by simpa using hg.1)]
      rw [if_neg (by simpa using hg.2)]
      have hfind : ∀ k, ¬ k ∈ fields →
          (buildLoadObj .nil fields (split_top_level_csv
            (if pyEndsWith ",".data (pyStrip g) then (pyStrip g).dropLast
             else pyStrip g))).find k = none :=
        fun k hk => find_buildLoadObj_none k fields _ .nil hk rfl
      obtain ⟨o, ho⟩ := convertSpecial_ok lev _ (hfind _ hm) (hfind _ ht)
      have hrec := ih (fun ln hln => hgood ln (List.mem_cons_of_mem _ hln))
      simp only [List.append_eq, ho, exceptBindOk, hrec, exceptBindErr]
      simp

/-- Witness for C3: header `[2]\x7ba,b\x7d` with rows `1,2` then `3`; the loop
fails with the error naming 1 actual versus 2 expected columns. -/
theorem load_toon_mismatch_error_witness :
    loadRows (fun _ => .error []) ["a".data, "b".data] (["  1,2".data] ++ "  3".data :: [])
      = .error ("TOON row has ".data
          ++ natChars (split_top_level_csv (if pyEndsWith ",".data (pyStrip "  3".data)
              then (pyStrip "  3".data).dropLast else pyStrip "  3".data)).length
          ++ " columns but header has ".data ++ natChars (["a".data, "b".data]).length
          ++ " fields.".data) :=
  load_toon_mismatch_error (fun _ => .error []) ["a".data, "b".data]
    (by decide) (by decide) ["  1,2".data] "  3".data []
    (by decide) (by decide) (by decide)

/-!  C4. -/

/-- Python set equality of key lists is order-insensitive membership
equivalence. -/
theorem sameKeySet_iff (ks1 ks2 : List Chars) :
    sameKeySet ks1 ks2 = true ↔ ∀ k, k ∈ ks1 ↔ k ∈ ks2 := by
  simp only [sameKeySet, Bool.and_eq_true, List.all_eq_true]
  constructor
  · intro ⟨h1, h2⟩ k
    constructor
    · intro hk
      simpa using h1 k hk
    · intro hk
      simpa using h2 k hk
  · intro h
    constructor
    · intro k hk
      simpa using (h k).mp hk
    · intro k hk
      simpa using (h k).mpr hk

/-- The combined all-dicts and all-same-key-set test is the spec's
element condition. -/
theorem allObj_allKeySetEq_iff (ks : List Chars) : ∀ (xs : ValList),
    (xs.allObj && xs.allKeySetEq ks) = true ↔
      ∀ v ∈ xs.toList, v.isObj = true ∧ ∀ k, k ∈ v.objKeys ↔ k ∈ ks
  | .nil => by simp [ValList.allObj, ValList.allKeySetEq, ValList.toList]
  | .cons v tl => by
      have ih := allObj_allKeySetEq_iff ks tl
      cases v with
      | obj kvs =>
          simp only [ValList.allObj, ValList.allKeySetEq, Val.isObj, ValList.toList,
            Bool.and_eq_true, List.mem_cons]
          constructor
          · intro ⟨⟨_, hobjs⟩, hsk, hsks⟩
            intro w hw
            rcases hw with rfl | hw
            · exact ⟨by simp [Val.isObj], by simpa [Val.objKeys] using (sameKeySet_iff _ _).mp hsk⟩
            · exact (ih.mp (by simp [Bool.and_eq_true, hobjs, hsks])) w hw
          · intro h
            have h0 := h (.obj kvs) (Or.inl rfl)
            have hrest := fun w hw => h w (Or.inr hw)
            have h1 := ih.mpr hrest
            simp only [Bool.and_eq_true] at h1
            exact ⟨⟨by simp, h1.1⟩, (sameKeySet_iff _ _).mpr (by simpa [Val.objKeys] using h0.2),
              h1.2⟩
      | null => simp [ValList.allObj, Val.isObj, ValList.toList]
      | bool b => simp [ValList.allObj, Val.isObj, ValList.toList]
      | int n => simp [ValList.allObj, Val.isObj, ValList.toList]
      | float l => simp [ValList.allObj, Val.isObj, ValList.toList]
      | str t => simp [ValList.allObj, Val.isObj, ValList.toList]
      | arr ys => simp [ValList.allObj, Val.isObj, ValList.toList]

/-- The encoder's row loop is the spec's per-element map. -/
theorem tabularRows_eq_map (keys : List Chars) : ∀ (xs : ValList),
    tabularRows xs keys = xs.toList.map (fun item =>
      "  ".data ++ List.intercalate ",".data (keys.map (fun k => format_value (item.objGet k))))
  | .nil => rfl
  | .cons v tl => by
      simp only [tabularRows, ValList.toList, List.map_cons]
      rw [tabularRows_eq_map keys tl]

/-- C4 counterexample: for `[\x7b\x7d]` — a non-empty sequence of mappings with
an empty key set — the encoder still emits the tabular form
`[1]\x7b\x7d:` with one blank row, although the spec's tabular condition
(non-empty key set) fails and the path-notation encoding would be the
empty string. -/
theorem tabular_empty_keyset_cex :
    json_to_toon (.arr (.cons (.obj .nil) .nil)) = "[1]\x7b\x7d:\n  ".data ∧
    ¬ specTabularCond (.cons (.obj .nil) .nil) ∧
    specPathEncode (.arr (.cons (.obj .nil) .nil)) = [] := by
  refine ⟨by decide, ?_, by decide⟩
  intro ⟨_, hk, _⟩
  exact hk (by decide)

/-- C4 (amended): `json_to_toon` emits the tabular form exactly when the
root is a non-empty Sequence whose elements are all Mappings sharing an
identical key set compared order-insensitively — the key set may be
empty, dropping the spec's non-emptiness requirement (see the
counterexample); under that condition the output is exactly the spec's
header-plus-rows layout; every other root value uses path notation (a
Sequence failing the condition, and every Mapping root) or, for a
non-container root, prints bare. -/
theorem tabular_form_characterization (xs : ValList) :
    (is_array_of_objects (.arr xs) = true ↔ specTabularCondWeak xs) ∧
    (is_array_of_objects (.arr xs) = true → json_to_toon (.arr xs) = specTabularEncode xs) ∧
    (is_array_of_objects (.arr xs) = false → json_to_toon (.arr xs) = specPathEncode (.arr xs)) ∧
    (∀ kvs : ObjList, json_to_toon (.obj kvs) = specPathEncode (.obj kvs)) ∧
    (∀ v : Val, v.isContainer = false → json_to_toon v = pyStr v) := by
  refine ⟨?_, ?_, ?_, ?_, ?_⟩
  · cases xs with
    | nil =>
        refine iff_of_false (by decide) ?_
        intro ⟨h, _⟩
        exact h rfl
    | cons v tl =>
        simp only [is_array_of_objects]
        rw [allObj_allKeySetEq_iff]
        constructor
        · intro h
          exact ⟨(by intro hc; cases hc), h⟩
        · intro ⟨_, h⟩
          exact h
  · intro h
    have hne : xs ≠ .nil := by
      intro hc
      rw [hc] at h
      exact absurd h (by decide)
    simp only [json_to_toon, Val.isContainer, Bool.not_true, Bool.false_eq_true, if_false, h,
      if_true]
    have hlen : ¬ xs.length = 0 := by
      cases xs with
      | nil => exact absurd rfl hne
      | cons v tl => simp [ValList.length]
    rw [if_neg hlen]
    unfold specTabularEncode
    rw [tabularRows_eq_map]
  · intro h
    simp only [json_to_toon, Val.isContainer, Bool.not_true, Bool.false_eq_true, if_false, h,
      if_true]
    rfl
  · intro kvs
    rfl
  · intro v hv
    simp [json_to_toon, hv]

/-- Witness for C4 at the two-row uniform sequence
`[\x7ba: 1\x7d, \x7ba: 2\x7d]` (tabular) and the mapping root
`\x7ba: 1\x7d` (path notation). -/
theorem tabular_form_characterization_witness :
    (json_to_toon (.arr (.cons (.obj (.cons "a".data (.int 1) .nil))
        (.cons (.obj (.cons "a".data (.int 2) .nil)) .nil)))
      = specTabularEncode (.cons (.obj (.cons "a".data (.int 1) .nil))
          (.cons (.obj (.cons "a".data (.int 2) .nil)) .nil))) ∧
    json_to_toon (.obj (.cons "a".data (.int 1) .nil))
      = specPathEncode (.obj (.cons "a".data (.int 1) .nil)) :=
  ⟨(tabular_form_characterization (.cons (.obj (.cons "a".data (.int 1) .nil))
      (.cons (.obj (.cons "a".data (.int 2) .nil)) .nil))).2.1 (by decide),
   (tabular_form_characterization .nil).2.2.2.1 (.cons "a".data (.int 1) .nil)⟩

/-!  C8. -/

/-- C8 counterexample: the valid-JSON content `[\n\x7b"a":1\x7d,\n\x7b"b":2\x7d\n]`
declared as CSV is NOT converted successfully: the detected-format (json)
attempt raises in `json_to_csv` (`DictWriter` header from the first
element, the second element has the extra field `b`), the declared-format
(csv) retry raises a `TypeError` in `parse_csv_value` (the `DictReader`
rest key holds a list), and the endpoint returns a 400 whose error
re-raises the detected-format message — carrying the mismatch warning.
The oracles are instantiated with the real library behaviour at the one
point each is consulted: `json.loads` succeeds on this content and
returns `[\x7b"a": 1\x7d, \x7b"b": 2\x7d]`. -/
theorem mismatch_unconvertible_json_cex :
    convert_formats (fun _ => true) (fun _ => true)
        (fun _ => .ok (.arr (.cons (.obj (.cons "a".data (.int 1) .nil))
          (.cons (.obj (.cons "b".data (.int 2) .nil)) .nil))))
        (fun _ => []) (fun _ => []) (fun _ => .error [])
        (fun _ => some 1) (fun _ => some 1)
        "[\n\x7b\"a\":1\x7d,\n\x7b\"b\":2\x7d\n]".data "csv"
      = .failure ("Could not convert content. Conversion error: ".data
            ++ "dict contains fields not in fieldnames: ".data ++ [sQuote, 'b', sQuote])
          (some ⟨"json", "csv", warningMessage "json"⟩) 400 := by decide

/-- C8 (amended): declaring `from_format=csv` while submitting valid JSON
records a mismatch warning with `detected_format=json,
expected_format=csv`, attempts conversion under the detected format
`json` first, retries under `csv` only if that raises, and — only when
one of the two attempts and the subsequent token counting succeed —
responds 200 with the conversions, token counts, recommendation and the
warning.  When both attempts raise it responds 400, re-raising the
detected-format error prefixed `Could not convert content.`, still
carrying the warning (conversion does NOT succeed for every valid-JSON
content: see the counterexample); when conversion succeeds but the
tokenizer raises it responds 500, also carrying the warning. -/
theorem mismatch_recovery (jsonOk yamlOk : Chars → Bool)
    (jsonLoads : Chars → Except Chars Val) (jsonDumps : Val → Chars)
    (yamlDump : Val → Chars) (safeLoad : Chars → Except Chars Val)
    (encFor encBase : Chars → Option Nat) (content : Chars)
    (hs : pyStrip content = content) (hne : content ≠ [])
    (hjson : jsonOk content = true) :
    (∀ r counts,
      convert_format jsonLoads jsonDumps yamlDump safeLoad content "json" = .ok r →
      count_tokens_for_formats encFor encBase r = .ok counts →
      convert_formats jsonOk yamlOk jsonLoads jsonDumps yamlDump safeLoad encFor encBase
          content "csv"
        = .success r counts (get_recommended_format counts)
            (some ⟨"json", "csv", warningMessage "json"⟩) 200) ∧
    (∀ e r counts,
      convert_format jsonLoads jsonDumps yamlDump safeLoad content "json" = .error e →
      convert_format jsonLoads jsonDumps yamlDump safeLoad content "csv" = .ok r →
      count_tokens_for_formats encFor encBase r = .ok counts →
      convert_formats jsonOk yamlOk jsonLoads jsonDumps yamlDump safeLoad encFor encBase
          content "csv"
        = .success r counts (get_recommended_format counts)
            (some ⟨"json", "csv", warningMessage "json"⟩) 200) ∧
    (∀ e e2,
      convert_format jsonLoads jsonDumps yamlDump safeLoad content "json" = .error e →
      convert_format jsonLoads jsonDumps yamlDump safeLoad content "csv" = .error e2 →
      convert_formats jsonOk yamlOk jsonLoads jsonDumps yamlDump safeLoad encFor encBase
          content "csv"
        = .failure ("Could not convert content. ".data ++ e)
            (some ⟨"json", "csv", warningMessage "json"⟩) 400) ∧
    (∀ r e,
      convert_format jsonLoads jsonDumps yamlDump safeLoad content "json" = .ok r →
      count_tokens_for_formats encFor encBase r = .error e →
      convert_formats jsonOk yamlOk jsonLoads jsonDumps yamlDump safeLoad encFor encBase
          content "csv"
        = .failure ("Conversion error: ".data ++ e)
            (some ⟨"json", "csv", warningMessage "json"⟩) 500) := by
  have hdet : detect_format jsonOk yamlOk content = "json" := by
    simp [detect_format, hs, hne, hjson]
  refine ⟨?_, ?_, ?_, ?_⟩
  · intro r counts hr hc
    simp [convert_formats, finishConv, hs, hne, hdet, hr, hc]
  · intro e r counts he hr hc
    simp [convert_formats, finishConv, hs, hne, hdet, he, hr, hc]
  · intro e e2 he he2
    simp [convert_formats, hs, hne, hdet, he, he2]
  · intro r e hr he
    simp [convert_formats, finishConv, hs, hne, hdet, hr, he]

/-- Witness for C8 at the content `1` (valid JSON) declared as CSV:
`json.loads` returns the integer 1 and every tokenizer call counts 1
token, so the endpoint succeeds under the detected format with the
warning attached. -/
theorem mismatch_recovery_witness :
    convert_formats (fun s => s = "1".data) (fun _ => true)
        (fun _ => .ok (.int 1)) (fun _ => "1".data) (fun _ => "1\n".data)
        (fun _ => .error []) (fun _ => some 1) (fun _ => none) "1".data "csv"
      = .success ⟨"1".data, "1".data, "value\r\n1\r\n".data, "1\n".data⟩
          [("json".data, 1), ("toon".data, 1), ("csv".data, 1), ("yaml".data, 1)]
          (get_recommended_format
            [("json".data, 1), ("toon".data, 1), ("csv".data, 1), ("yaml".data, 1)])
          (some ⟨"json", "csv", warningMessage "json"⟩) 200 :=
  (mismatch_recovery (fun s => s = "1".data) (fun _ => true)
      (fun _ => .ok (.int 1)) (fun _ => "1".data) (fun _ => "1\n".data)
      (fun _ => .error []) (fun _ => some 1) (fun _ => none) "1".data
      (by decide) (by decide) (by decide)).1
    ⟨"1".data, "1".data, "value\r\n1\r\n".data, "1\n".data⟩
    [("json".data, 1), ("toon".data, 1), ("csv".data, 1), ("yaml".data, 1)]
    (by decide) (by decide)

/-!  C1 — counterexample. -/

/-- C1 counterexample: the string leaf `"5"` encodes to the same text as
the integer `5`, so `toon_to_json(json_to_toon v))` returns
`\x7ba: 5\x7d` for `v = \x7ba: "5"\x7d` — not structurally equal to `v`. -/
theorem toon_roundtrip_string_leaf_cex :
    toon_to_json (json_to_toon (.obj (.cons "a".data (.str "5".data) .nil)))
        ≠ .ok (.obj (.cons "a".data (.str "5".data) .nil)) ∧
    toon_to_json (json_to_toon (.obj (.cons "a".data (.str "5".data) .nil)))
        = .ok (.obj (.cons "a".data (.int 5) .nil)) := by decide

/-!  C1 — digit and integer-literal lemmas. -/

/-- Every character `natCharsAux` emits is a decimal digit. -/
theorem natCharsAux_digits : ∀ (fuel n : Nat), ∀ c ∈ natCharsAux fuel n, c.isDigit = true := by
  intro fuel
  induction fuel with
  | zero => intro n c hc; simp [natCharsAux] at hc
  | succ fuel ih =>
      intro n c hc
      simp only [natCharsAux] at hc
      by_cases h : n < 10
      · rw [if_pos h] at hc
        interval_cases n <;> simp_all
      · rw [if_neg h] at hc
        rcases List.mem_append.mp hc with h1 | h1
        · exact ih (n / 10) c h1
        · have h2 : n % 10 < 10 := Nat.mod_lt _ (by omega)
          have : c = Char.ofNat (48 + n % 10) := by simpa using h1
          subst this
          set m := n % 10 with hm
          interval_cases m <;> decide

/-- `natChars` emits only digits. -/
theorem natChars_digits (n : Nat) : ∀ c ∈ natChars n, c.isDigit = true :=
  natCharsAux_digits (n + 1) n

/-- `natCharsAux` is non-empty for positive fuel. -/
theorem natCharsAux_ne_nil (fuel n : Nat) : natCharsAux (fuel + 1) n ≠ [] := by
  simp only [natCharsAux]
  by_cases h : n < 10
  · rw [if_pos h]; simp
  · rw [if_neg h]; simp

/-- `natChars` is non-empty. -/
theorem natChars_ne_nil (n : Nat) : natChars n ≠ [] := natCharsAux_ne_nil n n

/-- Value of a digit character produced from a digit. -/
theorem toNat_ofNat_digit (n : Nat) (h : n < 10) : (Char.ofNat (48 + n)).toNat = 48 + n := by
  interval_cases n <;> decide

/-- `charsToNat` over an appended digit. -/
theorem charsToNat_append (s : Chars) (c : Char) :
    charsToNat (s ++ [c]) = 10 * charsToNat s + (c.toNat - 48) := by
  simp [charsToNat, List.foldl_append]

/-- Decimal printing then reading is the identity (with enough fuel). -/
theorem charsToNat_natCharsAux : ∀ (fuel n : Nat), n < fuel →
    charsToNat (natCharsAux fuel n) = n := by
  intro fuel
  induction fuel with
  | zero => intro n h; omega
  | succ fuel ih =>
      intro n h
      simp only [natCharsAux]
      by_cases h10 : n < 10
      · rw [if_pos h10]
        simp [charsToNat, toNat_ofNat_digit n h10]
      · rw [if_neg h10]
        rw [charsToNat_append]
        have hlt : n / 10 < fuel := by omega
        rw [ih (n / 10) hlt]
        have h2 : n % 10 < 10 := Nat.mod_lt _ (by omega)
        rw [toNat_ofNat_digit _ h2]
        omega

/-- Decimal printing then reading is the identity. -/
theorem charsToNat_natChars (n : Nat) : charsToNat (natChars n) = n :=
  charsToNat_natCharsAux (n + 1) n (by omega)

/-- Every character of `intChars` is a digit or the minus sign. -/
theorem intChars_chars (n : Int) : ∀ c ∈ intChars n, c.isDigit = true ∨ c = '-' := by
  cases n with
  | ofNat m =>
      intro c hc
      exact Or.inl (natChars_digits m c hc)
  | negSucc m =>
      intro c hc
      rcases List.mem_cons.mp hc with rfl | hc
      · exact Or.inr rfl
      · exact Or.inl (natChars_digits (m + 1) c hc)

/-- `intChars` is non-empty. -/
theorem intChars_ne_nil (n : Int) : intChars n ≠ [] := by
  cases n with
  | ofNat m => exact natChars_ne_nil m
  | negSucc m => simp [intChars]

/-- A digit character is none of the structural characters or spaces. -/
theorem digit_char_props (c : Char) (h : c.isDigit = true) :
    pyIsSpace c = false ∧ c ≠ ',' ∧ c ≠ '\n' ∧ c ≠ '[' ∧ c ≠ ']' ∧ c ≠ '\x7b' ∧ c ≠ '\x7d' ∧
      c ≠ ':' ∧ c ≠ '.' ∧ c ≠ '_' ∧ c ≠ '+' := by
  have ne : ∀ x : Char, x.isDigit = false → c ≠ x := by
    intro x hx hc
    rw [hc] at h
    rw [h] at hx
    cases hx
  refine ⟨?_, ne ',' (by decide), ne '\n' (by decide), ne '[' (by decide), ne ']' (by decide),
    ne '\x7b' (by decide), ne '\x7d' (by decide), ne ':' (by decide), ne '.' (by decide),
    ne '_' (by decide), ne '+' (by decide)⟩
  by_contra hs
  simp only [Bool.not_eq_false] at hs
  simp only [pyIsSpace, Bool.or_eq_true, decide_eq_true_eq] at hs
  rcases hs with ((((h1 | h1) | h1) | h1) | h1) | h1 <;> (subst h1; exact absurd h (by decide))

/-!  C1 — strip, remove, membership lemmas. -/

/-- Stripping text made of non-space characters is the identity. -/
theorem pyStrip_all_nonspace {s : Chars} (h : ∀ c ∈ s, pyIsSpace c = false) :
    pyStrip s = s := by
  have hL : pyStripL s = s := by
    cases s with
    | nil => rfl
    | cons c t =>
        simp only [pyStripL, List.dropWhile]
        rw [h c (List.mem_cons_self _ _)]
  have hR : pyStripR s = s := by
    unfold pyStripR
    cases hrev : s.reverse with
    | nil => simp [List.dropWhile, ← hrev]
    | cons c t =>
        have hc : c ∈ s := by
          rw [← List.mem_reverse, hrev]
          exact List.mem_cons_self _ _
        simp only [List.dropWhile]
        rw [h c hc]
        rw [← hrev, List.reverse_reverse]
  unfold pyStrip
  rw [hL, hR]

/-- Removing an absent character is the identity. -/
theorem pyRemove_eq_self {c : Char} {s : Chars} (h : c ∉ s) : pyRemove c s = s := by
  unfold pyRemove
  refine List.filter_eq_self.mpr ?_
  intro x hx
  simp only [ne_eq, decide_eq_true_eq]
  intro hc
  rw [hc] at hx
  exact h hx

/-- Character membership decides `pyHasChar`. -/
theorem pyHasChar_eq_false {c : Char} {s : Chars} (h : c ∉ s) : pyHasChar c s = false := by
  simp only [pyHasChar]
  simpa using h

/-- `pyHasChar` from membership. -/
theorem pyHasChar_eq_true {c : Char} {s : Chars} (h : c ∈ s) : pyHasChar c s = true := by
  simp only [pyHasChar]
  simpa using h

/-- Step equation of `digitsUAfter` on a non-underscore character. -/
theorem digitsUAfter_cons (c : Char) (rest : Chars) (h : c ≠ '_') :
    digitsUAfter (c :: rest) = (c.isDigit && digitsUAfter rest) := by
  conv_lhs => unfold digitsUAfter
  rw [if_neg h]

/-- All-digit text passes the underscore digit-run test. -/
theorem digitsUAfter_of_digits : ∀ (s : Chars), (∀ c ∈ s, c.isDigit = true) →
    digitsUAfter s = true
  | [] => fun _ => rfl
  | c :: rest => fun h => by
      have hc := h c (List.mem_cons_self _ _)
      have hne : c ≠ '_' := (digit_char_props c hc).2.2.2.2.2.2.2.2.2.1
      rw [digitsUAfter_cons c rest hne, hc,
        digitsUAfter_of_digits rest (fun x hx => h x (List.mem_cons_of_mem _ hx))]
      rfl

/-- All-digit non-empty text is a digit run. -/
theorem digitsU_of_digits {s : Chars} (hne : s ≠ []) (h : ∀ c ∈ s, c.isDigit = true) :
    digitsU s = true := by
  cases s with
  | nil => exact absurd rfl hne
  | cons c rest =>
      simp only [digitsU]
      rw [h c (List.mem_cons_self _ _),
        digitsUAfter_of_digits rest (fun x hx => h x (List.mem_cons_of_mem _ hx))]
      rfl

/-- Reduction of `pyIntParse` once the stripped text is known. -/
theorem pyIntParse_eq (s : Chars) (c : Char) (rest : Chars) (h : pyStrip s = c :: rest) :
    pyIntParse s =
      (if c = '-' then
        (if digitsU rest then some (-(charsToNat (pyRemove '_' rest) : Int)) else none)
       else if c = '+' then
        (if digitsU rest then some ((charsToNat (pyRemove '_' rest) : Int)) else none)
       else if digitsU (c :: rest) then
        some ((charsToNat (pyRemove '_' (c :: rest)) : Int))
       else none) := by
  unfold pyIntParse
  rw [h]

/-- Reduction of `pyIntOfSigned` on a non-empty string. -/
theorem pyIntOfSigned_eq (c : Char) (rest : Chars) :
    pyIntOfSigned (c :: rest) =
      (if c = '-' then (if pyIsDigits rest then some (-(charsToNat rest : Int)) else none)
       else if pyIsDigits (c :: rest) then some ((charsToNat (c :: rest) : Int)) else none) := rfl

/-- `pyIntParse` reads back a printed natural number. -/
theorem pyIntParse_natChars (n : Nat) : pyIntParse (natChars n) = some (n : Int) := by
  have hdig := natChars_digits n
  have hstrip : pyStrip (natChars n) = natChars n :=
    pyStrip_all_nonspace (fun c hc => (digit_char_props c (hdig c hc)).1)
  cases hn : natChars n with
  | nil => exact absurd hn (natChars_ne_nil n)
  | cons c rest =>
      have hc : c.isDigit = true := hdig c (by rw [hn]; exact List.mem_cons_self _ _)
      have hprops := digit_char_props c hc
      have hcne : c ≠ '-' := by
        intro hcm
        rw [hcm] at hc
        exact absurd hc (by decide)
      have hdU : digitsU (c :: rest) = true := by
        rw [← hn]
        exact digitsU_of_digits (natChars_ne_nil n) hdig
      have hnou : '_' ∉ (c :: rest) := by
        intro hm
        rw [← hn] at hm
        exact absurd (hdig '_' hm) (by decide)
      have hval : charsToNat (c :: rest) = n := by
        rw [← hn, charsToNat_natChars]
      have hstrip2 : pyStrip (c :: rest) = c :: rest := by
        rw [← hn]
        exact hstrip
      rw [pyIntParse_eq _ c rest hstrip2]
      rw [if_neg hcne, if_neg hprops.2.2.2.2.2.2.2.2.2.2, if_pos hdU]
      rw [pyRemove_eq_self hnou, hval]

/-- `pyIntParse` reads back any printed integer. -/
theorem pyIntParse_intChars (n : Int) : pyIntParse (intChars n) = some n := by
  cases n with
  | ofNat m => exact pyIntParse_natChars m
  | negSucc m =>
      have hdig := natChars_digits (m + 1)
      have hstrip : pyStrip ('-' :: natChars (m + 1)) = '-' :: natChars (m + 1) := by
        refine pyStrip_all_nonspace ?_
        intro c hc
        rcases List.mem_cons.mp hc with rfl | hc
        · decide
        · exact (digit_char_props c (hdig c hc)).1
      have hnou : '_' ∉ natChars (m + 1) := by
        intro hm
        exact absurd (hdig '_' hm) (by decide)
      show pyIntParse ('-' :: natChars (m + 1)) = some (Int.negSucc m)
      rw [pyIntParse_eq _ '-' (natChars (m + 1)) hstrip]
      rw [if_pos rfl, if_pos (digitsU_of_digits (natChars_ne_nil (m + 1)) hdig)]
      rw [pyRemove_eq_self hnou, charsToNat_natChars]
      simp [Int.negSucc_eq]

/-- `parse_value` reads back a printed integer. -/
theorem parse_value_intChars (n : Int) : parse_value (intChars n) = .int n := by
  have hchars := intChars_chars n
  have hnodot : '.' ∉ intChars n := by
    intro hm
    rcases hchars '.' hm with h | h
    · exact absurd h (by decide)
    · exact absurd h (by decide)
  have hstrip : pyStrip (intChars n) = intChars n := by
    refine pyStrip_all_nonspace ?_
    intro c hc
    rcases hchars c hc with h | h
    · exact (digit_char_props c h).1
    · rw [h]; decide
  unfold parse_value
  rw [if_neg (intChars_ne_nil n)]
  simp only [hstrip]
  rw [pyHasChar_eq_false hnodot]
  simp only [Bool.false_and, Bool.false_eq_true, if_false]
  have hguard : pyIsDigits (pyRemove '-' (intChars n)) = true := by
    cases n with
    | ofNat m =>
        have hnom : '-' ∉ natChars m := by
          intro hm
          exact absurd (natChars_digits m '-' hm) (by decide)
        rw [show intChars (Int.ofNat m) = natChars m from rfl, pyRemove_eq_self hnom]
        simp only [pyIsDigits, Bool.and_eq_true, List.all_eq_true]
        exact ⟨by simpa using natChars_ne_nil m, fun c hc => by simpa using natChars_digits m c hc⟩
    | negSucc m =>
        have hnom : '-' ∉ natChars (m + 1) := by
          intro hm
          exact absurd (natChars_digits (m + 1) '-' hm) (by decide)
        show pyIsDigits (pyRemove '-' ('-' :: natChars (m + 1))) = true
        have : pyRemove '-' ('-' :: natChars (m + 1)) = natChars (m + 1) := by
          simp only [pyRemove, List.filter]
          rw [show (decide ('-' ≠ '-')) = false from by decide]
          exact pyRemove_eq_self hnom
        rw [this]
        simp only [pyIsDigits, Bool.and_eq_true, List.all_eq_true]
        exact ⟨by simpa using natChars_ne_nil (m + 1),
          fun c hc => by simpa using natChars_digits (m + 1) c hc⟩
  rw [if_pos hguard]
  have hsigned : pyIntOfSigned (intChars n) = some n := by
    cases n with
    | ofNat m =>
        cases hn : natChars m with
        | nil => exact absurd hn (natChars_ne_nil m)
        | cons c rest =>
            have hc : c.isDigit = true :=
              natChars_digits m c (by rw [hn]; exact List.mem_cons_self _ _)
            have hcne : c ≠ '-' := by
              intro hcm
              rw [hcm] at hc
              exact absurd hc (by decide)
            have hdg : pyIsDigits (c :: rest) = true := by
              rw [← hn]
              simp only [pyIsDigits, Bool.and_eq_true, List.all_eq_true]
              exact ⟨by simpa using natChars_ne_nil m,
                fun x hx => by simpa using natChars_digits m x hx⟩
            have hval : charsToNat (c :: rest) = m := by
              rw [← hn, charsToNat_natChars]
            show pyIntOfSigned (natChars m) = some (Int.ofNat m)
            rw [hn, pyIntOfSigned_eq]
            rw [if_neg hcne, if_pos hdg, hval]
            rfl
    | negSucc m =>
        show pyIntOfSigned ('-' :: natChars (m + 1)) = some (Int.negSucc m)
        have hdg2 : pyIsDigits (natChars (m + 1)) = true := by
          simp only [pyIsDigits, Bool.and_eq_true, List.all_eq_true]
          exact ⟨by simpa using natChars_ne_nil (m + 1),
            fun x hx => by simpa using natChars_digits (m + 1) x hx⟩
        rw [pyIntOfSigned_eq]
        rw [if_pos rfl, if_pos hdg2]
        rw [charsToNat_natChars]
        simp [Int.negSucc_eq]
  rw [hsigned]

/-!  C1 — rendered-scalar and line-shape lemmas. -/

/-- A safe scalar's rendering is non-empty, contains only
structure-free non-space characters, and parses back to the scalar. -/
theorem format_value_safe (v : Val) (h : scalarSafe v = true) :
    format_value v ≠ [] ∧
    (∀ c ∈ format_value v, pyIsSpace c = false ∧ c ≠ ',' ∧ c ≠ '\n' ∧ c ≠ '[' ∧ c ≠ ']' ∧
      c ≠ '\x7b' ∧ c ≠ '\x7d' ∧ c ≠ ':') ∧
    parse_value (format_value v) = v := by
  cases v with
  | null => exact ⟨by decide, by decide, by decide⟩
  | bool b => cases b <;> exact ⟨by decide, by decide, by decide⟩
  | int n =>
      refine ⟨intChars_ne_nil n, ?_, parse_value_intChars n⟩
      intro c hc
      rcases intChars_chars n c hc with hd | hd
      · have := digit_char_props c hd
        exact ⟨this.1, this.2.1, this.2.2.1, this.2.2.2.1, this.2.2.2.2.1, this.2.2.2.2.2.1,
          this.2.2.2.2.2.2.1, this.2.2.2.2.2.2.2.1⟩
      · subst hd
        refine ⟨by decide, by decide, by decide, by decide, by decide, by decide, by decide,
          by decide⟩
  | float lit => simp [scalarSafe] at h
  | str t => simp [scalarSafe] at h
  | arr xs => simp [scalarSafe] at h
  | obj kvs => simp [scalarSafe] at h

/-- Constituents of a safe key character. -/
theorem safeKeyChar_props (c : Char) (h : safeKeyChar c = true) :
    pyIsSpace c = false ∧ c ≠ '.' ∧ c ≠ '[' ∧ c ≠ ']' ∧ c ≠ '\x7b' ∧ c ≠ '\x7d' ∧
      c ≠ ':' ∧ c ≠ ',' := by
  simp only [safeKeyChar, Bool.and_eq_true, Bool.not_eq_true'] at h
  obtain ⟨hsp, hrest⟩ := h
  refine ⟨hsp, ?_, ?_, ?_, ?_, ?_, ?_, ?_⟩ <;> (intro hc; subst hc; simp at hrest)

/-- A safe key contains only structure-free non-space characters. -/
theorem safeKey_chars {k : Chars} (h : safeKey k = true) :
    k ≠ [] ∧ ∀ c ∈ k, pyIsSpace c = false ∧ c ≠ ',' ∧ c ≠ '\n' ∧ c ≠ '[' ∧ c ≠ ']' ∧
      c ≠ '\x7b' ∧ c ≠ '\x7d' ∧ c ≠ ':' ∧ c ≠ '.' := by
  simp only [safeKey, Bool.and_eq_true, List.all_eq_true] at h
  obtain ⟨hne, hall⟩ := h
  refine ⟨by simpa using hne, ?_⟩
  intro c hc
  obtain ⟨hsp, h1, h2, h3, h4, h5, h6, h7⟩ := safeKeyChar_props c (hall c hc)
  refine ⟨hsp, h7, ?_, h2, h3, h4, h5, h6, h1⟩
  intro hc2
  subst hc2
  simp [pyIsSpace] at hsp

/-- Splitting at the first occurrence after a clean prefix. -/
theorem pySplitFirst_append (c : Char) : ∀ (k r : Chars), c ∉ k →
    pySplitFirst c (k ++ c :: r) = some (k, r)
  | [], r, _ => by simp [pySplitFirst]
  | x :: xs, r, h => by
      have hx : x ≠ c := fun hc => h (by rw [hc]; exact List.mem_cons_self _ _)
      simp only [List.cons_append, pySplitFirst]
      rw [if_neg hx]
      simp only [List.append_eq]
      rw [pySplitFirst_append c xs r (fun hm => h (List.mem_cons_of_mem _ hm))]
      rfl

/-- Index of the first occurrence after a clean prefix. -/
theorem pyIndex_append (c : Char) : ∀ (pre : Chars), (∀ x ∈ pre, x ≠ c) →
    ∀ suf, pyIndex c (pre ++ c :: suf) = some pre.length
  | [], _, suf => by simp [pyIndex]
  | x :: xs, h, suf => by
      simp only [List.cons_append, pyIndex]
      rw [if_neg (h x (List.mem_cons_self _ _))]
      simp only [List.append_eq]
      rw [pyIndex_append c xs (fun y hy => h y (List.mem_cons_of_mem _ hy)) suf]
      rfl

/-- `pyHasSub` is substring (infix) containment. -/
theorem pyHasSub_infix_iff (needle : Chars) : ∀ (l : Chars),
    pyHasSub needle l = true ↔ needle <:+: l
  | [] => by
      simp only [pyHasSub, List.isEmpty_iff]
      constructor
      · rintro rfl
        exact List.infix_rfl
      · intro h
        exact List.eq_nil_of_infix_nil h
  | x :: xs => by
      simp only [pyHasSub, Bool.or_eq_true]
      rw [pyHasSub_infix_iff needle xs]
      constructor
      · rintro (h | h)
        · exact (List.isPrefixOf_iff_prefix.mp h).isInfix
        · exact h.trans (List.suffix_cons x xs).isInfix
      · intro h
        rcases List.infix_cons_iff.mp h with h1 | h1
        · exact Or.inl (List.isPrefixOf_iff_prefix.mpr h1)
        · exact Or.inr h1

/-- A character of the comma-join comes from the separator or a part. -/
theorem mem_intercalate_char (x : Char) : ∀ (ls : List Chars) (c : Char),
    c ∈ List.intercalate [x] ls → c = x ∨ ∃ l ∈ ls, c ∈ l
  | [], c, h => by simp [List.intercalate] at h
  | [l], c, h => by
      rw [show List.intercalate [x] [l] = l by simp [List.intercalate]] at h
      exact Or.inr ⟨l, List.mem_singleton_self l, h⟩
  | l :: l2 :: ls, c, h => by
      rw [intercalate_cons_ne [x] l (l2 :: ls) (by simp)] at h
      rcases List.mem_append.mp h with h1 | h1
      · rcases List.mem_append.mp h1 with h2 | h2
        · exact Or.inr ⟨l, List.mem_cons_self _ _, h2⟩
        · exact Or.inl (by simpa using h2)
      · rcases mem_intercalate_char x (l2 :: ls) c h1 with h2 | ⟨w, hw, hcw⟩
        · exact Or.inl h2
        · exact Or.inr ⟨w, List.mem_cons_of_mem _ hw, hcw⟩

/-- Splitting a comma-join of comma-free parts and stripping recovers the
parts when none contains whitespace. -/
theorem pySplit_strip_intercalate (ls : List Chars) (hne : ls ≠ [])
    (hcf : ∀ l ∈ ls, ',' ∉ l) (hsp : ∀ l ∈ ls, ∀ c ∈ l, pyIsSpace c = false) :
    (pySplit ',' (List.intercalate [','] ls)).map pyStrip = ls := by
  unfold pySplit
  rw [List.splitOn_intercalate ls ',' hcf hne]
  refine List.map_congr_left ?_ |>.trans (List.map_id ls)
  intro l hl
  exact pyStrip_all_nonspace (hsp l hl)

/-- Reduction of `parsePathAux` at a cons with positive fuel. -/
theorem parsePathAux_cons (fuel : Nat) (c : Char) (rest : Chars) :
    parsePathAux (fuel + 1) (c :: rest) =
      (if c = '[' then
        match pySplitFirst ']' rest with
        | none => .error "ValueError: substring not found".data
        | some (digits, tail) =>
            match pyIntParse digits with
            | none => .error "ValueError: invalid literal for int".data
            | some i => do
                let ps ← parsePathAux fuel tail
                .ok (.idx i :: ps)
      else if c = '.' then parsePathAux fuel rest
      else
        let k := c :: rest.takeWhile (fun x => x ≠ '.' && x ≠ '[')
        do
          let ps ← parsePathAux fuel (rest.drop (k.length - 1))
          .ok (.key k :: ps)) := rfl

/-- `parsePathAux` at the empty path with positive fuel. -/
theorem parsePathAux_nil (fuel : Nat) : parsePathAux (fuel + 1) [] = .ok [] := rfl

/-- `parsePath` on a safe key is a single key segment. -/
theorem parsePath_safe {k : Chars} (h : safeKey k = true) :
    parsePath k = .ok [.key k] := by
  obtain ⟨hne, hch⟩ := safeKey_chars h
  cases k with
  | nil => exact absurd rfl hne
  | cons c rest =>
      have hc := hch c (List.mem_cons_self _ _)
      have htake : rest.takeWhile (fun x => x ≠ '.' && x ≠ '[') = rest := by
        refine List.takeWhile_eq_self_iff.mpr ?_
        intro x hx
        have hx2 := hch x (List.mem_cons_of_mem _ hx)
        simp [hx2.2.2.2.2.2.2.2.2, hx2.2.2.2.1]
      show parsePathAux ((c :: rest).length + 1) (c :: rest) = .ok [.key (c :: rest)]
      rw [show (c :: rest).length + 1 = (rest.length + 1) + 1 from by simp]
      rw [parsePathAux_cons]
      rw [if_neg hc.2.2.2.1, if_neg hc.2.2.2.2.2.2.2.2]
      rw [htake]
      simp only [List.length_cons, Nat.add_sub_cancel, List.drop_length]
      rw [parsePathAux_nil]
      rfl

/-!  C1 — text assembly and line recovery. -/

/-- Left strip is the identity on text with a non-space head. -/
theorem pyStripL_cons (c : Char) (t : Chars) (hc : pyIsSpace c = false) :
    pyStripL (c :: t) = c :: t := by
  simp [pyStripL, List.dropWhile, hc]

/-- Right strip is the identity on text with a non-space last character. -/
theorem pyStripR_concat (s : Chars) (d : Char) (hd : pyIsSpace d = false) :
    pyStripR (s ++ [d]) = s ++ [d] := by
  unfold pyStripR
  rw [List.reverse_append]
  simp [List.dropWhile, hd]

/-- Strip is the identity on text with non-space first and last characters. -/
theorem pyStrip_cons_concat (c : Char) (mid : Chars) (d : Char)
    (hc : pyIsSpace c = false) (hd : pyIsSpace d = false) :
    pyStrip (c :: (mid ++ [d])) = c :: (mid ++ [d]) := by
  unfold pyStrip
  rw [pyStripL_cons c _ hc]
  rw [show c :: (mid ++ [d]) = (c :: mid) ++ [d] from rfl]
  rw [pyStripR_concat _ d hd]

/-- Two leading spaces strip away. -/
theorem pyStrip_two_spaces (V : Chars) (h : ∀ c ∈ V, pyIsSpace c = false) :
    pyStrip (' ' :: ' ' :: V) = V := by
  unfold pyStrip
  rw [show pyStripL (' ' :: ' ' :: V) = pyStripL V from rfl]
  have hL : pyStripL V = V := by
    cases V with
    | nil => rfl
    | cons c t => exact pyStripL_cons c t (h c (List.mem_cons_self _ _))
  rw [hL]
  rcases List.eq_nil_or_concat V with rfl | ⟨V2, d, rfl⟩
  · rfl
  · rw [List.concat_eq_append]
    exact pyStripR_concat V2 d (h d (by simp))

/-- The comma-join of a non-empty line list extends its first line. -/
theorem intercalate_head_append (x : Char) (l0 : Chars) (rest : List Chars) :
    ∃ suf, List.intercalate [x] (l0 :: rest) = l0 ++ suf := by
  cases rest with
  | nil => exact ⟨[], by simp [List.intercalate]⟩
  | cons l1 tl =>
      refine ⟨[x] ++ List.intercalate [x] (l1 :: tl), ?_⟩
      rw [intercalate_cons_ne [x] l0 (l1 :: tl) (by simp)]
      simp

/-- The comma-join of a line list ends with its last line. -/
theorem intercalate_last_append (x : Char) : ∀ (ls : List Chars) (ll : Chars),
    ∃ pre, List.intercalate [x] (ls ++ [ll]) = pre ++ ll
  | [], ll => ⟨[], by simp [List.intercalate]⟩
  | l0 :: tl, ll => by
      obtain ⟨pre, hpre⟩ := intercalate_last_append x tl ll
      refine ⟨l0 ++ [x] ++ pre, ?_⟩
      rw [show (l0 :: tl) ++ [ll] = l0 :: (tl ++ [ll]) from rfl]
      rw [intercalate_cons_ne [x] l0 (tl ++ [ll]) (by simp)]
      rw [hpre]
      simp

/-- `filterMap` keeps every line whose strip is non-blank and right strip
is the identity. -/
theorem filterMap_keep : ∀ (ls : List Chars),
    (∀ l ∈ ls, pyStrip l ≠ [] ∧ pyStripR l = l) →
    (ls.filterMap (fun ln => if pyStrip ln ≠ [] then some (pyStripR ln) else none)) = ls
  | [], _ => rfl
  | l :: tl, h => by
      have hl := h l (List.mem_cons_self _ _)
      simp only [List.filterMap_cons]
      rw [if_pos (by simpa using hl.1)]
      rw [hl.2, filterMap_keep tl (fun x hx => h x (List.mem_cons_of_mem _ hx))]

/-- Line recovery: decoding splits the encoded text back into exactly the
encoded lines. -/
theorem toon_lines (ls : List Chars) (hne : ls ≠ [])
    (h0 : pyStrip (List.intercalate "\n".data ls) = List.intercalate "\n".data ls)
    (hnl : ∀ l ∈ ls, '\n' ∉ l)
    (hkeep : ∀ l ∈ ls, pyStrip l ≠ [] ∧ pyStripR l = l) :
    ((pySplit '\n' (pyStrip (List.intercalate "\n".data ls))).filterMap
      (fun ln => if pyStrip ln ≠ [] then some (pyStripR ln) else none)) = ls := by
  rw [h0]
  unfold pySplit
  rw [show ("\n".data : Chars) = ['\n'] from rfl]
  rw [List.splitOn_intercalate ls '\n' hnl hne]
  exact filterMap_keep ls hkeep

/-!  C1 — mapping and sequence structure lemmas. -/

/-- `toList` inverts `ofList` for mappings. -/
theorem ObjList.toList_ofList : ∀ (l : List (Chars × Val)), (ObjList.ofList l).toList = l
  | [] => rfl
  | (k, v) :: tl => by
      simp only [ObjList.ofList, ObjList.toList]
      rw [ObjList.toList_ofList tl]

/-- `ofList` inverts `toList` for mappings. -/
theorem ObjList.ofList_toList : ∀ (kvs : ObjList), ObjList.ofList kvs.toList = kvs
  | .nil => rfl
  | .cons k v tl => by
      simp only [ObjList.toList, ObjList.ofList]
      rw [ObjList.ofList_toList tl]

/-- Assignment of an absent key appends the pair. -/
theorem ObjList.set_fresh : ∀ (kvs : ObjList) (k : Chars) (v : Val),
    kvs.find k = none → kvs.set k v = ObjList.ofList (kvs.toList ++ [(k, v)])
  | .nil, k, v, _ => rfl
  | .cons k0 v0 tl, k, v, h => by
      simp only [ObjList.find] at h
      have hk0 : ¬ k0 = k := by
        intro hc
        rw [if_pos hc] at h
        cases h
      rw [if_neg hk0] at h
      simp only [ObjList.set, ObjList.toList, ObjList.ofList]
      rw [if_neg hk0, ObjList.set_fresh tl k v h]
      rfl

/-- `toList` inverts `ofList` for sequences. -/
theorem valList_toList_ofList : ∀ (l : List Val), (ValList.ofList l).toList = l
  | [] => rfl
  | v :: tl => by
      simp only [ValList.ofList, ValList.toList]
      rw [valList_toList_ofList tl]

/-- `ofList` inverts `toList` for sequences. -/
theorem valList_ofList_toList : ∀ (xs : ValList), ValList.ofList xs.toList = xs
  | .nil => rfl
  | .cons v tl => by
      simp only [ValList.toList, ValList.ofList]
      rw [valList_ofList_toList tl]

/-- Length of a sequence built from a list. -/
theorem ValList.length_ofList : ∀ (l : List Val), (ValList.ofList l).length = l.length
  | [] => rfl
  | v :: tl => by
      simp only [ValList.ofList, ValList.length, List.length_cons]
      rw [ValList.length_ofList tl]

/-- `push` appends. -/
theorem ValList.push_ofList : ∀ (l : List Val) (v : Val),
    (ValList.ofList l).push v = ValList.ofList (l ++ [v])
  | [], v => rfl
  | w :: tl, v => by
      simp only [ValList.ofList, ValList.push]
      rw [ValList.push_ofList tl v]
      rfl

/-- `appendList` appends. -/
theorem ValList.appendList_ofList : ∀ (extra : List Val) (l : List Val),
    (ValList.ofList l).appendList extra = ValList.ofList (l ++ extra)
  | [], l => by simp [ValList.appendList]
  | v :: tl, l => by
      simp only [ValList.appendList]
      rw [ValList.push_ofList l v, ValList.appendList_ofList tl (l ++ [v])]
      simp

/-- `setAt` at the junction index replaces the head of the tail block. -/
theorem ValList.setAt_ofList : ∀ (pre : List Val) (x v : Val) (suf : List Val),
    (ValList.ofList (pre ++ x :: suf)).setAt pre.length v = ValList.ofList (pre ++ v :: suf)
  | [], x, v, suf => rfl
  | w :: tl, x, v, suf => by
      simp only [List.cons_append, ValList.ofList, List.length_cons, ValList.setAt,
        List.append_eq]
      rw [ValList.setAt_ofList tl x v suf]

/-!  C1 — tabular row inversion. -/

/-- Zipping header keys with the formatted values of a mapping and
parsing them back rebuilds the mapping (fresh keys, safe scalars). -/
theorem buildRowObj_fresh : ∀ (kvs : ObjList) (acc : ObjList),
    keysFresh kvs.keys = true →
    kvs.allVals scalarSafe = true →
    (∀ k ∈ kvs.keys, acc.find k = none) →
    buildRowObj acc kvs.keys (kvs.keys.map (fun k => format_value ((Val.obj kvs).objGet k)))
      = ObjList.ofList (acc.toList ++ kvs.toList)
  | .nil, acc, _, _, _ => by
      simp only [ObjList.keys, List.map_nil, buildRowObj, ObjList.toList, List.append_nil]
      rw [ObjList.ofList_toList]
  | .cons k v tl, acc, hf, hs, hacc => by
      simp only [ObjList.keys, keysFresh, Bool.and_eq_true, Bool.not_eq_true'] at hf
      obtain ⟨hkmem, hftl⟩ := hf
      have hknotin : k ∉ tl.keys := by simpa using hkmem
      simp only [ObjList.allVals, Bool.and_eq_true] at hs
      obtain ⟨hv, hstl⟩ := hs
      have hhead : (Val.obj (.cons k v tl)).objGet k = v := by
        simp [Val.objGet, ObjList.find]
      have htail : tl.keys.map (fun k2 => format_value ((Val.obj (.cons k v tl)).objGet k2))
          = tl.keys.map (fun k2 => format_value ((Val.obj tl).objGet k2)) := by
        refine List.map_congr_left ?_
        intro k2 hk2
        have hne : ¬ k = k2 := fun hc => hknotin (by rw [hc]; exact hk2)
        simp [Val.objGet, ObjList.find, if_neg hne]
      simp only [ObjList.keys, List.map_cons, hhead, htail, buildRowObj]
      rw [(format_value_safe v hv).2.2]
      rw [buildRowObj_fresh tl (acc.set k v) hftl hstl ?hfresh]
      case hfresh =>
        intro k2 hk2
        have hne : k ≠ k2 := fun hc => hknotin (by rw [hc]; exact hk2)
        rw [ObjList.find_set_ne acc k2 k v hne]
        exact hacc k2 (List.mem_cons_of_mem _ hk2)
      rw [ObjList.set_fresh acc k v (hacc k (List.mem_cons_self _ _))]
      rw [ObjList.toList_ofList]
      simp [ObjList.toList]

/-- Looking up any present key of a mapping whose values are all safe
scalars yields a safe scalar. -/
theorem allVals_objGet : ∀ (kvs : ObjList), kvs.allVals scalarSafe = true →
    ∀ k ∈ kvs.keys, scalarSafe ((Val.obj kvs).objGet k) = true
  | .nil, _, k, hk => by simp [ObjList.keys] at hk
  | .cons k0 v0 tl, hv, k, hk => by
      simp only [ObjList.allVals, Bool.and_eq_true] at hv
      by_cases h0 : k0 = k
      · simp [Val.objGet, ObjList.find, h0, hv.1]
      · simp only [ObjList.keys, List.mem_cons] at hk
        rcases hk with rfl | hk
        · exact absurd rfl h0
        · have := allVals_objGet tl hv.2 k hk
          simpa [Val.objGet, ObjList.find, if_neg h0] using this

/-- A data row of the tabular encoding decodes back to its mapping. -/
theorem tabular_row_decode (ks : List Chars) (kvs : ObjList)
    (hknil : ks ≠ []) (hfresh : keysFresh ks = true)
    (hrow : rowOK ks (.obj kvs) = true) :
    let V := List.intercalate ",".data (ks.map (fun k => format_value ((Val.obj kvs).objGet k)))
    pyStrip ("  ".data ++ V) = V ∧ V ≠ [] ∧ (∀ c ∈ V, pyIsSpace c = false) ∧
      pyStripR ("  ".data ++ V) = "  ".data ++ V ∧
      pyStartsWith "[".data V = false ∧
      (pySplit ',' V).map pyStrip = ks.map (fun k => format_value ((Val.obj kvs).objGet k)) ∧
      buildRowObj .nil ks ((pySplit ',' V).map pyStrip) = kvs := by
  simp only [rowOK, Bool.and_eq_true, decide_eq_true_eq] at hrow
  obtain ⟨hkeys, hvals⟩ := hrow
  have hrender : ∀ r ∈ ks.map (fun k => format_value ((Val.obj kvs).objGet k)),
      r ≠ [] ∧ (∀ c ∈ r, pyIsSpace c = false ∧ c ≠ ',' ∧ c ≠ '[') := by
    intro r hr
    obtain ⟨k, hk, rfl⟩ := List.mem_map.mp hr
    have hscalar : scalarSafe ((Val.obj kvs).objGet k) = true := by
      rw [← hkeys] at hk
      exact allVals_objGet kvs hvals k hk
    obtain ⟨h1, h2, _⟩ := format_value_safe _ hscalar
    exact ⟨h1, fun c hc => ⟨(h2 c hc).1, (h2 c hc).2.1, (h2 c hc).2.2.2.1⟩⟩
  have hmapne : ks.map (fun k => format_value ((Val.obj kvs).objGet k)) ≠ [] := by
    simpa using hknil
  have hVchars : ∀ c ∈ List.intercalate ",".data
      (ks.map (fun k => format_value ((Val.obj kvs).objGet k))), pyIsSpace c = false := by
    intro c hc
    rcases mem_intercalate_char ',' _ c (by simpa using hc) with rfl | ⟨l, hl, hcl⟩
    · decide
    · exact ((hrender l hl).2 c hcl).1
  have hcomfree : ∀ l ∈ ks.map (fun k => format_value ((Val.obj kvs).objGet k)), ',' ∉ l :=
    fun l hl hmem => ((hrender l hl).2 ',' hmem).2.1 rfl
  intro V
  have hVne : V ≠ [] := by
    cases hks : ks.map (fun k => format_value ((Val.obj kvs).objGet k)) with
    | nil => exact absurd hks hmapne
    | cons r0 rtl =>
        obtain ⟨suf, hsuf⟩ := intercalate_head_append ',' r0 rtl
        have hr0 := (hrender r0 (by rw [hks]; exact List.mem_cons_self _ _)).1
        show List.intercalate ",".data (ks.map _) ≠ []
        rw [hks, show (",".data : Chars) = [','] from rfl, hsuf]
        cases r0 with
        | nil => exact absurd rfl hr0
        | cons c t => simp
  have hsplit : (pySplit ',' V).map pyStrip
      = ks.map (fun k => format_value ((Val.obj kvs).objGet k)) := by
    show (pySplit ',' (List.intercalate ",".data _)).map pyStrip = _
    rw [show (",".data : Chars) = [','] from rfl]
    refine pySplit_strip_intercalate _ hmapne hcomfree ?_
    intro l hl c hcl
    exact ((hrender l hl).2 c hcl).1
  refine ⟨?_, hVne, hVchars, ?_, ?_, hsplit, ?_⟩
  · exact pyStrip_two_spaces V hVchars
  · obtain ⟨M, d, hMd⟩ : ∃ M d, V = M ++ [d] := by
      rcases List.eq_nil_or_concat V with h | ⟨M, d, h⟩
      · exact absurd h hVne
      · exact ⟨M, d, by rw [h, List.concat_eq_append]⟩
    rw [hMd, show ("  ".data : Chars) ++ (M ++ [d]) = ("  ".data ++ M) ++ [d] by simp]
    refine pyStripR_concat _ d (hVchars d ?_)
    show d ∈ V
    rw [hMd]
    simp
  · cases hks : ks.map (fun k => format_value ((Val.obj kvs).objGet k)) with
    | nil => exact absurd hks hmapne
    | cons r0 rtl =>
        obtain ⟨suf, hsuf⟩ := intercalate_head_append ',' r0 rtl
        have hr := hrender r0 (by rw [hks]; exact List.mem_cons_self _ _)
        show pyStartsWith "[".data (List.intercalate ",".data (ks.map _)) = false
        rw [hks, show (",".data : Chars) = [','] from rfl, hsuf]
        cases r0 with
        | nil => exact absurd rfl hr.1
        | cons c t =>
            have hcne : '[' ≠ c := Ne.symm (hr.2 c (List.mem_cons_self _ _)).2.2
            simp [pyStartsWith, List.isPrefixOf, hcne]
  · rw [hsplit]
    have hff : keysFresh kvs.keys = true := by rw [hkeys]; exact hfresh
    have := buildRowObj_fresh kvs .nil hff hvals (fun k _ => rfl)
    rw [hkeys] at this
    rw [this]
    simp only [ObjList.toList, List.nil_append]
    rw [ObjList.ofList_toList]

/-- One-step reduction of the tabular row loop. -/
theorem tabularParse_cons (ln : Chars) (rest : List Chars) (ks : List Chars) :
    tabularParse (ln :: rest) ks =
      if pyStrip ln ≠ [] && !pyStartsWith "[".data (pyStrip ln) then
        if ((pySplit ',' (pyStrip ln)).map pyStrip).length = ks.length then
          .cons (.obj (buildRowObj .nil ks ((pySplit ',' (pyStrip ln)).map pyStrip)))
            (tabularParse rest ks)
        else tabularParse rest ks
      else tabularParse rest ks := rfl

/-- The row list of the tabular encoding decodes back to the original
sequence of mappings. -/
theorem tabularParse_inverse : ∀ (items : ValList) (ks : List Chars),
    ks ≠ [] → keysFresh ks = true → items.allP (rowOK ks) = true →
    tabularParse (tabularRows items ks) ks = items
  | .nil, ks, _, _, _ => rfl
  | .cons item tl, ks, hknil, hfresh, hall => by
      simp only [ValList.allP, Bool.and_eq_true] at hall
      obtain ⟨hitem, htl⟩ := hall
      have hih := tabularParse_inverse tl ks hknil hfresh htl
      obtain ⟨kvs, rfl⟩ : ∃ kvs, item = Val.obj kvs := by
        cases item <;> simp [rowOK] at hitem ⊢
      obtain ⟨hstrip, hVne, _, _, hnotbr, hsplit, hbuild⟩ :=
        tabular_row_decode ks kvs hknil hfresh hitem
      show tabularParse (("  ".data ++ List.intercalate ",".data
            (ks.map (fun k => format_value ((Val.obj kvs).objGet k))))
          :: tabularRows tl ks) ks = ValList.cons (Val.obj kvs) tl
      rw [tabularParse_cons, hstrip, hnotbr]
      rw [if_pos (by simp [hVne])]
      rw [hsplit] at hbuild ⊢
      rw [if_pos (by simp)]
      rw [hbuild, hih]

/-!  C1 — tabular header parsing. -/

/-- Parsing facts about the tabular header line
`[digits]\x7b…\x7d:` with a digit count and a `\x7d`-free inner text. -/
theorem toon_header_parse (D I : Chars) (hD : ∀ c ∈ D, c.isDigit = true)
    (hI : ∀ c ∈ I, pyIsSpace c = false ∧ c ≠ '\x7d') :
    pyStrip ('[' :: D ++ [']', '\x7b'] ++ I ++ ['\x7d', ':'])
        = '[' :: D ++ [']', '\x7b'] ++ I ++ ['\x7d', ':'] ∧
    pyStartsWith "[".data ('[' :: D ++ [']', '\x7b'] ++ I ++ ['\x7d', ':']) = true ∧
    pyHasSub "]\x7b".data ('[' :: D ++ [']', '\x7b'] ++ I ++ ['\x7d', ':']) = true ∧
    pyEndsWith ":".data ('[' :: D ++ [']', '\x7b'] ++ I ++ ['\x7d', ':']) = true ∧
    pyIndex ']' ('[' :: D ++ [']', '\x7b'] ++ I ++ ['\x7d', ':']) = some (D.length + 1) ∧
    pySlice 1 (D.length + 1) ('[' :: D ++ [']', '\x7b'] ++ I ++ ['\x7d', ':']) = D ∧
    pyIndex '\x7b' ('[' :: D ++ [']', '\x7b'] ++ I ++ ['\x7d', ':']) = some (D.length + 2) ∧
    pyIndex '\x7d' ('[' :: D ++ [']', '\x7b'] ++ I ++ ['\x7d', ':'])
        = some (D.length + 3 + I.length) ∧
    pySlice (D.length + 2 + 1) (D.length + 3 + I.length)
        ('[' :: D ++ [']', '\x7b'] ++ I ++ ['\x7d', ':']) = I := by
  have hDsp : ∀ c ∈ D, pyIsSpace c = false := fun c hc => (digit_char_props c (hD c hc)).1
  have hDrb : ∀ c ∈ D, c ≠ ']' := fun c hc => (digit_char_props c (hD c hc)).2.2.2.2.1
  have hDlb : ∀ c ∈ D, c ≠ '\x7b' := fun c hc => (digit_char_props c (hD c hc)).2.2.2.2.2.1
  have hDcb : ∀ c ∈ D, c ≠ '\x7d' := fun c hc => (digit_char_props c (hD c hc)).2.2.2.2.2.2.1
  refine ⟨?_, ?_, ?_, ?_, ?_, ?_, ?_, ?_, ?_⟩
  · rw [show ('[' :: D ++ [']', '\x7b'] ++ I ++ ['\x7d', ':'] : Chars)
        = '[' :: ((D ++ [']', '\x7b'] ++ I ++ ['\x7d']) ++ [':']) by simp]
    exact pyStrip_cons_concat '[' _ ':' (by decide) (by decide)
  · rw [show ("[".data : Chars) = ['['] from rfl]
    simp [pyStartsWith, List.isPrefixOf]
  · rw [show ("]\x7b".data : Chars) = [']', '\x7b'] from rfl]
    rw [pyHasSub_infix_iff]
    exact ⟨'[' :: D, I ++ ['\x7d', ':'], by simp⟩
  · rw [show (":".data : Chars) = [':'] from rfl]
    rw [show ('[' :: D ++ [']', '\x7b'] ++ I ++ ['\x7d', ':'] : Chars)
        = ('[' :: D ++ [']', '\x7b'] ++ I ++ ['\x7d']) ++ [':'] by simp]
    simp [pyEndsWith, List.isSuffixOf, List.isPrefixOf, List.reverse_append]
  · rw [show ('[' :: D ++ [']', '\x7b'] ++ I ++ ['\x7d', ':'] : Chars)
        = ('[' :: D) ++ ']' :: ('\x7b' :: (I ++ ['\x7d', ':'])) by simp]
    rw [pyIndex_append ']' ('[' :: D) ?hpre ('\x7b' :: (I ++ ['\x7d', ':']))]
    · simp
    case hpre =>
      intro x hx
      rcases List.mem_cons.mp hx with rfl | hx2
      · decide
      · exact hDrb x hx2
  · unfold pySlice
    rw [show ('[' :: D ++ [']', '\x7b'] ++ I ++ ['\x7d', ':'] : Chars)
        = '[' :: (D ++ (']' :: '\x7b' :: (I ++ ['\x7d', ':']))) by simp]
    rw [List.drop_one, List.tail_cons, Nat.add_sub_cancel]
    exact List.take_left D _
  · rw [show ('[' :: D ++ [']', '\x7b'] ++ I ++ ['\x7d', ':'] : Chars)
        = (('[' :: D) ++ [']']) ++ '\x7b' :: (I ++ ['\x7d', ':']) by simp]
    rw [pyIndex_append '\x7b' (('[' :: D) ++ [']']) ?hpre2 (I ++ ['\x7d', ':'])]
    · simp
    case hpre2 =>
      intro x hx
      rcases List.mem_append.mp hx with hx2 | hx2
      · rcases List.mem_cons.mp hx2 with rfl | hx3
        · decide
        · exact hDlb x hx3
      · rcases List.mem_singleton.mp hx2 with rfl
        decide
  · rw [show ('[' :: D ++ [']', '\x7b'] ++ I ++ ['\x7d', ':'] : Chars)
        = (('[' :: D) ++ [']', '\x7b'] ++ I) ++ '\x7d' :: [':'] by simp]
    rw [pyIndex_append '\x7d' (('[' :: D) ++ [']', '\x7b'] ++ I) ?hpre3 [':']]
    · simp
      omega
    case hpre3 =>
      intro x hx
      rcases List.mem_append.mp hx with hx2 | hx2
      · rcases List.mem_append.mp hx2 with hx3 | hx3
        · rcases List.mem_cons.mp hx3 with rfl | hx4
          · decide
          · exact hDcb x hx4
        · rcases List.mem_cons.mp hx3 with rfl | hx4
          · decide
          · rcases List.mem_singleton.mp hx4 with rfl
            decide
      · exact (hI x hx2).2
  · unfold pySlice
    rw [show ('[' :: D ++ [']', '\x7b'] ++ I ++ ['\x7d', ':'] : Chars)
        = (('[' :: D) ++ [']', '\x7b']) ++ (I ++ ['\x7d', ':']) by simp]
    rw [List.drop_left' (show (('[' :: D) ++ [']', '\x7b']).length = D.length + 2 + 1
        by simp)]
    rw [show D.length + 3 + I.length - (D.length + 2 + 1) = I.length by omega]
    exact List.take_left I _

/-!  C1 — assembling the tabular round trip. -/

/-- A character run without space characters contains no newline. -/
theorem no_newline_of_nonspace (l : Chars) (h : ∀ c ∈ l, pyIsSpace c = false) :
    '\n' ∉ l := fun hmem => absurd (h '\n' hmem) (by decide)

/-- Strip is the identity on a joined line list whose first line starts
with a non-space character and whose every line ends with one. -/
theorem pyStrip_intercalate_id (l0 : Chars) (rest : List Chars) (c : Char) (t : Chars)
    (hct : l0 = c :: t) (hc : pyIsSpace c = false)
    (hlast : ∀ l ∈ l0 :: rest, ∃ M d, l = M ++ [d] ∧ pyIsSpace d = false) :
    pyStrip (List.intercalate "\n".data (l0 :: rest))
      = List.intercalate "\n".data (l0 :: rest) := by
  obtain ⟨suf, hsuf⟩ := intercalate_head_append '\n' l0 rest
  obtain ⟨init, ll, hinit⟩ : ∃ init ll, l0 :: rest = init ++ [ll] := by
    rcases List.eq_nil_or_concat (l0 :: rest) with h | ⟨init, ll, h⟩
    · cases h
    · exact ⟨init, ll, by rw [h, List.concat_eq_append]⟩
  obtain ⟨M, d, hMd, hd⟩ := hlast ll (by rw [hinit]; simp)
  obtain ⟨pre, hpre⟩ := intercalate_last_append '\n' init ll
  have h1 : List.intercalate "\n".data (l0 :: rest) = c :: (t ++ suf) := by
    rw [show ("\n".data : Chars) = ['\n'] from rfl, hsuf, hct]
    simp
  have h2 : List.intercalate "\n".data (l0 :: rest) = (pre ++ M) ++ [d] := by
    rw [show ("\n".data : Chars) = ['\n'] from rfl, hinit, hpre, hMd]
    simp
  unfold pyStrip
  rw [h1, pyStripL_cons c _ hc, ← h1, h2, pyStripR_concat _ d hd]

/-- Every line of the tabular row block: no newline, non-blank after
stripping, right-strip identity, and a non-space final character. -/
theorem tabularRows_line_facts : ∀ (xs : ValList) (ks : List Chars),
    ks ≠ [] → keysFresh ks = true → xs.allP (rowOK ks) = true →
    ∀ l ∈ tabularRows xs ks,
      '\n' ∉ l ∧ pyStrip l ≠ [] ∧ pyStripR l = l ∧
        (∃ M d, l = M ++ [d] ∧ pyIsSpace d = false)
  | .nil, ks, _, _, _, l, hl => by simp [tabularRows] at hl
  | .cons item tl, ks, hknil, hfresh, hall, l, hl => by
      simp only [ValList.allP, Bool.and_eq_true] at hall
      obtain ⟨hitem, htl⟩ := hall
      obtain ⟨kvs, rfl⟩ : ∃ kvs, item = Val.obj kvs := by
        cases item <;> simp [rowOK] at hitem ⊢
      rw [show tabularRows (.cons (Val.obj kvs) tl) ks
          = ("  ".data ++ List.intercalate ",".data
              (ks.map (fun k => format_value ((Val.obj kvs).objGet k))))
            :: tabularRows tl ks from rfl] at hl
      rcases List.mem_cons.mp hl with rfl | hl2
      · obtain ⟨hstrip, hVne, hVchars, hkeepR, _, _, _⟩ :=
          tabular_row_decode ks kvs hknil hfresh hitem
        refine ⟨?_, ?_, hkeepR, ?_⟩
        · intro hmem
          rcases List.mem_append.mp hmem with h2 | h2
          · exact absurd (show ('\n' : Char) ∈ [' ', ' '] from h2) (by decide)
          · exact no_newline_of_nonspace _ hVchars h2
        · rw [hstrip]
          exact hVne
        · obtain ⟨M, d, hMd⟩ : ∃ M d,
              List.intercalate ",".data
                (ks.map (fun k => format_value ((Val.obj kvs).objGet k))) = M ++ [d] := by
            rcases List.eq_nil_or_concat (List.intercalate ",".data
                (ks.map (fun k => format_value ((Val.obj kvs).objGet k)))) with h | ⟨M, d, h⟩
            · exact absurd h hVne
            · exact ⟨M, d, by rw [h, List.concat_eq_append]⟩
          refine ⟨"  ".data ++ M, d, by rw [hMd]; simp, hVchars d ?_⟩
          rw [hMd]
          simp
      · exact tabularRows_line_facts tl ks hknil hfresh htl l hl2

/-- An all-`rowOK` sequence passes the tabular-eligibility test and its
first element carries the header keys. -/
theorem allP_rowOK_shape : ∀ (xs : ValList) (ks : List Chars),
    xs.allP (rowOK ks) = true → xs.allObj = true ∧ xs.allKeySetEq ks = true
  | .nil, ks, _ => ⟨rfl, rfl⟩
  | .cons item tl, ks, hall => by
      simp only [ValList.allP, Bool.and_eq_true] at hall
      obtain ⟨hitem, htl⟩ := hall
      obtain ⟨kvs, rfl⟩ : ∃ kvs, item = Val.obj kvs := by
        cases item <;> simp [rowOK] at hitem ⊢
      simp only [rowOK, Bool.and_eq_true, decide_eq_true_eq] at hitem
      obtain ⟨hkeys, _⟩ := hitem
      obtain ⟨ho, hk⟩ := allP_rowOK_shape tl ks htl
      refine ⟨?_, ?_⟩
      · simp [ValList.allObj, Val.isObj, ho]
      · simp only [ValList.allKeySetEq, Bool.and_eq_true]
        exact ⟨(sameKeySet_iff _ _).mpr (by rw [hkeys]; intro k; exact Iff.rfl), hk⟩

/-- An all-`rowOK` non-empty sequence is an array of objects in the
encoder's sense, with the header keys as its first element's keys. -/
theorem allP_rowOK_aoo (xs : ValList) (ks : List Chars) (hne : xs ≠ .nil)
    (hall : xs.allP (rowOK ks) = true) :
    is_array_of_objects (.arr xs) = true ∧ xs.firstObjKeys = ks := by
  obtain ⟨ho, hk⟩ := allP_rowOK_shape xs ks hall
  cases xs with
  | nil => exact absurd rfl hne
  | cons item tl =>
      simp only [ValList.allP, Bool.and_eq_true] at hall
      obtain ⟨hitem, _⟩ := hall
      obtain ⟨kvs, rfl⟩ : ∃ kvs, item = Val.obj kvs := by
        cases item <;> simp [rowOK] at hitem ⊢
      simp only [rowOK, Bool.and_eq_true, decide_eq_true_eq] at hitem
      have hfk : (ValList.cons (Val.obj kvs) tl).firstObjKeys = ks := hitem.1
      refine ⟨?_, hfk⟩
      show ((ValList.cons (Val.obj kvs) tl).allObj
          && (ValList.cons (Val.obj kvs) tl).allKeySetEq
              (ValList.cons (Val.obj kvs) tl).firstObjKeys) = true
      rw [hfk, ho, hk]
      rfl

/-- Tabular round trip: a non-empty uniform sequence of mappings with
the same fresh safe key list in the same order and safe scalar values
encodes to the tabular dialect and decodes back unchanged. -/
theorem toon_tabular_roundtrip (xs : ValList) (ks : List Chars)
    (hne : xs ≠ .nil) (hknil : ks ≠ []) (hfresh : keysFresh ks = true)
    (hsafe : ∀ k ∈ ks, safeKey k = true)
    (hall : xs.allP (rowOK ks) = true) :
    toon_to_json (json_to_toon (.arr xs)) = .ok (.arr xs) := by
  obtain ⟨haoo, hfk⟩ := allP_rowOK_aoo xs ks hne hall
  have hlen0 : ¬ xs.length = 0 := by
    cases xs with
    | nil => exact absurd rfl hne
    | cons a b => simp [ValList.length]
  have henc : json_to_toon (.arr xs) = List.intercalate "\n".data
      (('[' :: natChars xs.length ++ [']', '\x7b'] ++ List.intercalate ",".data ks
          ++ ['\x7d', ':']) :: tabularRows xs ks) := by
    simp [json_to_toon, Val.isContainer, haoo, hfk, hlen0]
  have hIchars : ∀ c ∈ List.intercalate ",".data ks,
      pyIsSpace c = false ∧ c ≠ '\x7d' := by
    intro c hc
    rcases mem_intercalate_char ',' ks c (by simpa using hc) with rfl | ⟨k, hk, hck⟩
    · exact ⟨by decide, by decide⟩
    · obtain ⟨_, hkc⟩ := safeKey_chars (hsafe k hk)
      exact ⟨(hkc c hck).1, (hkc c hck).2.2.2.2.2.2.1⟩
  obtain ⟨hH1, hH2, hH3, hH4, hH5, hH6, hH7, hH8, hH9⟩ :=
    toon_header_parse (natChars xs.length) (List.intercalate ",".data ks)
      (natChars_digits xs.length) hIchars
  have hHchars : ∀ c ∈ ('[' :: natChars xs.length ++ [']', '\x7b']
      ++ List.intercalate ",".data ks ++ ['\x7d', ':'] : Chars), pyIsSpace c = false := by
    intro c hc
    simp only [List.cons_append, List.mem_cons, List.mem_append] at hc
    rcases hc with rfl | hc
    · decide
    rcases hc with ((hc | hc) | hc) | hc
    · exact (digit_char_props c (natChars_digits xs.length c hc)).1
    · rcases hc with rfl | hc
      · decide
      rcases hc with rfl | hc
      · decide
      · cases hc
    · exact (hIchars c hc).1
    · rcases hc with rfl | hc
      · decide
      rcases hc with rfl | hc
      · decide
      · cases hc
  have hrowfacts := tabularRows_line_facts xs ks hknil hfresh hall
  have hHend : ∃ M d, ('[' :: natChars xs.length ++ [']', '\x7b']
      ++ List.intercalate ",".data ks ++ ['\x7d', ':'] : Chars) = M ++ [d]
        ∧ pyIsSpace d = false :=
    ⟨'[' :: natChars xs.length ++ [']', '\x7b'] ++ List.intercalate ",".data ks ++ ['\x7d'],
      ':', by simp, by decide⟩
  have h0 : pyStrip (List.intercalate "\n".data
      (('[' :: natChars xs.length ++ [']', '\x7b'] ++ List.intercalate ",".data ks
          ++ ['\x7d', ':']) :: tabularRows xs ks))
      = List.intercalate "\n".data
      (('[' :: natChars xs.length ++ [']', '\x7b'] ++ List.intercalate ",".data ks
          ++ ['\x7d', ':']) :: tabularRows xs ks) := by
    refine pyStrip_intercalate_id _ _ '['
      (natChars xs.length ++ [']', '\x7b'] ++ List.intercalate ",".data ks ++ ['\x7d', ':'])
      (by simp) (by decide) ?_
    intro l hl
    rcases List.mem_cons.mp hl with rfl | hl2
    · exact hHend
    · exact (hrowfacts l hl2).2.2.2
  have hnl : ∀ l ∈ (('[' :: natChars xs.length ++ [']', '\x7b']
      ++ List.intercalate ",".data ks ++ ['\x7d', ':']) :: tabularRows xs ks), '\n' ∉ l := by
    intro l hl
    rcases List.mem_cons.mp hl with rfl | hl2
    · exact no_newline_of_nonspace _ hHchars
    · exact (hrowfacts l hl2).1
  have hkeep : ∀ l ∈ (('[' :: natChars xs.length ++ [']', '\x7b']
      ++ List.intercalate ",".data ks ++ ['\x7d', ':']) :: tabularRows xs ks),
      pyStrip l ≠ [] ∧ pyStripR l = l := by
    intro l hl
    rcases List.mem_cons.mp hl with rfl | hl2
    · refine ⟨?_, ?_⟩
      · rw [hH1]
        simp
      · obtain ⟨M, d, hMd, hd⟩ := hHend
        rw [hMd]
        exact pyStripR_concat M d hd
    · exact ⟨(hrowfacts l hl2).2.1, (hrowfacts l hl2).2.2.1⟩
  have hlines := toon_lines (('[' :: natChars xs.length ++ [']', '\x7b']
      ++ List.intercalate ",".data ks ++ ['\x7d', ':']) :: tabularRows xs ks)
    (by simp) h0 hnl hkeep
  have hsplitks : (pySplit ',' (List.intercalate ",".data ks)).map pyStrip = ks := by
    rw [show (",".data : Chars) = [','] from rfl]
    refine pySplit_strip_intercalate ks hknil ?_ ?_
    · intro k hk hmem
      exact ((safeKey_chars (hsafe k hk)).2 ',' hmem).2.1 rfl
    · intro k hk c hc
      exact ((safeKey_chars (hsafe k hk)).2 c hc).1
  have hinv := tabularParse_inverse xs ks hknil hfresh hall
  rw [henc]
  simp only [toon_to_json, hlines, hH1, hH2, hH3, hH4, Bool.and_self, Bool.true_and,
    Bool.and_true, if_true, hH5, hH6, pyIntParse_natChars, hH7, hH8, hH9, hsplitks, hinv]

/-!  C1 — flat mapping round trip. -/

/-- Right strip is the identity on all-non-space text. -/
theorem pyStripR_all_nonspace {s : Chars} (h : ∀ c ∈ s, pyIsSpace c = false) :
    pyStripR s = s := by
  unfold pyStripR
  cases hrev : s.reverse with
  | nil => simp [List.dropWhile, ← hrev]
  | cons c t =>
      have hc : c ∈ s := by
        rw [← List.mem_reverse, hrev]
        exact List.mem_cons_self _ _
      simp only [List.dropWhile]
      rw [h c hc]
      rw [← hrev, List.reverse_reverse]

/-- `keysFresh` is exactly key-list distinctness. -/
theorem keysFresh_iff_nodup : ∀ (l : List Chars), keysFresh l = true ↔ l.Nodup
  | [] => by simp [keysFresh]
  | k :: ks => by
      simp only [keysFresh, Bool.and_eq_true, Bool.not_eq_true', List.nodup_cons]
      rw [keysFresh_iff_nodup ks]
      simp

/-- A lookup misses exactly the absent keys. -/
theorem ObjList.find_eq_none : ∀ (kvs : ObjList) (k : Chars),
    kvs.find k = none ↔ k ∉ kvs.keys
  | .nil, k => by simp [ObjList.find, ObjList.keys]
  | .cons k0 v0 tl, k => by
      simp only [ObjList.find, ObjList.keys, List.mem_cons]
      by_cases h0 : k0 = k
      · simp [h0]
      · rw [if_neg h0]
        rw [ObjList.find_eq_none tl k]
        constructor
        · intro h hm
          rcases hm with rfl | hm
          · exact h0 rfl
          · exact h hm
        · intro h hm
          exact h (Or.inr hm)

/-- Keys of a structure built from a pair list. -/
theorem ObjList.keys_ofList : ∀ (l : List (Chars × Val)),
    (ObjList.ofList l).keys = l.map Prod.fst
  | [] => rfl
  | (k, v) :: tl => by
      simp only [ObjList.ofList, ObjList.keys, List.map_cons]
      rw [ObjList.keys_ofList tl]

/-- Keys as the first components of the entry list. -/
theorem ObjList.keys_eq_toList_map : ∀ (kvs : ObjList),
    kvs.keys = kvs.toList.map Prod.fst
  | .nil => rfl
  | .cons k v tl => by
      simp only [ObjList.keys, ObjList.toList, List.map_cons]
      rw [ObjList.keys_eq_toList_map tl]

/-- `allVals` over the entry list. -/
theorem ObjList.allVals_iff : ∀ (kvs : ObjList) (p : Val → Bool),
    kvs.allVals p = true ↔ ∀ e ∈ kvs.toList, p e.2 = true
  | .nil, p => by simp [ObjList.allVals, ObjList.toList]
  | .cons k v tl, p => by
      simp only [ObjList.allVals, Bool.and_eq_true, ObjList.toList, List.mem_cons]
      rw [ObjList.allVals_iff tl p]
      constructor
      · rintro ⟨h1, h2⟩ e (rfl | he)
        · exact h1
        · exact h2 e he
      · intro h
        exact ⟨h (k, v) (Or.inl rfl), fun e he => h e (Or.inr he)⟩

/-- Safe scalars are not containers. -/
theorem scalarSafe_not_container (v : Val) (h : scalarSafe v = true) :
    v.isContainer = false := by
  cases v <;> first | rfl | (simp [scalarSafe] at h)

/-- Flattening a mapping of scalars yields its own entries. -/
theorem flattenObj_flat : ∀ (kvs : ObjList), kvs.allVals scalarSafe = true →
    flattenObj kvs [] = kvs.toList
  | .nil, _ => rfl
  | .cons k v tl, h => by
      simp only [ObjList.allVals, Bool.and_eq_true] at h
      obtain ⟨hv, htl⟩ := h
      simp only [flattenObj]
      rw [scalarSafe_not_container v hv]
      rw [flattenObj_flat tl htl]
      simp [ObjList.toList]

/-- Key safety rules out a leading `[`, even with a suffix attached. -/
theorem safeKey_append_not_bracket {k : Chars} (X : Chars) (h : safeKey k = true) :
    pyStartsWith "[".data (k ++ X) = false := by
  obtain ⟨hne, hch⟩ := safeKey_chars h
  cases k with
  | nil => exact absurd rfl hne
  | cons c t =>
      have hcb : ('[' : Char) ≠ c := Ne.symm (hch c (List.mem_cons_self _ _)).2.2.2.1
      rw [show ("[".data : Chars) = ['['] from rfl]
      simp [pyStartsWith, List.isPrefixOf, hcb]

/-- Key safety rules out a leading `[`. -/
theorem safeKey_not_bracket {k : Chars} (h : safeKey k = true) :
    pyStartsWith "[".data k = false := by
  have := safeKey_append_not_bracket [] h
  simpa using this

/-- The path-notation decoder run over flat `key:value` lines rebuilds
the mapping by appending each fresh entry. -/
theorem pathLoop_flat_obj : ∀ (entries : List (Chars × Val)) (acc : ObjList),
    (∀ e ∈ entries, safeKey e.1 = true ∧ scalarSafe e.2 = true) →
    (acc.keys ++ entries.map Prod.fst).Nodup →
    pathLoop (entries.map (fun e => e.1 ++ ':' :: format_value e.2)) (.obj acc) false
      = .ok (.obj (ObjList.ofList (acc.toList ++ entries)))
  | [], acc, _, _ => by
      simp only [List.map_nil, pathLoop, List.append_nil]
      rw [ObjList.ofList_toList]
  | (k, v) :: tl, acc, hok, hnd => by
      obtain ⟨hsk, hsv⟩ := hok (k, v) (List.mem_cons_self _ _)
      obtain ⟨hfne, hfch, hpv⟩ := format_value_safe v hsv
      have hcolon : (':' : Char) ∈ k ++ ':' :: format_value v := by simp
      have hknc : (':' : Char) ∉ k :=
        fun hm => ((safeKey_chars hsk).2 ':' hm).2.2.2.2.2.2.2.1 rfl
      have hsf : pySplitFirst ':' (k ++ ':' :: format_value v) = some (k, format_value v) :=
        pySplitFirst_append ':' k (format_value v) hknc
      have hsw : pyStartsWith "[".data k = false := safeKey_not_bracket hsk
      simp only [List.map_cons] at hnd
      have hfind : acc.find k = none := by
        rw [ObjList.find_eq_none]
        intro hm
        exact (List.nodup_append.mp hnd).2.2 hm (List.mem_cons_self _ _)
      have hnd2 : ((ObjList.ofList (acc.toList ++ [(k, v)])).keys ++ tl.map Prod.fst).Nodup := by
        rw [ObjList.keys_ofList]
        simp only [List.map_append, List.map_cons, List.map_nil]
        rw [← ObjList.keys_eq_toList_map]
        rw [List.append_assoc]
        simpa using hnd
      simp only [List.map_cons, pathLoop, pyHasChar_eq_true hcolon, Bool.not_true,
        Bool.false_eq_true, if_false, hsf, hpv, hsw, Bool.or_self, Bool.false_and,
        Bool.and_false, Bool.false_or, Val.isArr, set_nested_value,
        parsePath_safe hsk, exceptBindOk, setParts]
      rw [ObjList.set_fresh acc k v hfind]
      rw [pathLoop_flat_obj tl (ObjList.ofList (acc.toList ++ [(k, v)]))
        (fun e he => hok e (List.mem_cons_of_mem _ he)) hnd2]
      rw [ObjList.toList_ofList]
      rw [List.append_assoc]
      rfl

/-- Flat mapping round trip: a mapping with fresh safe keys and safe
scalar values encodes to `key:value` lines and decodes back unchanged. -/
theorem toon_flat_obj_roundtrip (kvs : ObjList)
    (hsafe : ∀ e ∈ kvs.toList, safeKey e.1 = true ∧ scalarSafe e.2 = true)
    (hfresh : keysFresh kvs.keys = true) :
    toon_to_json (json_to_toon (.obj kvs)) = .ok (.obj kvs) := by
  cases kvs with
  | nil => decide
  | cons k0 v0 tl0 =>
  have hsafe' : ∀ e ∈ (k0, v0) :: tl0.toList, safeKey e.1 = true ∧ scalarSafe e.2 = true :=
    hsafe
  obtain ⟨hsk0, hsv0⟩ := hsafe' (k0, v0) (List.mem_cons_self _ _)
  obtain ⟨hfne0, hfch0, _⟩ := format_value_safe v0 hsv0
  have hvals : (ObjList.cons k0 v0 tl0).allVals scalarSafe = true :=
    (ObjList.allVals_iff _ _).mpr (fun e he => (hsafe e he).2)
  have hmap : (ObjList.cons k0 v0 tl0).toList.map
        (fun pv => if pv.1 ≠ [] then pv.1 ++ ':' :: format_value pv.2 else format_value pv.2)
      = (ObjList.cons k0 v0 tl0).toList.map (fun e => e.1 ++ ':' :: format_value e.2) := by
    refine List.map_congr_left ?_
    intro e he
    rw [if_pos (safeKey_chars (hsafe e he).1).1]
  have henc : json_to_toon (.obj (ObjList.cons k0 v0 tl0)) = List.intercalate "\n".data
      ((k0 ++ ':' :: format_value v0)
        :: tl0.toList.map (fun e => e.1 ++ ':' :: format_value e.2)) := by
    simp only [json_to_toon, Val.isContainer, Bool.not_true, Bool.false_eq_true, if_false,
      is_array_of_objects, flatten_to_paths]
    rw [flattenObj_flat _ hvals, hmap]
    rfl
  have hlinefacts : ∀ l ∈ (k0 ++ ':' :: format_value v0)
        :: tl0.toList.map (fun e => e.1 ++ ':' :: format_value e.2),
      (∀ c ∈ l, pyIsSpace c = false) ∧ ∃ M d, l = M ++ [d] ∧ pyIsSpace d = false := by
    intro l hl
    have hl2 : ∃ e ∈ (k0, v0) :: tl0.toList, l = e.1 ++ ':' :: format_value e.2 := by
      rcases List.mem_cons.mp hl with rfl | hl2
      · exact ⟨(k0, v0), List.mem_cons_self _ _, rfl⟩
      · obtain ⟨e, he, hfe⟩ := List.mem_map.mp hl2
        exact ⟨e, List.mem_cons_of_mem _ he, hfe.symm⟩
    obtain ⟨e, he, rfl⟩ := hl2
    obtain ⟨hsk, hsv⟩ := hsafe' e he
    obtain ⟨hfne, hfch, _⟩ := format_value_safe e.2 hsv
    have hchars : ∀ c ∈ e.1 ++ ':' :: format_value e.2, pyIsSpace c = false := by
      intro c hc
      rcases List.mem_append.mp hc with hc | hc
      · exact ((safeKey_chars hsk).2 c hc).1
      · rcases List.mem_cons.mp hc with rfl | hc
        · decide
        · exact (hfch c hc).1
    refine ⟨hchars, ?_⟩
    obtain ⟨M, d, hMd⟩ : ∃ M d, format_value e.2 = M ++ [d] := by
      rcases List.eq_nil_or_concat (format_value e.2) with h | ⟨M, d, h⟩
      · exact absurd h hfne
      · exact ⟨M, d, by rw [h, List.concat_eq_append]⟩
    refine ⟨e.1 ++ ':' :: M, d, by rw [hMd]; simp, ?_⟩
    refine hchars d ?_
    rw [hMd]
    simp
  obtain ⟨c0, t0, hk0eq⟩ := List.exists_cons_of_ne_nil (safeKey_chars hsk0).1
  have hk0eq' : k0 = c0 :: t0 := hk0eq
  have hc0sp : pyIsSpace c0 = false :=
    ((safeKey_chars hsk0).2 c0 (by rw [hk0eq']; exact List.mem_cons_self _ _)).1
  have h0 : pyStrip (List.intercalate "\n".data ((k0 ++ ':' :: format_value v0)
        :: tl0.toList.map (fun e => e.1 ++ ':' :: format_value e.2)))
      = List.intercalate "\n".data ((k0 ++ ':' :: format_value v0)
        :: tl0.toList.map (fun e => e.1 ++ ':' :: format_value e.2)) := by
    refine pyStrip_intercalate_id _ _ c0 (t0 ++ ':' :: format_value v0)
      (by rw [hk0eq']; rfl) hc0sp ?_
    intro l hl
    exact (hlinefacts l hl).2
  have hnl : ∀ l ∈ (k0 ++ ':' :: format_value v0)
      :: tl0.toList.map (fun e => e.1 ++ ':' :: format_value e.2), '\n' ∉ l :=
    fun l hl => no_newline_of_nonspace l (hlinefacts l hl).1
  have hkeep : ∀ l ∈ (k0 ++ ':' :: format_value v0)
      :: tl0.toList.map (fun e => e.1 ++ ':' :: format_value e.2),
      pyStrip l ≠ [] ∧ pyStripR l = l := by
    intro l hl
    obtain ⟨hsp, M, d, hMd, _⟩ := hlinefacts l hl
    refine ⟨?_, pyStripR_all_nonspace hsp⟩
    rw [pyStrip_all_nonspace hsp, hMd]
    simp
  have hlines := toon_lines ((k0 ++ ':' :: format_value v0)
      :: tl0.toList.map (fun e => e.1 ++ ':' :: format_value e.2)) (by simp) h0 hnl hkeep
  have hstrip0 : pyStrip (k0 ++ ':' :: format_value v0) = k0 ++ ':' :: format_value v0 :=
    pyStrip_all_nonspace (hlinefacts _ (List.mem_cons_self _ _)).1
  have hsb : pyStartsWith "[".data (k0 ++ ':' :: format_value v0) = false :=
    safeKey_append_not_bracket _ hsk0
  have hhc : pyHasChar ':' (k0 ++ ':' :: format_value v0) = true :=
    pyHasChar_eq_true (by simp)
  have hnd : (ObjList.nil.keys ++ ((k0, v0) :: tl0.toList).map Prod.fst).Nodup := by
    show (([] : List Chars) ++ ((k0, v0) :: tl0.toList).map Prod.fst).Nodup
    rw [List.nil_append,
      ← show (ObjList.cons k0 v0 tl0).toList = (k0, v0) :: tl0.toList from rfl,
      ← ObjList.keys_eq_toList_map]
    exact (keysFresh_iff_nodup _).mp hfresh
  have hpl := pathLoop_flat_obj ((k0, v0) :: tl0.toList) .nil hsafe' hnd
  simp only [List.map_cons] at hpl
  rw [henc]
  simp only [toon_to_json, hlines, hstrip0, hsb, Bool.false_and, Bool.not_true,
    Bool.and_false, Bool.false_eq_true, if_false, hhc, hpl]
  rw [show ObjList.nil.toList ++ (k0, v0) :: tl0.toList
      = (ObjList.cons k0 v0 tl0).toList from rfl]
  rw [ObjList.ofList_toList]

/-!  C1 — flat root sequence round trip. -/

/-- The path-notation decoder run over `[index]:value` lines rebuilds
the sequence by appending each value at its own index. -/
theorem pathLoop_flat_arr : ∀ (vs : ValList) (pre : List Val),
    vs.allP scalarSafe = true →
    pathLoop ((flattenArr vs pre.length []).map (fun pv => pv.1 ++ ':' :: format_value pv.2))
      (.arr (ValList.ofList pre)) true
      = .ok (.arr (ValList.ofList (pre ++ vs.toList)))
  | .nil, pre, _ => by
      simp only [flattenArr, List.map_nil, pathLoop, ValList.toList, List.append_nil]
  | .cons v tl, pre, hall => by
      simp only [ValList.allP, Bool.and_eq_true] at hall
      obtain ⟨hv, htl⟩ := hall
      obtain ⟨hfne, hfch, hpv⟩ := format_value_safe v hv
      have hdig := natChars_digits pre.length
      have hfa : flattenArr (.cons v tl) pre.length []
          = ('[' :: natChars pre.length ++ [']'], v) :: flattenArr tl (pre.length + 1) [] := by
        simp only [flattenArr]
        rw [scalarSafe_not_container v hv]
        simp
      have hcolon : (':' : Char)
          ∈ ('[' :: natChars pre.length ++ [']']) ++ ':' :: format_value v := by simp
      have hpnc : (':' : Char) ∉ ('[' :: natChars pre.length ++ [']'] : Chars) := by
        intro hm
        rcases List.mem_append.mp hm with hm2 | hm2
        · rcases List.mem_cons.mp hm2 with he | hm3
          · exact absurd he (by decide)
          · exact absurd (hdig ':' hm3) (by decide)
        · exact absurd (List.mem_singleton.mp hm2) (by decide)
      have hsf : pySplitFirst ':' (('[' :: natChars pre.length ++ [']']) ++ ':' :: format_value v)
          = some ('[' :: natChars pre.length ++ [']'], format_value v) :=
        pySplitFirst_append ':' _ _ hpnc
      have hsw : pyStartsWith "[".data ('[' :: natChars pre.length ++ [']'] : Chars) = true := by
        rw [show ("[".data : Chars) = ['['] from rfl]
        simp [pyStartsWith, List.isPrefixOf]
      have hrb : (']' : Char) ∉ natChars pre.length :=
        fun hm => absurd (hdig ']' hm) (by decide)
      have hsfr : pySplitFirst ']' (natChars pre.length ++ ']' :: [])
          = some (natChars pre.length, []) := pySplitFirst_append ']' _ [] hrb
      have hip : pyIntParse (natChars pre.length) = some (Int.ofNat pre.length) :=
        pyIntParse_natChars pre.length
      have hrec := pathLoop_flat_arr tl (pre ++ [v]) htl
      simp only [List.length_append, List.length_singleton] at hrec
      rw [hfa]
      have hbr : ("[".data : Chars) = ['['] := rfl
      have hhc2 : pyHasChar ':' ('[' :: (natChars pre.length ++ ']' :: ':' :: format_value v))
          = true := pyHasChar_eq_true (by simp)
      have hsf2 : pySplitFirst ':' ('[' :: (natChars pre.length ++ ']' :: ':' :: format_value v))
          = some ('[' :: (natChars pre.length ++ [']']), format_value v) := by
        have h2 := pySplitFirst_append ':' ('[' :: natChars pre.length ++ [']'])
          (format_value v) hpnc
        simpa using h2
      have hsw2 : pyStartsWith ['['] ('[' :: (natChars pre.length ++ [']'])) = true := by
        simp [pyStartsWith, List.isPrefixOf]
      simp only [List.map_cons, List.cons_append, List.append_assoc, List.singleton_append,
        List.nil_append, pathLoop, hhc2, Bool.not_true, Bool.false_eq_true, Bool.true_eq_false, if_false,
        hsf2, hpv, hbr, hsw2, Bool.true_or, Val.isArr, Bool.and_false, Bool.true_and,
        eq_self_iff_true, if_true, List.drop_one, List.tail_cons, hsfr, hip, ValList.padTo,
        ValList.length_ofList, Nat.add_sub_cancel_left, List.replicate_one,
        ValList.appendList_ofList, scalarSafe_not_container v hv, Bool.or_false, ne_eq,
        not_true_eq_false, Bool.false_or, or_self, false_or, or_false, not_true,
        ValList.setPy, List.length_append, List.length_cons, List.length_nil,
        Nat.lt_add_one, ValList.setAt_ofList]
      rw [hrec]
      simp [ValList.toList, List.append_assoc]

/-- Entries of a flat-sequence flattening: bracketed numeric paths and
safe scalar values. -/
theorem flattenArr_flat_mem : ∀ (vs : ValList) (i : Nat), vs.allP scalarSafe = true →
    ∀ pv ∈ flattenArr vs i [],
      (∃ j, pv.1 = '[' :: natChars j ++ [']']) ∧ scalarSafe pv.2 = true
  | .nil, i, _, pv, hm => by simp [flattenArr] at hm
  | .cons v tl, i, hall, pv, hm => by
      simp only [ValList.allP, Bool.and_eq_true] at hall
      obtain ⟨hv, htl⟩ := hall
      have hfa : flattenArr (.cons v tl) i []
          = ('[' :: natChars i ++ [']'], v) :: flattenArr tl (i + 1) [] := by
        simp only [flattenArr]
        rw [scalarSafe_not_container v hv]
        simp
      rw [hfa] at hm
      rcases List.mem_cons.mp hm with rfl | hm2
      · exact ⟨⟨i, rfl⟩, hv⟩
      · exact flattenArr_flat_mem tl (i + 1) htl pv hm2

/-- First call of the decoder on flat `[index]:value` lines: the root
flips to a sequence and every value lands at its own index. -/
theorem pathLoop_arr_start (vs : ValList) (hall : vs.allP scalarSafe = true)
    (hne : vs ≠ .nil) :
    pathLoop ((flattenArr vs 0 []).map (fun pv => pv.1 ++ ':' :: format_value pv.2))
      (.obj .nil) false = .ok (.arr (ValList.ofList vs.toList)) := by
  cases vs with
  | nil => exact absurd rfl hne
  | cons v tl =>
  simp only [ValList.allP, Bool.and_eq_true] at hall
  obtain ⟨hv, htl⟩ := hall
  obtain ⟨hfne, hfch, hpv⟩ := format_value_safe v hv
  have hdig := natChars_digits 0
  have hfa : flattenArr (.cons v tl) 0 []
      = ('[' :: natChars 0 ++ [']'], v) :: flattenArr tl 1 [] := by
    simp only [flattenArr]
    rw [scalarSafe_not_container v hv]
    simp
  have hpnc : (':' : Char) ∉ ('[' :: natChars 0 ++ [']'] : Chars) := by
    intro hm
    rcases List.mem_append.mp hm with hm2 | hm2
    · rcases List.mem_cons.mp hm2 with he | hm3
      · exact absurd he (by decide)
      · exact absurd (hdig ':' hm3) (by decide)
    · exact absurd (List.mem_singleton.mp hm2) (by decide)
  have hrb : (']' : Char) ∉ natChars 0 := fun hm => absurd (hdig ']' hm) (by decide)
  have hsfr : pySplitFirst ']' (natChars 0 ++ ']' :: []) = some (natChars 0, []) :=
    pySplitFirst_append ']' _ [] hrb
  have hip : pyIntParse (natChars 0) = some (Int.ofNat 0) := pyIntParse_natChars 0
  have hbr : ("[".data : Chars) = ['['] := rfl
  have hhc2 : pyHasChar ':' ('[' :: (natChars 0 ++ ']' :: ':' :: format_value v))
      = true := pyHasChar_eq_true (by simp)
  have hsf2 : pySplitFirst ':' ('[' :: (natChars 0 ++ ']' :: ':' :: format_value v))
      = some ('[' :: (natChars 0 ++ [']']), format_value v) := by
    have h2 := pySplitFirst_append ':' ('[' :: natChars 0 ++ [']']) (format_value v) hpnc
    simpa using h2
  have hsw2 : pyStartsWith ['['] ('[' :: (natChars 0 ++ [']'])) = true := by
    simp [pyStartsWith, List.isPrefixOf]
  have hrec := pathLoop_flat_arr tl [v] htl
  simp only [List.length_singleton, ValList.ofList] at hrec
  rw [hfa]
  simp only [List.map_cons, List.cons_append, List.append_assoc, List.singleton_append,
    List.nil_append, pathLoop, hhc2, Bool.not_true, Bool.false_eq_true, Bool.true_eq_false,
    if_false, hsf2, hpv, hbr, hsw2, Bool.false_or, Val.isObj, Val.isArr, Bool.not_false,
    Bool.and_true, Bool.true_and, Bool.and_self, eq_self_iff_true, if_true, List.drop_one,
    List.tail_cons, hsfr, hip, ValList.padTo, ValList.length, Nat.sub_zero, Nat.zero_add,
    List.replicate_one, ValList.appendList, ValList.push,
    scalarSafe_not_container v hv, Bool.or_false, ne_eq, not_true_eq_false, or_self,
    false_or, or_false, not_true, ValList.setPy, Nat.zero_lt_one, Nat.lt_add_one,
    ValList.setAt]
  rw [hrec]
  simp [ValList.toList, List.append_assoc, ValList.ofList]

/-- Flat root-sequence round trip: a non-empty sequence of safe scalars
encodes to `[index]:value` lines and decodes back unchanged. -/
theorem toon_flat_arr_roundtrip (xs : ValList) (hne : xs ≠ .nil)
    (hall : xs.allP scalarSafe = true) :
    toon_to_json (json_to_toon (.arr xs)) = .ok (.arr xs) := by
  cases xs with
  | nil => exact absurd rfl hne
  | cons v0 tl =>
  have hall' := hall
  simp only [ValList.allP, Bool.and_eq_true] at hall'
  obtain ⟨hv0, htl⟩ := hall'
  obtain ⟨hfne0, hfch0, hpv0⟩ := format_value_safe v0 hv0
  have hobj0 : v0.isObj = false := by
    cases v0 <;> first | rfl | (simp [scalarSafe] at hv0)
  have haoof : is_array_of_objects (.arr (.cons v0 tl)) = false := by
    show ((ValList.cons v0 tl).allObj
        && (ValList.cons v0 tl).allKeySetEq (ValList.cons v0 tl).firstObjKeys) = false
    simp [ValList.allObj, hobj0]
  have hfa : flattenArr (.cons v0 tl) 0 []
      = ('[' :: natChars 0 ++ [']'], v0) :: flattenArr tl 1 [] := by
    simp only [flattenArr]
    rw [scalarSafe_not_container v0 hv0]
    simp
  have hmemf := flattenArr_flat_mem (.cons v0 tl) 0 hall
  have hmap : (flattenArr (.cons v0 tl) 0 []).map
        (fun pv => if pv.1 ≠ [] then pv.1 ++ ':' :: format_value pv.2 else format_value pv.2)
      = (flattenArr (.cons v0 tl) 0 []).map (fun pv => pv.1 ++ ':' :: format_value pv.2) := by
    refine List.map_congr_left ?_
    intro pv hpv
    obtain ⟨⟨j, hj⟩, _⟩ := hmemf pv hpv
    rw [if_pos (by rw [hj]; simp)]
  have hLS : (flattenArr (.cons v0 tl) 0 []).map (fun pv => pv.1 ++ ':' :: format_value pv.2)
      = ('[' :: (natChars 0 ++ ']' :: ':' :: format_value v0))
        :: (flattenArr tl 1 []).map (fun pv => pv.1 ++ ':' :: format_value pv.2) := by
    rw [hfa]
    simp
  have henc : json_to_toon (.arr (.cons v0 tl)) = List.intercalate "\n".data
      (('[' :: (natChars 0 ++ ']' :: ':' :: format_value v0))
        :: (flattenArr tl 1 []).map (fun pv => pv.1 ++ ':' :: format_value pv.2)) := by
    simp only [json_to_toon, Val.isContainer, Bool.not_true, Bool.false_eq_true, if_false,
      haoof, flatten_to_paths]
    rw [hmap, hLS]
  have hlfacts : ∀ l ∈ ('[' :: (natChars 0 ++ ']' :: ':' :: format_value v0))
        :: (flattenArr tl 1 []).map (fun pv => pv.1 ++ ':' :: format_value pv.2),
      (∀ c ∈ l, pyIsSpace c = false) ∧ (∃ M d, l = M ++ [d] ∧ pyIsSpace d = false)
        ∧ '\x7b' ∉ l := by
    intro l hl
    rw [← hLS] at hl
    obtain ⟨pv, hpvm, rfl⟩ := List.mem_map.mp hl
    obtain ⟨⟨j, hj⟩, hsv⟩ := hmemf pv hpvm
    obtain ⟨hfne, hfch, _⟩ := format_value_safe pv.2 hsv
    have hdig := natChars_digits j
    have hchars : ∀ c ∈ pv.1 ++ ':' :: format_value pv.2,
        pyIsSpace c = false ∧ c ≠ '\x7b' := by
      intro c hc
      rcases List.mem_append.mp hc with hc | hc
      · rw [hj] at hc
        rcases List.mem_append.mp hc with hc2 | hc2
        · rcases List.mem_cons.mp hc2 with rfl | hc3
          · exact ⟨by decide, by decide⟩
          · exact ⟨(digit_char_props c (hdig c hc3)).1,
              (digit_char_props c (hdig c hc3)).2.2.2.2.2.1⟩
        · rcases List.mem_singleton.mp hc2 with rfl
          exact ⟨by decide, by decide⟩
      · rcases List.mem_cons.mp hc with rfl | hc2
        · exact ⟨by decide, by decide⟩
        · exact ⟨(hfch c hc2).1, (hfch c hc2).2.2.2.2.2.1⟩
    refine ⟨fun c hc => (hchars c hc).1, ?_, fun hm => (hchars '\x7b' hm).2 rfl⟩
    obtain ⟨M, d, hMd⟩ : ∃ M d, format_value pv.2 = M ++ [d] := by
      rcases List.eq_nil_or_concat (format_value pv.2) with h | ⟨M, d, h⟩
      · exact absurd h hfne
      · exact ⟨M, d, by rw [h, List.concat_eq_append]⟩
    refine ⟨pv.1 ++ ':' :: M, d, by rw [hMd]; simp, ?_⟩
    refine (hchars d ?_).1
    rw [hMd]
    simp
  have h0 : pyStrip (List.intercalate "\n".data
        (('[' :: (natChars 0 ++ ']' :: ':' :: format_value v0))
          :: (flattenArr tl 1 []).map (fun pv => pv.1 ++ ':' :: format_value pv.2)))
      = List.intercalate "\n".data
        (('[' :: (natChars 0 ++ ']' :: ':' :: format_value v0))
          :: (flattenArr tl 1 []).map (fun pv => pv.1 ++ ':' :: format_value pv.2)) := by
    refine pyStrip_intercalate_id _ _ '[' (natChars 0 ++ ']' :: ':' :: format_value v0)
      rfl (by decide) ?_
    intro l hl
    exact (hlfacts l hl).2.1
  have hnl : ∀ l ∈ ('[' :: (natChars 0 ++ ']' :: ':' :: format_value v0))
      :: (flattenArr tl 1 []).map (fun pv => pv.1 ++ ':' :: format_value pv.2), '\n' ∉ l :=
    fun l hl => no_newline_of_nonspace l (hlfacts l hl).1
  have hkeep : ∀ l ∈ ('[' :: (natChars 0 ++ ']' :: ':' :: format_value v0))
      :: (flattenArr tl 1 []).map (fun pv => pv.1 ++ ':' :: format_value pv.2),
      pyStrip l ≠ [] ∧ pyStripR l = l := by
    intro l hl
    obtain ⟨hsp, ⟨M, d, hMd, _⟩, _⟩ := hlfacts l hl
    refine ⟨?_, pyStripR_all_nonspace hsp⟩
    rw [pyStrip_all_nonspace hsp, hMd]
    simp
  have hlines := toon_lines (('[' :: (natChars 0 ++ ']' :: ':' :: format_value v0))
      :: (flattenArr tl 1 []).map (fun pv => pv.1 ++ ':' :: format_value pv.2))
    (by simp) h0 hnl hkeep
  have hstrip0 : pyStrip ('[' :: (natChars 0 ++ ']' :: ':' :: format_value v0))
      = '[' :: (natChars 0 ++ ']' :: ':' :: format_value v0) :=
    pyStrip_all_nonspace (hlfacts _ (List.mem_cons_self _ _)).1
  have hps0 : pyStartsWith "[".data ('[' :: (natChars 0 ++ ']' :: ':' :: format_value v0))
      = true := by
    rw [show ("[".data : Chars) = ['['] from rfl]
    simp [pyStartsWith, List.isPrefixOf]
  have hhsub0 : pyHasSub "]\x7b".data ('[' :: (natChars 0 ++ ']' :: ':' :: format_value v0))
      = false := by
    cases h : pyHasSub "]\x7b".data ('[' :: (natChars 0 ++ ']' :: ':' :: format_value v0)) with
    | false => rfl
    | true =>
        have hinf := (pyHasSub_infix_iff _ _).mp h
        exact absurd (hinf.subset (show '\x7b' ∈ "]\x7b".data by decide))
          (hlfacts _ (List.mem_cons_self _ _)).2.2
  have hhc0 : pyHasChar ':' ('[' :: (natChars 0 ++ ']' :: ':' :: format_value v0)) = true :=
    pyHasChar_eq_true (by simp)
  have hpls := pathLoop_arr_start (.cons v0 tl) hall hne
  rw [hfa] at hpls
  simp only [List.map_cons, List.cons_append, List.append_assoc, List.singleton_append,
    List.nil_append] at hpls
  rw [henc]
  simp only [toon_to_json, hlines, hstrip0, hps0, hhsub0, hhc0, Bool.not_true,
    Bool.and_false, Bool.false_and, Bool.true_and, Bool.false_eq_true, if_false, hpls]
  rw [valList_ofList_toList]

/-!  C1 — root scalar round trip. -/

/-- Root scalar round trip: `None`/`True`/`False`/integer text decodes
back to the encoded scalar. -/
theorem toon_scalar_roundtrip (v : Val) (hv : scalarSafe v = true) :
    toon_to_json (json_to_toon v) = .ok v := by
  cases v with
  | null => decide
  | bool b => cases b <;> decide
  | int n =>
      have hchars : ∀ c ∈ intChars n, pyIsSpace c = false := by
        intro c hc
        rcases intChars_chars n c hc with h | rfl
        · exact (digit_char_props c h).1
        · decide
      have hstrip : pyStrip (intChars n) = intChars n := pyStrip_all_nonspace hchars
      have hkeepR : pyStripR (intChars n) = intChars n := pyStripR_all_nonspace hchars
      have hnbmem : (':' : Char) ∉ intChars n := by
        intro hm
        rcases intChars_chars n ':' hm with h | h
        · exact absurd h (by decide)
        · exact absurd h (by decide)
      have hhc : pyHasChar ':' (intChars n) = false := pyHasChar_eq_false hnbmem
      have henc : json_to_toon (.int n) = intChars n := rfl
      have hconv : List.intercalate "\n".data [intChars n] = intChars n := by
        simp [List.intercalate]
      have hnl : ∀ l ∈ [intChars n], '\n' ∉ l := by
        intro l hl
        rcases List.mem_singleton.mp hl with rfl
        exact no_newline_of_nonspace _ hchars
      have hkeep : ∀ l ∈ [intChars n], pyStrip l ≠ [] ∧ pyStripR l = l := by
        intro l hl
        rcases List.mem_singleton.mp hl with rfl
        rw [hstrip]
        exact ⟨intChars_ne_nil n, hkeepR⟩
      have h0 : pyStrip (List.intercalate "\n".data [intChars n])
          = List.intercalate "\n".data [intChars n] := by
        rw [hconv]
        exact hstrip
      have hlines := toon_lines [intChars n] (by simp) h0 hnl hkeep
      rw [hconv, hstrip] at hlines
      have hnb : pyStartsWith "[".data (intChars n) = false := by
        cases hic : intChars n with
        | nil => exact absurd hic (intChars_ne_nil n)
        | cons c t =>
            have hc : ('[' : Char) ≠ c := by
              have hm : c ∈ intChars n := by rw [hic]; exact List.mem_cons_self _ _
              rcases intChars_chars n c hm with h | rfl
              · exact Ne.symm (digit_char_props c h).2.2.2.1
              · decide
            rw [show ("[".data : Chars) = ['['] from rfl]
            simp [pyStartsWith, List.isPrefixOf, hc]
      rw [henc]
      simp only [toon_to_json, hlines, hstrip, hnb, Bool.false_and, Bool.false_eq_true,
        if_false, hhc, Bool.not_false, Bool.and_true, eq_self_iff_true,
        Bool.true_and, if_true, parse_value_intChars]
      rw [if_pos (by decide)]
  | float lit => simp [scalarSafe] at hv
  | str s => simp [scalarSafe] at hv
  | arr xs => simp [scalarSafe] at hv
  | obj kvs => simp [scalarSafe] at hv

/-- C1 (amended): the TOON round trip `toon_to_json (json_to_toon v) = v`
holds on the dialect the code actually inverts: (a) tabular — a non-empty
sequence of mappings sharing one non-empty, duplicate-free list of safe
keys in the same order, with null/boolean/integer values; (b) a flat
mapping with fresh safe keys and null/boolean/integer values; (c) a
non-empty flat root sequence of null/boolean/integer values; (d) a bare
root scalar (null, boolean, or integer).  String leaves break the round
trip (see the counterexample): the encoder prints them bare and the
decoder re-types numeric-looking text. -/
theorem toon_roundtrip_restricted (xs ys : ValList) (ks : List Chars) (kvs : ObjList)
    (v : Val)
    (htab1 : xs ≠ .nil) (htab2 : ks ≠ []) (htab3 : keysFresh ks = true)
    (htab4 : ∀ k ∈ ks, safeKey k = true) (htab5 : xs.allP (rowOK ks) = true)
    (hobj1 : ∀ e ∈ kvs.toList, safeKey e.1 = true ∧ scalarSafe e.2 = true)
    (hobj2 : keysFresh kvs.keys = true)
    (harr1 : ys ≠ .nil) (harr2 : ys.allP scalarSafe = true)
    (hsc : scalarSafe v = true) :
    toon_to_json (json_to_toon (.arr xs)) = .ok (.arr xs) ∧
    toon_to_json (json_to_toon (.obj kvs)) = .ok (.obj kvs) ∧
    toon_to_json (json_to_toon (.arr ys)) = .ok (.arr ys) ∧
    toon_to_json (json_to_toon v) = .ok v :=
  ⟨toon_tabular_roundtrip xs ks htab1 htab2 htab3 htab4 htab5,
   toon_flat_obj_roundtrip kvs hobj1 hobj2,
   toon_flat_arr_roundtrip ys harr1 harr2,
   toon_scalar_roundtrip v hsc⟩

/-- Witness for C1 at concrete inputs: a two-row tabular table over keys
`a`,`b`, the flat mapping `\x7bx: 5, y: None\x7d`, the sequence `[1, False]`,
and the bare scalar `-7`. -/
theorem toon_roundtrip_restricted_witness :
    toon_to_json (json_to_toon (.arr (.cons
        (.obj (.cons "a".data (.int 1) (.cons "b".data (.bool true) .nil)))
        (.cons (.obj (.cons "a".data (.int 2) (.cons "b".data .null .nil))) .nil))))
      = .ok (.arr (.cons
        (.obj (.cons "a".data (.int 1) (.cons "b".data (.bool true) .nil)))
        (.cons (.obj (.cons "a".data (.int 2) (.cons "b".data .null .nil))) .nil))) ∧
    toon_to_json (json_to_toon (.obj (.cons "x".data (.int 5) (.cons "y".data .null .nil))))
      = .ok (.obj (.cons "x".data (.int 5) (.cons "y".data .null .nil))) ∧
    toon_to_json (json_to_toon (.arr (.cons (.int 1) (.cons (.bool false) .nil))))
      = .ok (.arr (.cons (.int 1) (.cons (.bool false) .nil))) ∧
    toon_to_json (json_to_toon (.int (-7))) = .ok (.int (-7)) :=
  toon_roundtrip_restricted
    (.cons (.obj (.cons "a".data (.int 1) (.cons "b".data (.bool true) .nil)))
      (.cons (.obj (.cons "a".data (.int 2) (.cons "b".data .null .nil))) .nil))
    (.cons (.int 1) (.cons (.bool false) .nil))
    ["a".data, "b".data]
    (.cons "x".data (.int 5) (.cons "y".data .null .nil))
    (.int (-7))
    (by decide) (by decide) (by decide) (by decide) (by decide)
    (by decide) (by decide) (by decide) (by decide) (by decide)
